import Mathlib

/-!
# FFT ocean tile: the spectral core (`Ocean/FFTWrapper.h`, `Ocean/FFTWrapper.cpp`)

Shallow embedding of the class `FFTWrapper`.

* `float` values are elements of a linearly ordered field `F`; rounding is not modelled.
  The definitions are generic in `F`, so they evaluate on `ℚ` and specialise to `ℝ`.
* Functions of the C library and of FFTW (`sqrt`, `exp`, `cos`, `sin`, `fftwf_execute`) are not
  part of the repository; they are the fields of `CLib`.
* Raw arrays are maps from the index to the stored value; `std::vector<float>` is `List F`.
* `uint32_t` / `unsigned int` arithmetic wraps modulo `2 ^ 32` (`u32`).  `int` values are kept
  exact; the theorems bound the grid size so that no `int` of the source overflows.
* A counted `for` loop is `forLoop`.
-/

namespace FFTOcean

/-- Arithmetic of `uint32_t` and `unsigned int`: results wrap modulo `2 ^ 32`. -/
def u32 (x : Nat) : Nat := x % 2 ^ 32

/-- The loop `for (k = 0; k < bound; ++k) body`, as a function of the number of iterations:
`forLoop body bound s` runs `body 0`, ..., `body (bound - 1)` in this order from state `s`. -/
def forLoop {σ : Type} (body : Nat → σ → σ) : Nat → σ → σ
  | 0, s => s
  | k + 1, s => body k (forLoop body k s)

/-- A counted `for` loop whose body may fail to return: the first failure ends the loop. -/
def forLoopM {σ : Type} (body : Nat → σ → Option σ) : Nat → σ → Option σ
  | 0, s => some s
  | k + 1, s => (forLoopM body k s).bind (body k)

/-- Functions the source takes from outside the repository: `sqrt`, `exp`, `cos`, `sin` of
`<cmath>` and the planned transform of FFTW (`fftwf_execute` on an `m_width` by `m_height`
backward plan, from the input buffer to the output buffer). -/
structure CLib (F : Type) where
  sqrt : F → F
  exp : F → F
  cos : F → F
  sin : F → F
  fftwf_execute : Nat → Nat → (Nat → Nat → F) → (Nat → Nat → F)

/-- The struct `Vec2` of `FFTWrapper.h`. -/
structure Vec2 (F : Type) where
  x : F
  y : F
deriving DecidableEq

/-- Modelled from the spec: `v3` is `DirectX::SimpleMath::Vector3`, whose source is not in the
repository; only its three `float` members, `Normalize` and `Cross` are used. -/
structure v3 (F : Type) where
  x : F
  y : F
  z : F
deriving DecidableEq

/-- The data members of the class `FFTWrapper` (`FFTWrapper.h`, lines 47-85).  The buffers
`m_FFTin[b][n][c]` and `m_FFTout[b][n][c]` are indexed by buffer, cell and component. -/
structure FFTWrapper (F : Type) where
  m_width : Nat
  m_height : Nat
  m_windNormal : Vec2 F
  m_windSpeed : F
  m_amplitude : F
  m_kVectors : Nat → Vec2 F
  m_kMag : Nat → F
  m_h0tilde : Nat → Vec2 F
  m_h0tildeConj : Nat → Vec2 F
  m_FFTin : Nat → Nat → Nat → F
  m_FFTout : Nat → Nat → Nat → F
  m_cosLookup : Nat → Int
  m_sinLookup : Nat → Int
  m_cosPrecalc : Nat → List F
  m_sinPrecalc : Nat → List F
  pImageOut : Nat → F
  pNormalOut : Nat → F

/-- The execution configuration that `Configurations.h` selects (one of the three macros
`GPGPU_NORM_CD`, `CPU_NORM_FFT`, `CPU_NORM_CD` is defined). -/
inductive Config where
  | GPGPU_NORM_CD
  | CPU_NORM_FFT
  | CPU_NORM_CD
deriving DecidableEq

/-- The members of `OceanApp` (`AppOcean.cpp`) that `on_update` reads or writes, apart from the
camera matrices and the Direct3D handles: the simulation core, the time of the constant buffer
`m_oceanCsCBData`, the choppiness, height adjustment, foam intensity and reflectivity copied to
the constant buffers `m_normCsCBData` and `m_perFrameCBData`, the model variables and check
boxes (lines 690-698), the contents of the two textures the buffers are copied to and of the
reader buffer `g_pBufReader`. -/
structure OceanApp (F : Type) where
  m_wrapper : FFTWrapper F
  m_oceanCsCBData_m_time : F
  m_normCsCBData_m_choppy : F
  m_normCsCBData_m_heightAdjust : F
  m_normCsCBData_m_foamIntensity : F
  m_perFrameCBData_m_choppy : F
  m_perFrameCBData_m_heightAdjust : F
  m_perFrameCBData_m_reflectivity : F
  m_lambda : F
  m_foamInt : F
  m_timescale : F
  m_heightAdj : F
  m_reflectFrag : F
  m_onlyWireframe : Bool
  m_showHeightmaps : Bool
  m_drawSkymap : Bool
  m_pause : Bool
  m_heightmapTexture : Nat → F
  m_normalmapTexture : Nat → F
  g_pBufReader : Nat → Vec2 F

/-- What the environment of one call of `on_update` supplies: the values the ImGui sliders
and check boxes leave in the members they are bound to (lines 265-286; a widget that is not
touched leaves the value it finds), and the contents the two compute shader dispatches of the
call write (the normal map of `compute_normals_cs`, the spectrum of `compute_htilde_cs`). -/
structure FrameInput (F : Type) where
  heightAdj : F
  lambda : F
  foamInt : F
  reflectFrag : F
  timescale : F
  onlyWireframe : Bool
  drawSkymap : Bool
  showHeightmaps : Bool
  pause : Bool
  normals_cs : Nat → F
  htilde_cs : Nat → Vec2 F

section Defs

variable {F : Type} [LinearOrderedField F]

/-- Constant `kfPi = 3.1415926f`. -/
def kfPi : F := 31415926 / 10000000

/-- Constant `kfTwoPi = 6.283185307f`. -/
def kfTwoPi : F := 6283185307 / 1000000000

/-- Constant `kfGravity = 9.81f`. -/
def kfGravity : F := 981 / 100

/-- Constant `kfWorldUnit = 200`. -/
def kfWorldUnit : F := 200

/-- A wrapper of grid size `gridsize` with the presets of `FFTWrapper.h` (wind `(1, 0)`,
wind speed `26`, amplitude `20`) and every buffer holding zero. -/
def FFTWrapper.blank (gridsize : Nat) : FFTWrapper F where
  m_width := gridsize
  m_height := gridsize
  m_windNormal := ⟨1, 0⟩
  m_windSpeed := 26
  m_amplitude := 20
  m_kVectors := fun _ => ⟨0, 0⟩
  m_kMag := fun _ => 0
  m_h0tilde := fun _ => ⟨0, 0⟩
  m_h0tildeConj := fun _ => ⟨0, 0⟩
  m_FFTin := fun _ _ _ => 0
  m_FFTout := fun _ _ _ => 0
  m_cosLookup := fun _ => 0
  m_sinLookup := fun _ => 0
  m_cosPrecalc := fun _ => []
  m_sinPrecalc := fun _ => []
  pImageOut := fun _ => 0
  pNormalOut := fun _ => 0

/-- A wrapper of grid size `gridsize` with the presets of the header and non-constant
transformed fields and height buffer, for evaluating the routines that read them. -/
def FFTWrapper.sample (gridsize : Nat) : FFTWrapper F :=
  { (FFTWrapper.blank gridsize : FFTWrapper F) with
    m_FFTout := fun b n c => ((b + 1) * (n + 1) : Nat) - (c : F) * 3
    pImageOut := fun idx => (idx : F) * (idx : F) / 7 }

/-- Inline `sqr`. -/
def sqr (x : F) : F := x * x

/-- Inline `dot`. -/
def dot (a b : Vec2 F) : F := a.x * b.x + a.y * b.y

/-- Inline `magnitude(const Vec2&)`. -/
def magnitude (M : CLib F) (v : Vec2 F) : F := M.sqrt (v.x * v.x + v.y * v.y)

/-- Inline `normal(const Vec2&, const float&)`. -/
def normal (v : Vec2 F) (kMag : F) : Vec2 F := ⟨v.x / kMag, v.y / kMag⟩

/-- Squared magnitude `|v|^2` of a complex number held in a `Vec2`. -/
def normSq (v : Vec2 F) : F := v.x * v.x + v.y * v.y

/-- Inline `multComplex`. -/
def multComplex (a b : Vec2 F) : Vec2 F := ⟨a.x * b.x - a.y * b.y, a.x * b.y + a.y * b.x⟩

/-- Inline `addComplex`. -/
def addComplex (a b : Vec2 F) : Vec2 F := ⟨a.x + b.x, a.y + b.y⟩

/-- Write `v` to `buf[b][n][c]`. -/
def wr3 (buf : Nat → Nat → Nat → F) (b n c : Nat) (v : F) : Nat → Nat → Nat → F :=
  fun b' n' c' => if b' = b ∧ n' = n ∧ c' = c then v else buf b' n' c'

/-- Write `v` to `buf[n]`. -/
def wr {α : Type} (buf : Nat → α) (n : Nat) (v : α) : Nat → α :=
  fun n' => if n' = n then v else buf n'

/-- The transform FFTW documents for a plan `fftwf_plan_dft_2d(n0, n1, in, out, FFTW_BACKWARD, _)`:
the unnormalised two-dimensional DFT with exponent sign `+1` on row-major `n0` by `n1` data,
written with the real and imaginary parts (components `0` and `1`) apart. -/
def backwardDFT (cos sin : F → F) (twoPi : F) (n0 n1 : Nat) (inp : Nat → Nat → F)
    (idx c : Nat) : F :=
  ∑ j0 ∈ Finset.range n0, ∑ j1 ∈ Finset.range n1,
    if c = 0 then
      inp (j0 * n1 + j1) 0 *
          cos (twoPi * ((j0 : F) * ((idx / n1 : Nat) : F) / n0 +
            (j1 : F) * ((idx % n1 : Nat) : F) / n1)) -
        inp (j0 * n1 + j1) 1 *
          sin (twoPi * ((j0 : F) * ((idx / n1 : Nat) : F) / n0 +
            (j1 : F) * ((idx % n1 : Nat) : F) / n1))
    else
      inp (j0 * n1 + j1) 0 *
          sin (twoPi * ((j0 : F) * ((idx / n1 : Nat) : F) / n0 +
            (j1 : F) * ((idx % n1 : Nat) : F) / n1)) +
        inp (j0 * n1 + j1) 1 *
          cos (twoPi * ((j0 : F) * ((idx / n1 : Nat) : F) / n0 +
            (j1 : F) * ((idx % n1 : Nat) : F) / n1))

/-- `FFTWrapper::Philips_Spectrum` (`FFTWrapper.cpp`, lines 69-78). -/
def FFTWrapper.Philips_Spectrum (M : CLib F) (s : FFTWrapper F) (vK : Vec2 F) (kMag : F) : F :=
  let L := (s.m_windSpeed * s.m_windSpeed) / kfGravity
  let k2 := sqr kMag
  let normDot := sqr (dot (normal vK kMag) s.m_windNormal)
  let numer := M.exp (-1 / (k2 * sqr L))
  let denom := sqr k2
  s.m_amplitude * (numer / denom) * normDot

/-- Body of the inner loop of `Fill_K_Vectors` (lines 94-103) for column `i`, with `kz` fixed
by the outer loop; the pair carries the object and the counter `n`. -/
def FFTWrapper.Fill_K_Vectors_cell (M : CLib F) (kz : F) (i : Nat)
    (st : FFTWrapper F × Nat) : FFTWrapper F × Nat :=
  let kx : F := kfTwoPi * (i : F) / kfWorldUnit
  let n := st.2
  let t1 : FFTWrapper F := { st.1 with m_kVectors := wr st.1.m_kVectors n ⟨kx, kz⟩ }
  let t2 : FFTWrapper F :=
    { t1 with m_kMag := wr t1.m_kMag n (magnitude M (t1.m_kVectors n)) }
  let t3 : FFTWrapper F :=
    { t2 with m_kMag := if t2.m_kMag n < 1 / 10000 then wr t2.m_kMag n (1 / 10000)
                        else t2.m_kMag }
  (t3, u32 (n + 1))

/-- Body of the outer loop of `Fill_K_Vectors` (lines 91-104) for row `j`. -/
def FFTWrapper.Fill_K_Vectors_row (M : CLib F) (width : Nat) (j : Nat)
    (st : FFTWrapper F × Nat) : FFTWrapper F × Nat :=
  let kz : F := kfTwoPi * (j : F) / kfWorldUnit
  forLoop (FFTWrapper.Fill_K_Vectors_cell M kz) width st

/-- `FFTWrapper::Fill_K_Vectors` (lines 80-106).  The locals `height2` and `width2` are never
read and are left out. -/
def FFTWrapper.Fill_K_Vectors (M : CLib F) (s : FFTWrapper F) : FFTWrapper F :=
  (forLoop (FFTWrapper.Fill_K_Vectors_row M s.m_width) s.m_height (s, 0)).1

/-- Body of the loop of `Fill_h0tilde` (lines 157-165) for cell `n`.  `dist k` is the value
the `k`-th call `(float)dist(e2)` returns; the pair carries the object and the number of calls
made so far.  `oneOverRoot2` is the constant computed before the loop. -/
def FFTWrapper.Fill_h0tilde_cell (M : CLib F) (dist : Nat → F) (oneOverRoot2 : F) (n : Nat)
    (st : FFTWrapper F × Nat) : FFTWrapper F × Nat :=
  let s := st.1
  let d := st.2
  let rootOfPh : F := M.sqrt (s.Philips_Spectrum M (s.m_kVectors n) (s.m_kMag n))
  let rootOfPh : F := rootOfPh * oneOverRoot2
  let s1 : FFTWrapper F :=
    { s with m_h0tilde := wr s.m_h0tilde n ⟨dist d * rootOfPh, dist (d + 1) * rootOfPh⟩ }
  let rootOfPh : F :=
    M.sqrt (s1.Philips_Spectrum M ⟨-(s1.m_kVectors n).x, -(s1.m_kVectors n).y⟩ (s1.m_kMag n))
  let rootOfPh : F := rootOfPh * oneOverRoot2
  let s2 : FFTWrapper F :=
    { s1 with
      m_h0tildeConj := wr s1.m_h0tildeConj n ⟨dist (d + 2) * rootOfPh, -dist (d + 3) * rootOfPh⟩ }
  (s2, d + 4)

/-- `FFTWrapper::Fill_h0tilde` (lines 145-167), for the sample sequence `dist` of the seeded
generator. -/
def FFTWrapper.Fill_h0tilde (M : CLib F) (dist : Nat → F) (s : FFTWrapper F) : FFTWrapper F :=
  let oneOverRoot2 : F := 1 / M.sqrt 2
  (forLoop (FFTWrapper.Fill_h0tilde_cell M dist oneOverRoot2) (u32 (s.m_width * s.m_height))
    (s, 0)).1

/-- The test `lookup >= vector.size()` of an `int` against a `size_t`: the `int` is converted
to unsigned, so a negative value compares above every size. -/
def sizeGe (lookup : Int) (size : Nat) : Prop := lookup < 0 ∨ (size : Int) ≤ lookup

instance (lookup : Int) (size : Nat) : Decidable (sizeGe lookup size) := by
  unfold sizeGe; infer_instance

/-- The read `vector[lookup]` of a `std::vector<float>` at an `int` index.  Outside the vector
the source has no defined value; the model reads `0` there. -/
def vecAt (v : List F) (lookup : Int) : F := if 0 ≤ lookup then v.getD lookup.toNat 0 else 0

/-- Body of the loop of `Fill_htilde_and_Displacements` (lines 177-205) for cell `i`.  The read
indices are `int`; the increment is exact (an index never exceeds the cache size by more than
one after the first call). -/
def FFTWrapper.Fill_htilde_and_Displacements_cell (i : Nat) (s : FFTWrapper F) : FFTWrapper F :=
  let oneOverKMag : F := 1 / s.m_kMag i
  let s1 : FFTWrapper F := { s with m_cosLookup := wr s.m_cosLookup i (s.m_cosLookup i + 1) }
  let s2 : FFTWrapper F := { s1 with m_sinLookup := wr s1.m_sinLookup i (s1.m_sinLookup i + 1) }
  let s3 : FFTWrapper F :=
    { s2 with m_cosLookup := if sizeGe (s2.m_cosLookup i) (s2.m_cosPrecalc i).length
                             then wr s2.m_cosLookup i 0 else s2.m_cosLookup }
  let s4 : FFTWrapper F :=
    { s3 with m_sinLookup := if sizeGe (s3.m_sinLookup i) (s3.m_sinPrecalc i).length
                             then wr s3.m_sinLookup i 0 else s3.m_sinLookup }
  let expPos : Vec2 F :=
    ⟨vecAt (s4.m_cosPrecalc i) (s4.m_cosLookup i), vecAt (s4.m_sinPrecalc i) (s4.m_sinLookup i)⟩
  let expNeg : Vec2 F := ⟨expPos.x, -expPos.y⟩
  let htilde : Vec2 F :=
    addComplex (multComplex (s4.m_h0tilde i) expPos) (multComplex (s4.m_h0tildeConj i) expNeg)
  let s5 : FFTWrapper F := { s4 with m_FFTin := wr3 s4.m_FFTin 0 i 0 htilde.x }
  let s6 : FFTWrapper F := { s5 with m_FFTin := wr3 s5.m_FFTin 0 i 1 htilde.y }
  let dispX : Vec2 F := multComplex ⟨0, -(s6.m_kVectors i).x * oneOverKMag⟩ htilde
  let s7 : FFTWrapper F := { s6 with m_FFTin := wr3 s6.m_FFTin 1 i 0 dispX.x }
  let s8 : FFTWrapper F := { s7 with m_FFTin := wr3 s7.m_FFTin 1 i 1 dispX.y }
  let dispZ : Vec2 F := multComplex ⟨0, -(s8.m_kVectors i).y * oneOverKMag⟩ htilde
  let s9 : FFTWrapper F := { s8 with m_FFTin := wr3 s8.m_FFTin 2 i 0 dispZ.x }
  { s9 with m_FFTin := wr3 s9.m_FFTin 2 i 1 dispZ.y }

/-- The read index that `++lookup; if (lookup >= size) lookup = 0;` leaves (lines 180-186). -/
def nextLookup (lookup : Int) (size : Nat) : Int :=
  if sizeGe (lookup + 1) size then 0 else lookup + 1

/-- The value `expPos` of the body of `Fill_htilde_and_Displacements` for cell `i` (line 189). -/
def FFTWrapper.expPos (s : FFTWrapper F) (i : Nat) : Vec2 F :=
  ⟨vecAt (s.m_cosPrecalc i) (nextLookup (s.m_cosLookup i) (s.m_cosPrecalc i).length),
   vecAt (s.m_sinPrecalc i) (nextLookup (s.m_sinLookup i) (s.m_sinPrecalc i).length)⟩

/-- The value `htilde` of the body for cell `i` (lines 190-193). -/
def FFTWrapper.htilde (s : FFTWrapper F) (i : Nat) : Vec2 F :=
  addComplex (multComplex (s.m_h0tilde i) (s.expPos i))
    (multComplex (s.m_h0tildeConj i) ⟨(s.expPos i).x, -(s.expPos i).y⟩)

/-- The value `dispX` of the body for cell `i` (line 198). -/
def FFTWrapper.dispX (s : FFTWrapper F) (i : Nat) : Vec2 F :=
  multComplex ⟨0, -(s.m_kVectors i).x * (1 / s.m_kMag i)⟩ (s.htilde i)

/-- The value `dispZ` of the body for cell `i` (line 203). -/
def FFTWrapper.dispZ (s : FFTWrapper F) (i : Nat) : Vec2 F :=
  multComplex ⟨0, -(s.m_kVectors i).y * (1 / s.m_kMag i)⟩ (s.htilde i)

/-- The six writes of one cell to the three spectral buffers (lines 194-205). -/
def cellFFTin (buf : Nat → Nat → Nat → F) (i : Nat) (h dx dz : Vec2 F) : Nat → Nat → Nat → F :=
  wr3 (wr3 (wr3 (wr3 (wr3 (wr3 buf 0 i 0 h.x) 0 i 1 h.y) 1 i 0 dx.x) 1 i 1 dx.y) 2 i 0 dz.x)
    2 i 1 dz.y

/-- `FFTWrapper::Fill_htilde_and_Displacements` (lines 169-207). -/
def FFTWrapper.Fill_htilde_and_Displacements (s : FFTWrapper F) : FFTWrapper F :=
  forLoop FFTWrapper.Fill_htilde_and_Displacements_cell (u32 (s.m_width * s.m_height)) s

/-- Body of the loop of `Fill_Horizontal_Displacement` (lines 217-223) for cell `i`. -/
def FFTWrapper.Fill_Horizontal_Displacement_cell (i : Nat) (s : FFTWrapper F) : FFTWrapper F :=
  let oneOverKMag : F := 1 / s.m_kMag i
  let s1 : FFTWrapper F :=
    { s with
      m_FFTin := wr3 s.m_FFTin 1 i 0 (1 * (s.m_kVectors i).x * s.m_FFTin 0 i 1 * oneOverKMag) }
  let s2 : FFTWrapper F :=
    { s1 with
      m_FFTin := wr3 s1.m_FFTin 1 i 1 (-1 * (s1.m_kVectors i).x * s1.m_FFTin 0 i 0 * oneOverKMag) }
  let s3 : FFTWrapper F :=
    { s2 with
      m_FFTin := wr3 s2.m_FFTin 2 i 0 (1 * (s2.m_kVectors i).y * s2.m_FFTin 0 i 1 * oneOverKMag) }
  { s3 with
    m_FFTin := wr3 s3.m_FFTin 2 i 1 (-1 * (s3.m_kVectors i).y * s3.m_FFTin 0 i 0 * oneOverKMag) }

/-- `FFTWrapper::Fill_Horizontal_Displacement` (lines 209-225). -/
def FFTWrapper.Fill_Horizontal_Displacement (s : FFTWrapper F) : FFTWrapper F :=
  forLoop FFTWrapper.Fill_Horizontal_Displacement_cell (u32 (s.m_width * s.m_height)) s

/-- The four writes of `Fill_Horizontal_Displacement` at cell `n` (lines 219-223). -/
def FFTWrapper.hdispFFTin (s : FFTWrapper F) (n : Nat) : Nat → Nat → Nat → F :=
  wr3 (wr3 (wr3 (wr3 s.m_FFTin
    1 n 0 (1 * (s.m_kVectors n).x * s.m_FFTin 0 n 1 * (1 / s.m_kMag n)))
    1 n 1 (-1 * (s.m_kVectors n).x * s.m_FFTin 0 n 0 * (1 / s.m_kMag n)))
    2 n 0 (1 * (s.m_kVectors n).y * s.m_FFTin 0 n 1 * (1 / s.m_kMag n)))
    2 n 1 (-1 * (s.m_kVectors n).y * s.m_FFTin 0 n 0 * (1 / s.m_kMag n))

/-- Body of the loop of `Fill_Texture` (lines 237-240, the `SHOWFFT` branch) for cell `n`. -/
def FFTWrapper.Fill_Texture_cell (n : Nat) (s : FFTWrapper F) : FFTWrapper F :=
  let s1 : FFTWrapper F :=
    { s with pImageOut := wr s.pImageOut (u32 (4 * n + 0)) (s.m_FFTout 1 n 0 / (s.m_height : F)) }
  let s2 : FFTWrapper F :=
    { s1 with
      pImageOut := wr s1.pImageOut (u32 (4 * n + 1)) (s1.m_FFTout 0 n 0 / (s1.m_height : F)) }
  let s3 : FFTWrapper F :=
    { s2 with
      pImageOut := wr s2.pImageOut (u32 (4 * n + 2)) (s2.m_FFTout 2 n 0 / (s2.m_height : F)) }
  { s3 with pImageOut := wr s3.pImageOut (u32 (4 * n + 3)) 1 }

/-- `FFTWrapper::Fill_Texture` (lines 227-253). -/
def FFTWrapper.Fill_Texture (s : FFTWrapper F) : FFTWrapper F :=
  forLoop FFTWrapper.Fill_Texture_cell (u32 (s.m_height * s.m_width)) s

/-- The value `Fill_Texture` stores in channel `ch` of cell `n`. -/
def FFTWrapper.texel (s : FFTWrapper F) (n ch : Nat) : F :=
  if ch = 0 then s.m_FFTout 1 n 0 / (s.m_height : F)
  else if ch = 1 then s.m_FFTout 0 n 0 / (s.m_height : F)
  else if ch = 2 then s.m_FFTout 2 n 0 / (s.m_height : F)
  else 1

/-- Modelled from the spec: `v3::Normalize` of `DirectX::SimpleMath::Vector3` (its source is not
in the repository) "normalizes" the vector, dividing each member by the Euclidean length. -/
def v3.Normalize (M : CLib F) (v : v3 F) : v3 F :=
  ⟨v.x / M.sqrt (v.x * v.x + v.y * v.y + v.z * v.z),
   v.y / M.sqrt (v.x * v.x + v.y * v.y + v.z * v.z),
   v.z / M.sqrt (v.x * v.x + v.y * v.y + v.z * v.z)⟩

/-- Modelled from the spec: `v3::Cross` of `DirectX::SimpleMath::Vector3` (its source is not in
the repository) is the "cross product" of the two vectors. -/
def v3.Cross (a b : v3 F) : v3 F :=
  ⟨a.y * b.z - a.z * b.y, a.z * b.x - a.x * b.z, a.x * b.y - a.y * b.x⟩

/-- The value `intensity` of both normal routines (lines 262-263 and 315-316). -/
def FFTWrapper.foamIntensity (s : FFTWrapper F) (foamInt : F) : F :=
  let intensity : F := 1 / ((s.m_height : F) / (1 + foamInt))
  if foamInt = 0 then 0 else intensity

/-- Body of the first loop nest of `Fill_Normals_FFT` (lines 270-292) for cell `(i, j)`. -/
def FFTWrapper.Fill_Normals_FFT_cell (choppy intensity : F) (j i : Nat) (s : FFTWrapper F) :
    FFTWrapper F :=
  let xNext : Nat := if i = s.m_width - 1 then 0 else i + 1
  let zNext : Nat := if j = s.m_height - 1 then 0 else j + 1
  let n : Nat := u32 (j * s.m_height + i)
  let nInd : Nat := u32 (j * s.m_height + xNext)
  let Jxx : F := 1 + choppy * (-s.m_FFTout 1 nInd 0 + s.m_FFTout 1 n 0) * intensity
  let Jxy : F := choppy * (-s.m_FFTout 2 nInd 0 + s.m_FFTout 2 n 0) * intensity
  let nInd : Nat := u32 (zNext * s.m_height + i)
  let Jyy : F := 1 + choppy * (-s.m_FFTout 2 nInd 0 + s.m_FFTout 2 n 0) * intensity
  let Jyx : F := choppy * (-s.m_FFTout 1 nInd 0 + s.m_FFTout 1 n 0) * intensity
  let jacobian : F := (Jxx * Jyy) - (Jxy * Jyx)
  let s1 : FFTWrapper F :=
    { s with pNormalOut := wr s.pNormalOut (u32 (4 * n + 3)) (if jacobian < 0 then 1 else 0) }
  let s2 : FFTWrapper F :=
    { s1 with m_FFTin := wr3 s1.m_FFTin 1 n 0 (-1 * (s1.m_kVectors n).x * s1.m_FFTin 0 n 1) }
  let s3 : FFTWrapper F :=
    { s2 with m_FFTin := wr3 s2.m_FFTin 1 n 1 ((s2.m_kVectors n).x * s2.m_FFTin 0 n 0) }
  let s4 : FFTWrapper F :=
    { s3 with m_FFTin := wr3 s3.m_FFTin 2 n 0 (-1 * (s3.m_kVectors n).y * s3.m_FFTin 0 n 1) }
  { s4 with m_FFTin := wr3 s4.m_FFTin 2 n 1 ((s4.m_kVectors n).y * s4.m_FFTin 0 n 0) }

/-- The call `fftwf_execute(m_plan[b])`: the plan made in the constructor transforms
`m_FFTin[b]` into `m_FFTout[b]` on an `m_width` by `m_height` grid. -/
def FFTWrapper.execute (M : CLib F) (b : Nat) (s : FFTWrapper F) : FFTWrapper F :=
  { s with
    m_FFTout := fun b' => if b' = b then M.fftwf_execute s.m_width s.m_height (s.m_FFTin b)
      else s.m_FFTout b' }

/-- Body of the last loop of `Fill_Normals_FFT` (lines 302-304) for cell `n`. -/
def FFTWrapper.Fill_Normals_FFT_write (n : Nat) (s : FFTWrapper F) : FFTWrapper F :=
  let s1 : FFTWrapper F :=
    { s with pNormalOut := wr s.pNormalOut (u32 (4 * n + 0)) (s.m_FFTout 1 n 0) }
  let s2 : FFTWrapper F := { s1 with pNormalOut := wr s1.pNormalOut (u32 (4 * n + 1)) 2500 }
  { s2 with pNormalOut := wr s2.pNormalOut (u32 (4 * n + 2)) (s2.m_FFTout 2 n 0) }

/-- `FFTWrapper::Fill_Normals_FFT` (lines 255-306). -/
def FFTWrapper.Fill_Normals_FFT (M : CLib F) (choppy foamInt : F) (s : FFTWrapper F) :
    FFTWrapper F :=
  let intensity : F := 1 / ((s.m_height : F) / (1 + foamInt))
  let intensity : F := if foamInt = 0 then 0 else intensity
  let s1 : FFTWrapper F :=
    forLoop (fun j => forLoop (FFTWrapper.Fill_Normals_FFT_cell choppy intensity j) s.m_width)
      s.m_height s
  let s2 : FFTWrapper F := s1.execute M 1
  let s3 : FFTWrapper F := s2.execute M 2
  forLoop FFTWrapper.Fill_Normals_FFT_write (u32 (s3.m_height * s3.m_width)) s3

/-- Body of the loop nest of `Fill_Normals_Central_Diff` (lines 325-355) for cell `(i, j)`.
The indices `n` and `nInd` are `int` in the source: they take the value of the unsigned sum and
`4 * n + c` is not wrapped. -/
def FFTWrapper.Fill_Normals_Central_Diff_cell (M : CLib F) (choppy heightAdj intensity : F)
    (j i : Nat) (s : FFTWrapper F) : FFTWrapper F :=
  let xNext : Nat := if i = s.m_width - 1 then 0 else i + 1
  let zNext : Nat := if j = s.m_height - 1 then 0 else j + 1
  let n : Nat := u32 (j * s.m_height + i)
  let s11 : F := heightAdj * s.pImageOut (4 * n + 1)
  let nInd : Nat := u32 (j * s.m_height + xNext)
  let s21 : F := heightAdj * s.pImageOut (4 * nInd + 1)
  let Jxx : F := 1 + choppy * (-s.m_FFTout 1 nInd 0 + s.m_FFTout 1 n 0) * intensity
  let Jxy : F := choppy * (-s.m_FFTout 2 nInd 0 + s.m_FFTout 2 n 0) * intensity
  let nInd : Nat := u32 (zNext * s.m_height + i)
  let s12 : F := heightAdj * s.pImageOut (4 * nInd + 1)
  let Jyy : F := 1 + choppy * (-s.m_FFTout 2 nInd 0 + s.m_FFTout 2 n 0) * intensity
  let Jyx : F := choppy * (-s.m_FFTout 1 nInd 0 + s.m_FFTout 1 n 0) * intensity
  let va : v3 F := v3.Normalize M ⟨2, 0, s21 - s11⟩
  let vb : v3 F := v3.Normalize M ⟨0, 2, s12 - s11⟩
  let normals : v3 F := va.Cross vb
  let jacobian : F := (Jxx * Jyy) - (Jxy * Jyx)
  let s1 : FFTWrapper F := { s with pNormalOut := wr s.pNormalOut (4 * n + 0) normals.x }
  let s2 : FFTWrapper F := { s1 with pNormalOut := wr s1.pNormalOut (4 * n + 1) normals.z }
  let s3 : FFTWrapper F := { s2 with pNormalOut := wr s2.pNormalOut (4 * n + 2) normals.y }
  { s3 with pNormalOut := wr s3.pNormalOut (4 * n + 3) (if jacobian < 0 then 1 else 0) }

/-- `FFTWrapper::Fill_Normals_Central_Diff` (lines 308-358). -/
def FFTWrapper.Fill_Normals_Central_Diff (M : CLib F) (choppy heightAdj foamInt : F)
    (s : FFTWrapper F) : FFTWrapper F :=
  let intensity : F := 1 / ((s.m_height : F) / (1 + foamInt))
  let intensity : F := if foamInt = 0 then 0 else intensity
  forLoop
    (fun j => forLoop (FFTWrapper.Fill_Normals_Central_Diff_cell M choppy heightAdj intensity j)
      s.m_width)
    s.m_height s

/-- The neighbour column `xNext` of column `i` (lines 270 and 325). -/
def FFTWrapper.xNext (s : FFTWrapper F) (i : Nat) : Nat := if i = s.m_width - 1 then 0 else i + 1

/-- The neighbour row `zNext` of row `j` (lines 271 and 326). -/
def FFTWrapper.zNext (s : FFTWrapper F) (j : Nat) : Nat := if j = s.m_height - 1 then 0 else j + 1

/-- The linear index `j * m_height + i` of cell `(i, j)` (lines 273 and 328). -/
def FFTWrapper.cellIndex (s : FFTWrapper F) (j i : Nat) : Nat := u32 (j * s.m_height + i)

/-- The Jacobian entry `Jxx` of cell `(i, j)` (lines 276 and 334). -/
def FFTWrapper.Jxx (s : FFTWrapper F) (choppy intensity : F) (j i : Nat) : F :=
  1 + choppy * (-s.m_FFTout 1 (s.cellIndex j (s.xNext i)) 0 + s.m_FFTout 1 (s.cellIndex j i) 0) *
    intensity

/-- The Jacobian entry `Jxy` of cell `(i, j)` (lines 277 and 335). -/
def FFTWrapper.Jxy (s : FFTWrapper F) (choppy intensity : F) (j i : Nat) : F :=
  choppy * (-s.m_FFTout 2 (s.cellIndex j (s.xNext i)) 0 + s.m_FFTout 2 (s.cellIndex j i) 0) *
    intensity

/-- The Jacobian entry `Jyy` of cell `(i, j)` (lines 280 and 340). -/
def FFTWrapper.Jyy (s : FFTWrapper F) (choppy intensity : F) (j i : Nat) : F :=
  1 + choppy * (-s.m_FFTout 2 (s.cellIndex (s.zNext j) i) 0 + s.m_FFTout 2 (s.cellIndex j i) 0) *
    intensity

/-- The Jacobian entry `Jyx` of cell `(i, j)` (lines 281 and 341). -/
def FFTWrapper.Jyx (s : FFTWrapper F) (choppy intensity : F) (j i : Nat) : F :=
  choppy * (-s.m_FFTout 1 (s.cellIndex (s.zNext j) i) 0 + s.m_FFTout 1 (s.cellIndex j i) 0) *
    intensity

/-- The foam value of cell `(i, j)` (lines 283-285 and 350-355). -/
def FFTWrapper.foam (s : FFTWrapper F) (choppy intensity : F) (j i : Nat) : F :=
  if (s.Jxx choppy intensity j i * s.Jyy choppy intensity j i) -
      (s.Jxy choppy intensity j i * s.Jyx choppy intensity j i) < 0 then 1 else 0

/-- The vector `normals` of cell `(i, j)` in `Fill_Normals_Central_Diff` (lines 329-349). -/
def FFTWrapper.cdNormal (M : CLib F) (s : FFTWrapper F) (heightAdj : F) (j i : Nat) : v3 F :=
  (v3.Normalize M ⟨2, 0, heightAdj * s.pImageOut (4 * s.cellIndex j (s.xNext i) + 1) -
      heightAdj * s.pImageOut (4 * s.cellIndex j i + 1)⟩).Cross
    (v3.Normalize M ⟨0, 2, heightAdj * s.pImageOut (4 * s.cellIndex (s.zNext j) i + 1) -
      heightAdj * s.pImageOut (4 * s.cellIndex j i + 1)⟩)

/-- The value `Fill_Normals_Central_Diff` stores in channel `ch` of cell `(i, j)`
(lines 352-355). -/
def FFTWrapper.cdTexel (M : CLib F) (s : FFTWrapper F) (choppy heightAdj intensity : F)
    (j i ch : Nat) : F :=
  if ch = 0 then (s.cdNormal M heightAdj j i).x
  else if ch = 1 then (s.cdNormal M heightAdj j i).z
  else if ch = 2 then (s.cdNormal M heightAdj j i).y
  else s.foam choppy intensity j i

/-- The four writes of `Fill_Normals_FFT` to the spectral buffers `1` and `2` at cell `n`
(lines 288-292). -/
def FFTWrapper.gradFFTin (s : FFTWrapper F) (n : Nat) : Nat → Nat → Nat → F :=
  wr3 (wr3 (wr3 (wr3 s.m_FFTin 1 n 0 (-1 * (s.m_kVectors n).x * s.m_FFTin 0 n 1))
    1 n 1 ((s.m_kVectors n).x * s.m_FFTin 0 n 0))
    2 n 0 (-1 * (s.m_kVectors n).y * s.m_FFTin 0 n 1))
    2 n 1 ((s.m_kVectors n).y * s.m_FFTin 0 n 0)

/-- The value `omegaK` of `Precalculate_Sinusoids` for cell `i` (line 128). -/
def FFTWrapper.omegaK (M : CLib F) (s : FFTWrapper F) (i : Nat) : F :=
  M.sqrt (kfGravity * s.m_kMag i)

/-- The value `wavePeriod` of `Precalculate_Sinusoids` for cell `i` (line 130). -/
def FFTWrapper.wavePeriod (M : CLib F) (s : FFTWrapper F) (i : Nat) : F :=
  kfTwoPi / s.omegaK M i

/-- The inner loop of `Precalculate_Sinusoids` (lines 137-141),
`for (float time_unit(0); time_unit < wavePeriod; time_unit += step)`, run from the value
`time_unit` with the two vectors `cs` of the cell.  The loop is controlled by a `float`, so the
model takes `fuel`, an upper bound on the number of tests of the loop condition: `none` means
that the bound was reached before the loop ended. -/
def sinusoidLoop (M : CLib F) (omegaK wavePeriod step : F) :
    Nat → F → List F × List F → Option (List F × List F)
  | 0, _, _ => none
  | fuel + 1, time_unit, cs =>
    if time_unit < wavePeriod then
      sinusoidLoop M omegaK wavePeriod step fuel (time_unit + step)
        (cs.1 ++ [M.cos (omegaK * time_unit)], cs.2 ++ [M.sin (omegaK * time_unit)])
    else some cs

/-- Body of the outer loop of `Precalculate_Sinusoids` (lines 128-141) for cell `i`. -/
def FFTWrapper.Precalculate_Sinusoids_cell (M : CLib F) (fuel : Nat) (step : F) (i : Nat)
    (s : FFTWrapper F) : Option (FFTWrapper F) :=
  let omegaK : F := M.sqrt (kfGravity * s.m_kMag i)
  let wavePeriod : F := kfTwoPi / omegaK
  let s1 : FFTWrapper F := { s with m_cosPrecalc := wr s.m_cosPrecalc i [] }
  let s2 : FFTWrapper F := { s1 with m_sinPrecalc := wr s1.m_sinPrecalc i [] }
  match sinusoidLoop M omegaK wavePeriod step fuel 0 (s2.m_cosPrecalc i, s2.m_sinPrecalc i) with
  | none => none
  | some cs =>
    some { s2 with m_cosPrecalc := wr s2.m_cosPrecalc i cs.1
                   m_sinPrecalc := wr s2.m_sinPrecalc i cs.2 }

/-- `FFTWrapper::Precalculate_Sinusoids` (lines 108-143) with `step = 0.05f`.  The two `memset`
calls zero the first `m_width * m_height` read indices. -/
def FFTWrapper.Precalculate_Sinusoids (M : CLib F) (fuel : Nat) (s : FFTWrapper F) :
    Option (FFTWrapper F) :=
  let step : F := 1 / 20
  let s1 : FFTWrapper F :=
    { s with
      m_cosLookup := fun i => if i < u32 (s.m_width * s.m_height) then 0 else s.m_cosLookup i }
  let s2 : FFTWrapper F :=
    { s1 with
      m_sinLookup := fun i => if i < u32 (s1.m_width * s1.m_height) then 0 else s1.m_sinLookup i }
  forLoopM (FFTWrapper.Precalculate_Sinusoids_cell M fuel step) (u32 (s2.m_width * s2.m_height)) s2

/-- `FFTWrapper::Generate_Heightmap` (lines 361-371).  `cpu` tells whether `CPU_NORM_CD` or
`CPU_NORM_FFT` is defined (`Configurations.h`), in which case the sinusoids are precalculated. -/
def FFTWrapper.Generate_Heightmap (M : CLib F) (dist : Nat → F) (fuel : Nat) (cpu : Bool)
    (s : FFTWrapper F) : Option (FFTWrapper F) :=
  let s1 : FFTWrapper F := s.Fill_K_Vectors M
  let s2 : FFTWrapper F := s1.Fill_h0tilde M dist
  if cpu then s2.Precalculate_Sinusoids M fuel else some s2

/-- The samples `cos (omegaK * time_unit)` (or `sin`) of `count` successive loop iterations
starting at `time_unit = 0` with increment `step`. -/
def sinusoidSamples (f : F → F) (omegaK step : F) (count : Nat) : List F :=
  (List.range count).map (fun k : Nat => f (omegaK * ((k : F) * step)))

/-- Modelled from the spec: `v3::Length` of `DirectX::SimpleMath::Vector3` (its source is not in
the repository), the Euclidean length by which `Normalize` divides. -/
def v3.Length (M : CLib F) (v : v3 F) : F := M.sqrt (v.x * v.x + v.y * v.y + v.z * v.z)

/-- A one-cell wrapper over `ℚ` on which the spectra are evaluated: wavevector `(3, 4)` of
magnitude `5`, `h0 = 1 + 2i`, stored `h0conj = 3 + 4i`, caches `[1, 0]` (cosine) and `[0, 1]`
(sine), so that the next read returns the phase factor `(0, 1)`. -/
def sampleCell : FFTWrapper ℚ :=
  { (FFTWrapper.blank 1 : FFTWrapper ℚ) with
    m_kVectors := fun _ => ⟨3, 4⟩
    m_kMag := fun _ => 5
    m_h0tilde := fun _ => ⟨1, 2⟩
    m_h0tildeConj := fun _ => ⟨3, 4⟩
    m_cosPrecalc := fun _ => [1, 0]
    m_sinPrecalc := fun _ => [0, 1] }

/-- Macro `SIZE_OF_GRID` of `Configurations.h`. -/
def SIZE_OF_GRID : Nat := 512

/-- `FFTWrapper::IFFT_Thread` (lines 373-381): the three plans are executed one after the
other. -/
def FFTWrapper.IFFT_Thread (M : CLib F) (s : FFTWrapper F) : FFTWrapper F :=
  ((s.execute M 0).execute M 1).execute M 2

/-- `OceanApp::read_htilde` (`AppOcean.cpp`, lines 426-441): the reader buffer is copied to the
first spectral buffer of the simulation core, cell by cell. -/
def OceanApp.read_htilde (app : OceanApp F) : OceanApp F :=
  let arraySize : Nat := u32 (SIZE_OF_GRID * SIZE_OF_GRID)
  { app with
    m_wrapper := forLoop
      (fun n w =>
        let w1 : FFTWrapper F := { w with m_FFTin := wr3 w.m_FFTin 0 n 0 (app.g_pBufReader n).x }
        { w1 with m_FFTin := wr3 w1.m_FFTin 0 n 1 (app.g_pBufReader n).y })
      arraySize app.m_wrapper }

/-- `OceanApp::on_update` (`AppOcean.cpp`, lines 255-350) in the configuration `cfg`, with the
environment `inp` of the call.  The `memcpy` calls copy `getHeight() * getWidth() * 4` floats
of the height buffer (of the normal buffer) to the mapped texture. -/
def OceanApp.on_update (M : CLib F) (cfg : Config) (inp : FrameInput F) (app : OceanApp F) :
    OceanApp F :=
  let a1 : OceanApp F :=
    { app with
      m_heightAdj := inp.heightAdj
      m_lambda := inp.lambda
      m_foamInt := inp.foamInt
      m_reflectFrag := inp.reflectFrag
      m_timescale := if cfg = Config.GPGPU_NORM_CD then inp.timescale else app.m_timescale
      m_onlyWireframe := inp.onlyWireframe
      m_drawSkymap := inp.drawSkymap
      m_showHeightmaps := inp.showHeightmaps
      m_pause := inp.pause }
  let a2 : OceanApp F :=
    { a1 with
      m_normCsCBData_m_choppy := a1.m_lambda
      m_normCsCBData_m_heightAdjust := a1.m_heightAdj
      m_normCsCBData_m_foamIntensity := a1.m_foamInt
      m_perFrameCBData_m_choppy := a1.m_lambda
      m_perFrameCBData_m_heightAdjust := a1.m_heightAdj
      m_perFrameCBData_m_reflectivity := a1.m_reflectFrag }
  if a2.m_pause then a2
  else
    match cfg with
    | Config.GPGPU_NORM_CD =>
      let a3 : OceanApp F :=
        { a2 with m_oceanCsCBData_m_time := a2.m_oceanCsCBData_m_time + a2.m_timescale }
      let a4 : OceanApp F := { a3 with m_wrapper := a3.m_wrapper.Fill_Horizontal_Displacement }
      let a5 : OceanApp F := { a4 with m_wrapper := a4.m_wrapper.IFFT_Thread M }
      let a6 : OceanApp F := { a5 with m_wrapper := a5.m_wrapper.Fill_Texture }
      let a7 : OceanApp F :=
        { a6 with
          m_heightmapTexture := fun k =>
            if k < a6.m_wrapper.m_height * a6.m_wrapper.m_width * 4 then a6.m_wrapper.pImageOut k
            else a6.m_heightmapTexture k }
      let a8 : OceanApp F := { a7 with m_normalmapTexture := inp.normals_cs }
      let a9 : OceanApp F := a8.read_htilde
      { a9 with g_pBufReader := inp.htilde_cs }
    | Config.CPU_NORM_FFT =>
      let a3 : OceanApp F := { a2 with m_wrapper := a2.m_wrapper.Fill_htilde_and_Displacements }
      let a4 : OceanApp F := { a3 with m_wrapper := a3.m_wrapper.IFFT_Thread M }
      let a5 : OceanApp F := { a4 with m_wrapper := a4.m_wrapper.Fill_Texture }
      let a6 : OceanApp F :=
        { a5 with m_wrapper := a5.m_wrapper.Fill_Normals_FFT M a5.m_lambda a5.m_foamInt }
      let a7 : OceanApp F :=
        { a6 with
          m_heightmapTexture := fun k =>
            if k < a6.m_wrapper.m_height * a6.m_wrapper.m_width * 4 then a6.m_wrapper.pImageOut k
            else a6.m_heightmapTexture k }
      { a7 with
        m_normalmapTexture := fun k =>
          if k < a7.m_wrapper.m_height * a7.m_wrapper.m_width * 4 then a7.m_wrapper.pNormalOut k
          else a7.m_normalmapTexture k }
    | Config.CPU_NORM_CD =>
      let a3 : OceanApp F := { a2 with m_wrapper := a2.m_wrapper.Fill_htilde_and_Displacements }
      let a4 : OceanApp F := { a3 with m_wrapper := a3.m_wrapper.IFFT_Thread M }
      let a5 : OceanApp F := { a4 with m_wrapper := a4.m_wrapper.Fill_Texture }
      let a6 : OceanApp F :=
        { a5 with
          m_wrapper :=
            a5.m_wrapper.Fill_Normals_Central_Diff M a5.m_lambda a5.m_heightAdj a5.m_foamInt }
      let a7 : OceanApp F :=
        { a6 with
          m_heightmapTexture := fun k =>
            if k < a6.m_wrapper.m_height * a6.m_wrapper.m_width * 4 then a6.m_wrapper.pImageOut k
            else a6.m_heightmapTexture k }
      { a7 with
        m_normalmapTexture := fun k =>
          if k < a7.m_wrapper.m_height * a7.m_wrapper.m_width * 4 then a7.m_wrapper.pNormalOut k
          else a7.m_normalmapTexture k }

/-- The `OceanApp` object before the first call of `on_update`, with the member initialisers
of lines 690-698 around the simulation core `w` and everything else zero. -/
def OceanApp.start (w : FFTWrapper F) : OceanApp F where
  m_wrapper := w
  m_oceanCsCBData_m_time := 0
  m_normCsCBData_m_choppy := 0
  m_normCsCBData_m_heightAdjust := 0
  m_normCsCBData_m_foamIntensity := 0
  m_perFrameCBData_m_choppy := 0
  m_perFrameCBData_m_heightAdjust := 0
  m_perFrameCBData_m_reflectivity := 0
  m_lambda := 13 / 10
  m_foamInt := 2
  m_timescale := 4 / 100
  m_heightAdj := 12 / 10
  m_reflectFrag := 6 / 10
  m_onlyWireframe := false
  m_showHeightmaps := false
  m_drawSkymap := false
  m_pause := false
  m_heightmapTexture := fun _ => 0
  m_normalmapTexture := fun _ => 0
  g_pBufReader := fun _ => ⟨0, 0⟩

/-- The widgets left alone: every member keeps the value `app` holds, and the dispatches write
zeros. -/
def FrameInput.idle (app : OceanApp F) : FrameInput F where
  heightAdj := app.m_heightAdj
  lambda := app.m_lambda
  foamInt := app.m_foamInt
  reflectFrag := app.m_reflectFrag
  timescale := app.m_timescale
  onlyWireframe := app.m_onlyWireframe
  drawSkymap := app.m_drawSkymap
  showHeightmaps := app.m_showHeightmaps
  pause := app.m_pause
  normals_cs := fun _ => 0
  htilde_cs := fun _ => ⟨0, 0⟩

/-- One array `new` expression of the constructor: `alloc k count` tells whether expression
number `k` (in source order), asking for `count` elements, gets its memory; when it does not,
`new` throws `std::bad_alloc` and the construction is aborted. -/
def newArray (alloc : Nat → Nat → Bool) (k count : Nat) : Option Unit :=
  if alloc k count then some () else none

/-- `FFTWrapper::FFTWrapper(const int& gridsize)` (lines 6-38), for a 32-bit `int` `gridsize`.
The members `m_height` and `m_width` take `gridsize` converted to `unsigned int`; the ten
array `new` expressions of lines 9-21 ask for `m_width * m_height` elements (the two texture
arrays for `m_width * m_height * 4`), in `unsigned` arithmetic, and abort the construction when
they fail.  The header presets are set, the two arrays of vectors are default-constructed
(empty) and the other arrays are not initialised: `mem` supplies the contents found there.
The results of `fftwf_malloc` and `fftwf_plan_dft_2d` (lines 23-36) are stored without a test,
and `gridsize` is not tested. -/
def FFTWrapper.construct (alloc : Nat → Nat → Bool) (mem : FFTWrapper F) (gridsize : Int) :
    Option (FFTWrapper F) := do
  let m_height : Nat := (gridsize % 2 ^ 32).toNat
  let m_width : Nat := (gridsize % 2 ^ 32).toNat
  newArray alloc 0 (u32 (m_width * m_height))
  newArray alloc 1 (u32 (m_width * m_height))
  newArray alloc 2 (u32 (m_width * m_height))
  newArray alloc 3 (u32 (m_width * m_height))
  newArray alloc 4 (u32 (m_width * m_height))
  newArray alloc 5 (u32 (m_width * m_height))
  newArray alloc 6 (u32 (m_width * m_height))
  newArray alloc 7 (u32 (m_width * m_height))
  newArray alloc 8 (u32 (u32 (m_width * m_height) * 4))
  newArray alloc 9 (u32 (u32 (m_width * m_height) * 4))
  some { mem with
    m_height := m_height
    m_width := m_width
    m_windNormal := ⟨1, 0⟩
    m_windSpeed := 26
    m_amplitude := 20
    m_cosPrecalc := fun _ => []
    m_sinPrecalc := fun _ => [] }

/-- `FFTWrapper::getInstance` (`FFTWrapper.h`, lines 30-34): the function-local static object
is constructed by the first call and returned by every call; `inst` is the object when it
exists already. -/
def FFTWrapper.getInstance (alloc : Nat → Nat → Bool) (mem : FFTWrapper F)
    (inst : Option (FFTWrapper F)) (gridsize : Int) : Option (FFTWrapper F) :=
  match inst with
  | some w => some w
  | none => FFTWrapper.construct alloc mem gridsize

/-- An allocator that serves every request below 2 GiB, counting four bytes per element. -/
def allocBelow2GiB (_k count : Nat) : Bool := decide (4 * count < 2 ^ 31)

end Defs

/-- The library functions read over the real numbers: the exact `sqrt`, `exp`, `cos`, `sin`
and the exact backward DFT. -/
noncomputable def realLib : CLib ℝ where
  sqrt := Real.sqrt
  exp := Real.exp
  cos := Real.cos
  sin := Real.sin
  fftwf_execute := backwardDFT Real.cos Real.sin (2 * Real.pi)

section Lemmas

variable {F : Type} [LinearOrderedField F]

@[simp] theorem wr_apply {α : Type} (buf : Nat → α) (n : Nat) (v : α) (m : Nat) :
    wr buf n v m = if m = n then v else buf m := rfl

omit [LinearOrderedField F] in
@[simp] theorem wr3_apply (buf : Nat → Nat → Nat → F) (b n c : Nat) (v : F) (b' n' c' : Nat) :
    wr3 buf b n c v b' n' c' = if b' = b ∧ n' = n ∧ c' = c then v else buf b' n' c' := rfl

theorem u32_of_lt {x : Nat} (h : x < 2 ^ 32) : u32 x = x := Nat.mod_eq_of_lt h

theorem cell_index_lt {N i j J : Nat} (hj : j < J) (hi : i < N) : j * N + i < J * N := by
  have h : (j + 1) * N ≤ J * N := Nat.mul_le_mul_right N hj
  rw [Nat.succ_mul] at h
  omega

/-- The inner loop of `Fill_K_Vectors` after `k` iterations from counter `n0`. -/
theorem Fill_K_Vectors_cell_loop (M : CLib F) (kz : F) (t : FFTWrapper F) (n0 k : Nat)
    (h : n0 + k < 2 ^ 32) :
    (forLoop (FFTWrapper.Fill_K_Vectors_cell M kz) k (t, n0)).2 = n0 + k ∧
    (∀ idx, (forLoop (FFTWrapper.Fill_K_Vectors_cell M kz) k (t, n0)).1.m_kVectors idx =
      if n0 ≤ idx ∧ idx < n0 + k then
        ⟨kfTwoPi * ((idx - n0 : Nat) : F) / kfWorldUnit, kz⟩ else t.m_kVectors idx) ∧
    (∀ idx, (forLoop (FFTWrapper.Fill_K_Vectors_cell M kz) k (t, n0)).1.m_kMag idx =
      if n0 ≤ idx ∧ idx < n0 + k then
        max (magnitude M ⟨kfTwoPi * ((idx - n0 : Nat) : F) / kfWorldUnit, kz⟩) (1 / 10000)
      else t.m_kMag idx) := by
  induction k with
  | zero =>
    refine ⟨rfl, fun idx => ?_, fun idx => ?_⟩ <;> rw [if_neg (by omega)] <;> rfl
  | succ k ih =>
    obtain ⟨h2, hv, hm⟩ := ih (by omega)
    refine ⟨?_, ?_, ?_⟩
    · simp only [forLoop, FFTWrapper.Fill_K_Vectors_cell, h2]
      exact u32_of_lt (by omega)
    · intro idx
      simp only [forLoop, FFTWrapper.Fill_K_Vectors_cell, h2, wr_apply, hv]
      by_cases e : idx = n0 + k
      · subst e; simp
      · rw [if_neg e]
        have : (n0 ≤ idx ∧ idx < n0 + (k + 1)) ↔ (n0 ≤ idx ∧ idx < n0 + k) := by omega
        simp only [this]
    · intro idx
      simp only [forLoop, FFTWrapper.Fill_K_Vectors_cell, h2, wr_apply, if_true, ite_apply,
        hm]
      by_cases e : idx = n0 + k
      · subst e
        have hin : n0 ≤ n0 + k ∧ n0 + k < n0 + (k + 1) := by omega
        simp only [if_true, if_pos hin, Nat.add_sub_cancel_left]
        by_cases c : magnitude M ⟨kfTwoPi * (k : F) / kfWorldUnit, kz⟩ < 1 / 10000
        · rw [if_pos c, max_eq_right (le_of_lt c)]
        · rw [if_neg c, max_eq_left (not_lt.mp c)]
      · have : (n0 ≤ idx ∧ idx < n0 + (k + 1)) ↔ (n0 ≤ idx ∧ idx < n0 + k) := by omega
        simp only [this, if_neg e, ite_self]

/-- The outer loop of `Fill_K_Vectors` after `J` rows of width `N`. -/
theorem Fill_K_Vectors_row_loop (M : CLib F) (s : FFTWrapper F) (N J : Nat)
    (h : J * N < 2 ^ 32) :
    (forLoop (FFTWrapper.Fill_K_Vectors_row M N) J (s, 0)).2 = J * N ∧
    ∀ j i, j < J → i < N →
      (forLoop (FFTWrapper.Fill_K_Vectors_row M N) J (s, 0)).1.m_kVectors (j * N + i) =
        ⟨kfTwoPi * (i : F) / kfWorldUnit, kfTwoPi * (j : F) / kfWorldUnit⟩ ∧
      (forLoop (FFTWrapper.Fill_K_Vectors_row M N) J (s, 0)).1.m_kMag (j * N + i) =
        max (magnitude M ⟨kfTwoPi * (i : F) / kfWorldUnit, kfTwoPi * (j : F) / kfWorldUnit⟩)
          (1 / 10000) := by
  induction J with
  | zero => exact ⟨by simp [forLoop], fun j i hj => absurd hj (Nat.not_lt_zero j)⟩
  | succ J ih =>
    have hJ : J * N + N < 2 ^ 32 := by rw [Nat.succ_mul] at h; exact h
    obtain ⟨h2, hc⟩ := ih (by omega)
    have hstep : forLoop (FFTWrapper.Fill_K_Vectors_row M N) (J + 1) (s, 0) =
        forLoop (FFTWrapper.Fill_K_Vectors_cell M (kfTwoPi * (J : F) / kfWorldUnit)) N
          ((forLoop (FFTWrapper.Fill_K_Vectors_row M N) J (s, 0)).1, J * N) := by
      rw [← h2]; rfl
    obtain ⟨g2, gv, gm⟩ := Fill_K_Vectors_cell_loop M (kfTwoPi * (J : F) / kfWorldUnit)
      (forLoop (FFTWrapper.Fill_K_Vectors_row M N) J (s, 0)).1 (J * N) N hJ
    rw [hstep]
    refine ⟨by rw [g2, Nat.succ_mul], fun j i hj hi => ?_⟩
    rw [gv, gm]
    by_cases e : j = J
    · subst e
      have hin : j * N ≤ j * N + i ∧ j * N + i < j * N + N := by omega
      simp only [if_pos hin, Nat.add_sub_cancel_left, and_self]
    · have hlt : j * N + i < J * N := cell_index_lt (by omega) hi
      have hout : ¬ (J * N ≤ j * N + i ∧ j * N + i < J * N + N) := by omega
      simp only [if_neg hout]
      exact hc j i (by omega) hi

/-- A property that every iteration preserves holds after the loop. -/
theorem forLoop_preserves {σ : Type} (P : σ → Prop) (body : Nat → σ → σ)
    (h : ∀ k s, P s → P (body k s)) (n : Nat) (s : σ) (hs : P s) : P (forLoop body n s) := by
  induction n with
  | zero => exact hs
  | succ n ih => exact h n _ ih

/-- `Fill_K_Vectors` writes `m_kVectors` and `m_kMag` only. -/
theorem Fill_K_Vectors_frame (M : CLib F) (s : FFTWrapper F) :
    { s.Fill_K_Vectors M with m_kVectors := s.m_kVectors, m_kMag := s.m_kMag } = s := by
  unfold FFTWrapper.Fill_K_Vectors
  refine forLoop_preserves
    (fun st : FFTWrapper F × Nat =>
      { st.1 with m_kVectors := s.m_kVectors, m_kMag := s.m_kMag } = s) _ ?_ _ (s, 0) rfl
  intro j st hst
  refine forLoop_preserves
    (fun st : FFTWrapper F × Nat =>
      { st.1 with m_kVectors := s.m_kVectors, m_kMag := s.m_kMag } = s) _ ?_ _ st hst
  intro i st hst
  exact hst

/-- The loop of `Fill_h0tilde` after `k` iterations: the cells below `k` hold the scaled
samples, every other member is untouched, and `4 * k` samples have been drawn. -/
theorem Fill_h0tilde_cell_loop (M : CLib F) (dist : Nat → F) (c : F) (s : FFTWrapper F)
    (k : Nat) :
    forLoop (FFTWrapper.Fill_h0tilde_cell M dist c) k (s, 0) =
      ({ s with
          m_h0tilde := fun n => if n < k then
              ⟨dist (4 * n) * (M.sqrt (s.Philips_Spectrum M (s.m_kVectors n) (s.m_kMag n)) * c),
               dist (4 * n + 1) *
                (M.sqrt (s.Philips_Spectrum M (s.m_kVectors n) (s.m_kMag n)) * c)⟩
            else s.m_h0tilde n
          m_h0tildeConj := fun n => if n < k then
              ⟨dist (4 * n + 2) * (M.sqrt (s.Philips_Spectrum M
                  ⟨-(s.m_kVectors n).x, -(s.m_kVectors n).y⟩ (s.m_kMag n)) * c),
               -dist (4 * n + 3) * (M.sqrt (s.Philips_Spectrum M
                  ⟨-(s.m_kVectors n).x, -(s.m_kVectors n).y⟩ (s.m_kMag n)) * c)⟩
            else s.m_h0tildeConj n }, 4 * k) := by
  induction k with
  | zero => simp [forLoop]
  | succ k ih =>
    simp only [forLoop, ih, FFTWrapper.Fill_h0tilde_cell, FFTWrapper.Philips_Spectrum]
    refine Prod.ext ?_ (by simp only []; omega)
    simp only [FFTWrapper.mk.injEq, true_and, and_true]
    constructor <;> funext n <;> simp only [wr_apply] <;>
      rcases Nat.lt_trichotomy n k with h | h | h
    · simp [h, Nat.lt_succ_of_lt h, Nat.ne_of_lt h]
    · subst h; simp
    · simp [Nat.ne_of_gt h, Nat.not_lt_of_gt h, show ¬ n < k + 1 by omega]
    · simp [h, Nat.lt_succ_of_lt h, Nat.ne_of_lt h]
    · subst h; simp
    · simp [Nat.ne_of_gt h, Nat.not_lt_of_gt h, show ¬ n < k + 1 by omega]

/-- The read index after `++lookup; if (lookup >= size) lookup = 0;`. -/
theorem Fill_htilde_lookup_step (lk : Nat → Int) (i : Nat) (size : Nat) :
    (if sizeGe (lk i + 1) size then wr (wr lk i (lk i + 1)) i 0
      else wr lk i (lk i + 1)) = wr lk i (nextLookup (lk i) size) := by
  funext j
  simp only [wr_apply, if_true, nextLookup]
  by_cases h : sizeGe (lk i + 1) size <;> by_cases e : j = i <;> simp [h, e]

/-- One iteration of `Fill_htilde_and_Displacements` in closed form. -/
theorem Fill_htilde_and_Displacements_cell_eq (i : Nat) (s : FFTWrapper F) :
    FFTWrapper.Fill_htilde_and_Displacements_cell i s =
      { s with
        m_cosLookup := wr s.m_cosLookup i
          (nextLookup (s.m_cosLookup i) (s.m_cosPrecalc i).length)
        m_sinLookup := wr s.m_sinLookup i
          (nextLookup (s.m_sinLookup i) (s.m_sinPrecalc i).length)
        m_FFTin := cellFFTin s.m_FFTin i (s.htilde i) (s.dispX i) (s.dispZ i) } := by
  simp only [FFTWrapper.Fill_htilde_and_Displacements_cell, Fill_htilde_lookup_step, wr_apply,
    if_true, cellFFTin, FFTWrapper.htilde, FFTWrapper.dispX, FFTWrapper.dispZ,
    FFTWrapper.expPos]

/-- The loop of `Fill_htilde_and_Displacements` after `k` iterations: every cell below `k`
holds what the body computes for that cell from the initial object, the rest is untouched. -/
theorem Fill_htilde_and_Displacements_loop (s : FFTWrapper F) (k : Nat) :
    forLoop FFTWrapper.Fill_htilde_and_Displacements_cell k s =
      { s with
        m_cosLookup := fun i => if i < k then
            nextLookup (s.m_cosLookup i) (s.m_cosPrecalc i).length
          else s.m_cosLookup i
        m_sinLookup := fun i => if i < k then
            nextLookup (s.m_sinLookup i) (s.m_sinPrecalc i).length
          else s.m_sinLookup i
        m_FFTin := fun b i c => if i < k then
            cellFFTin s.m_FFTin i (s.htilde i) (s.dispX i) (s.dispZ i) b i c
          else s.m_FFTin b i c } := by
  induction k with
  | zero => simp [forLoop]
  | succ k ih =>
    simp only [forLoop, ih, Fill_htilde_and_Displacements_cell_eq]
    simp only [FFTWrapper.mk.injEq, true_and, and_true, lt_irrefl, if_false,
      FFTWrapper.htilde, FFTWrapper.dispX, FFTWrapper.dispZ, FFTWrapper.expPos]
    refine ⟨?_, ?_, ?_⟩
    · funext b i c
      simp only [cellFFTin, wr3_apply]
      rcases Nat.lt_trichotomy i k with h | h | h
      · simp [h, Nat.lt_succ_of_lt h, Nat.ne_of_lt h]
      · subst h; simp
      · simp [Nat.ne_of_gt h, Nat.not_lt_of_gt h, show ¬ i < k + 1 by omega]
    · funext i
      simp only [wr_apply]
      rcases Nat.lt_trichotomy i k with h | h | h
      · simp [h, Nat.lt_succ_of_lt h, Nat.ne_of_lt h]
      · subst h; simp
      · simp [Nat.ne_of_gt h, Nat.not_lt_of_gt h, show ¬ i < k + 1 by omega]
    · funext i
      simp only [wr_apply]
      rcases Nat.lt_trichotomy i k with h | h | h
      · simp [h, Nat.lt_succ_of_lt h, Nat.ne_of_lt h]
      · subst h; simp
      · simp [Nat.ne_of_gt h, Nat.not_lt_of_gt h, show ¬ i < k + 1 by omega]

/-- `Fill_htilde_and_Displacements` on the one-cell wrapper `sampleCell`: the read index moves
to `1`, the phase factor read is `(0, 1)`, the height spectrum written is `2 - 2i` and the
displacement spectra are `(-6/5, -6/5)` and `(-8/5, -8/5)`. -/
theorem sampleCell_run :
    sampleCell.Fill_htilde_and_Displacements.m_cosLookup 0 = 1 ∧
    sampleCell.Fill_htilde_and_Displacements.m_sinLookup 0 = 1 ∧
    sampleCell.Fill_htilde_and_Displacements.m_FFTin 0 0 0 = 2 ∧
    sampleCell.Fill_htilde_and_Displacements.m_FFTin 0 0 1 = -2 ∧
    sampleCell.Fill_htilde_and_Displacements.m_FFTin 1 0 0 = -6 / 5 ∧
    sampleCell.Fill_htilde_and_Displacements.m_FFTin 1 0 1 = -6 / 5 ∧
    sampleCell.Fill_htilde_and_Displacements.m_FFTin 2 0 0 = -8 / 5 ∧
    sampleCell.Fill_htilde_and_Displacements.m_FFTin 2 0 1 = -8 / 5 := by
  have hb : u32 (sampleCell.m_width * sampleCell.m_height) = 1 := by decide
  have hn : nextLookup 0 2 = 1 := by decide
  simp only [FFTWrapper.Fill_htilde_and_Displacements, hb, Fill_htilde_and_Displacements_loop]
  simp only [sampleCell, FFTWrapper.blank, cellFFTin, wr3_apply, FFTWrapper.htilde,
    FFTWrapper.dispX, FFTWrapper.dispZ, FFTWrapper.expPos, List.length_cons, List.length_nil,
    hn, vecAt, multComplex, addComplex]
  norm_num

/-- One iteration of `Fill_Horizontal_Displacement` in closed form. -/
theorem Fill_Horizontal_Displacement_cell_eq (i : Nat) (s : FFTWrapper F) :
    FFTWrapper.Fill_Horizontal_Displacement_cell i s = { s with m_FFTin := s.hdispFFTin i } := by
  simp only [FFTWrapper.Fill_Horizontal_Displacement_cell, FFTWrapper.hdispFFTin, wr3_apply]
  simp

/-- The loop of `Fill_Horizontal_Displacement` after `k` iterations: the displacement spectra
of the cells below `k` are rewritten from the height spectrum, the rest is untouched. -/
theorem Fill_Horizontal_Displacement_loop (s : FFTWrapper F) (k : Nat) :
    forLoop FFTWrapper.Fill_Horizontal_Displacement_cell k s =
      { s with
        m_FFTin := fun b n c => if n < k then s.hdispFFTin n b n c else s.m_FFTin b n c } := by
  induction k with
  | zero => simp [forLoop]
  | succ k ih =>
    simp only [forLoop, ih, Fill_Horizontal_Displacement_cell_eq, FFTWrapper.mk.injEq, true_and,
      and_true]
    funext b n c
    simp only [FFTWrapper.hdispFFTin, wr3_apply, lt_irrefl, if_false]
    rcases Nat.lt_trichotomy n k with h | h | h
    · have ne : n ≠ k := by omega
      have l : n < k + 1 := by omega
      simp only [ne, false_and, and_false, if_false, if_pos l, if_pos h]
    · subst h
      simp only [if_pos (Nat.lt_succ_self n), true_and, lt_irrefl, if_false]
    · have ne : n ≠ k := by omega
      have l : ¬ n < k + 1 := by omega
      have l' : ¬ n < k := by omega
      simp only [ne, false_and, and_false, if_false, l, l']

/-- The constant `kfTwoPi` agrees with `2 π` to nine decimal places. -/
theorem kfTwoPi_near_two_pi : |(kfTwoPi : ℝ) - 2 * Real.pi| < 1 / 10 ^ 9 := by
  have h1 := Real.pi_gt_d20
  have h2 := Real.pi_lt_d20
  rw [abs_lt]
  unfold kfTwoPi
  constructor <;> norm_num at h1 h2 ⊢ <;> linarith

/-- The loop of `Fill_Texture` after `k` iterations. -/
theorem Fill_Texture_loop (s : FFTWrapper F) (k : Nat) (hk : 4 * k ≤ 2 ^ 32) :
    forLoop FFTWrapper.Fill_Texture_cell k s =
      { s with
        pImageOut := fun idx => if idx < 4 * k then s.texel (idx / 4) (idx % 4)
          else s.pImageOut idx } := by
  induction k with
  | zero => simp [forLoop]
  | succ k ih =>
    have e0 : u32 (4 * k + 0) = 4 * k := u32_of_lt (by omega)
    have e1 : u32 (4 * k + 1) = 4 * k + 1 := u32_of_lt (by omega)
    have e2 : u32 (4 * k + 2) = 4 * k + 2 := u32_of_lt (by omega)
    have e3 : u32 (4 * k + 3) = 4 * k + 3 := u32_of_lt (by omega)
    simp only [forLoop, ih (by omega), FFTWrapper.Fill_Texture_cell, e0, e1, e2, e3,
      FFTWrapper.mk.injEq, true_and, and_true]
    funext idx
    simp only [wr_apply]
    have hc : idx < 4 * k ∨ idx = 4 * k ∨ idx = 4 * k + 1 ∨ idx = 4 * k + 2 ∨
        idx = 4 * k + 3 ∨ 4 * k + 4 ≤ idx := by omega
    rcases hc with h | h | h | h | h | h
    · have n0 : idx ≠ 4 * k := by omega
      have n1 : idx ≠ 4 * k + 1 := by omega
      have n2 : idx ≠ 4 * k + 2 := by omega
      have n3 : idx ≠ 4 * k + 3 := by omega
      have l : idx < 4 * (k + 1) := by omega
      simp only [n0, n1, n2, n3, if_false, h, l, if_true, FFTWrapper.texel]
    · subst h
      have d : 4 * k / 4 = k := by omega
      have m : 4 * k % 4 = 0 := by omega
      have l : 4 * k < 4 * (k + 1) := by omega
      simp [FFTWrapper.texel, d, m, l]
    · subst h
      have d : (4 * k + 1) / 4 = k := by omega
      have m : (4 * k + 1) % 4 = 1 := by omega
      have l : 4 * k + 1 < 4 * (k + 1) := by omega
      simp [FFTWrapper.texel, d, m, l]
    · subst h
      have d : (4 * k + 2) / 4 = k := by omega
      have m : (4 * k + 2) % 4 = 2 := by omega
      have l : 4 * k + 2 < 4 * (k + 1) := by omega
      simp [FFTWrapper.texel, d, m, l]
    · subst h
      have d : (4 * k + 3) / 4 = k := by omega
      have m : (4 * k + 3) % 4 = 3 := by omega
      have l : 4 * k + 3 < 4 * (k + 1) := by omega
      simp [FFTWrapper.texel, d, m, l]
    · have n0 : idx ≠ 4 * k := by omega
      have n1 : idx ≠ 4 * k + 1 := by omega
      have n2 : idx ≠ 4 * k + 2 := by omega
      have n3 : idx ≠ 4 * k + 3 := by omega
      have l : ¬ idx < 4 * (k + 1) := by omega
      have l' : ¬ idx < 4 * k := by omega
      simp only [n0, n1, n2, n3, if_false, l, l']

/-- One iteration of the first loop nest of `Fill_Normals_FFT` in closed form. -/
theorem Fill_Normals_FFT_cell_eq (choppy intensity : F) (j i : Nat) (s : FFTWrapper F) :
    FFTWrapper.Fill_Normals_FFT_cell choppy intensity j i s =
      { s with
        pNormalOut := wr s.pNormalOut (u32 (4 * s.cellIndex j i + 3)) (s.foam choppy intensity j i)
        m_FFTin := s.gradFFTin (s.cellIndex j i) } := by
  simp only [FFTWrapper.Fill_Normals_FFT_cell, FFTWrapper.foam, FFTWrapper.Jxx, FFTWrapper.Jxy,
    FFTWrapper.Jyy, FFTWrapper.Jyx, FFTWrapper.cellIndex, FFTWrapper.xNext, FFTWrapper.zNext,
    FFTWrapper.gradFFTin, wr3_apply]
  simp

/-- One iteration of the loop nest of `Fill_Normals_Central_Diff` in closed form. -/
theorem Fill_Normals_Central_Diff_cell_eq (M : CLib F) (choppy heightAdj intensity : F)
    (j i : Nat) (s : FFTWrapper F) :
    FFTWrapper.Fill_Normals_Central_Diff_cell M choppy heightAdj intensity j i s =
      { s with
        pNormalOut :=
          wr (wr (wr (wr s.pNormalOut (4 * s.cellIndex j i + 0) (s.cdNormal M heightAdj j i).x)
            (4 * s.cellIndex j i + 1) (s.cdNormal M heightAdj j i).z)
            (4 * s.cellIndex j i + 2) (s.cdNormal M heightAdj j i).y)
            (4 * s.cellIndex j i + 3) (s.foam choppy intensity j i) } := by
  simp only [FFTWrapper.Fill_Normals_Central_Diff_cell, FFTWrapper.foam, FFTWrapper.Jxx,
    FFTWrapper.Jxy, FFTWrapper.Jyy, FFTWrapper.Jyx, FFTWrapper.cellIndex, FFTWrapper.xNext,
    FFTWrapper.zNext, FFTWrapper.cdNormal]

/-- Row and column of a linear index inside row `J` of an `N`-wide grid. -/
theorem row_col_of_index {N J m : Nat} (h1 : J * N ≤ m) (h2 : m < J * N + N) :
    m / N = J ∧ m % N = m - J * N := by
  have hN : 0 < N := by omega
  obtain ⟨r, rfl⟩ : ∃ r, m = r + N * J := ⟨m - J * N, by rw [Nat.mul_comm N J]; omega⟩
  have hr : r < N := by rw [Nat.mul_comm N J] at h2; omega
  rw [Nat.add_mul_div_left _ _ hN, Nat.add_mul_mod_self_left, Nat.div_eq_of_lt hr,
    Nat.mod_eq_of_lt hr, Nat.mul_comm N J]
  omega

omit [LinearOrderedField F] in
theorem cellIndex_pNormalOut (t : FFTWrapper F) (f : Nat → F) (j i : Nat) :
    FFTWrapper.cellIndex { t with pNormalOut := f } j i = t.cellIndex j i := rfl

theorem cdNormal_pNormalOut (M : CLib F) (t : FFTWrapper F) (f : Nat → F) (h : F) (j i : Nat) :
    FFTWrapper.cdNormal M { t with pNormalOut := f } h j i = t.cdNormal M h j i := rfl

theorem foam_pNormalOut (t : FFTWrapper F) (f : Nat → F) (c e : F) (j i : Nat) :
    FFTWrapper.foam { t with pNormalOut := f } c e j i = t.foam c e j i := rfl

/-- One row of `Fill_Normals_Central_Diff`: the inner loop after `K` iterations in row `j`. -/
theorem Fill_Normals_Central_Diff_row (M : CLib F) (choppy heightAdj intensity : F)
    (t : FFTWrapper F) (j K : Nat) (hK : j * t.m_height + K ≤ 2 ^ 32) :
    forLoop (FFTWrapper.Fill_Normals_Central_Diff_cell M choppy heightAdj intensity j) K t =
      { t with
        pNormalOut := fun idx =>
          if 4 * (j * t.m_height) ≤ idx ∧ idx < 4 * (j * t.m_height + K) then
            t.cdTexel M choppy heightAdj intensity j (idx / 4 - j * t.m_height) (idx % 4)
          else t.pNormalOut idx } := by
  induction K with
  | zero =>
    cases t
    simp only [forLoop, FFTWrapper.mk.injEq, true_and, and_true]
    funext idx
    rw [if_neg (by omega)]
  | succ K ih =>
    have hc : t.cellIndex j K = j * t.m_height + K := u32_of_lt (by omega)
    simp only [forLoop, ih (by omega), Fill_Normals_Central_Diff_cell_eq, cellIndex_pNormalOut,
      cdNormal_pNormalOut, foam_pNormalOut, hc]
    simp only [FFTWrapper.mk.injEq, true_and, and_true]
    funext idx
    simp only [wr_apply]
    generalize j * t.m_height = a at *
    have hcase : idx < 4 * (a + K) ∨ idx = 4 * (a + K) + 0 ∨ idx = 4 * (a + K) + 1 ∨
        idx = 4 * (a + K) + 2 ∨ idx = 4 * (a + K) + 3 ∨ 4 * (a + K) + 4 ≤ idx := by omega
    rcases hcase with h | h | h | h | h | h
    · have n0 : idx ≠ 4 * (a + K) + 0 := by omega
      have n1 : idx ≠ 4 * (a + K) + 1 := by omega
      have n2 : idx ≠ 4 * (a + K) + 2 := by omega
      have n3 : idx ≠ 4 * (a + K) + 3 := by omega
      have l : (4 * a ≤ idx ∧ idx < 4 * (a + (K + 1))) ↔ (4 * a ≤ idx ∧ idx < 4 * (a + K)) := by
        omega
      simp only [n0, n1, n2, n3, if_false, l]
    · subst h
      have d : (4 * (a + K) + 0) / 4 - a = K := by omega
      have m : (4 * (a + K) + 0) % 4 = 0 := by omega
      have l : 4 * a ≤ 4 * (a + K) + 0 ∧ 4 * (a + K) + 0 < 4 * (a + (K + 1)) := by omega
      simp [FFTWrapper.cdTexel, d, m, l]
    · subst h
      have d : (4 * (a + K) + 1) / 4 - a = K := by omega
      have m : (4 * (a + K) + 1) % 4 = 1 := by omega
      have l : 4 * a ≤ 4 * (a + K) + 1 ∧ 4 * (a + K) + 1 < 4 * (a + (K + 1)) := by omega
      simp [FFTWrapper.cdTexel, d, m, l]
    · subst h
      have d : (4 * (a + K) + 2) / 4 - a = K := by omega
      have m : (4 * (a + K) + 2) % 4 = 2 := by omega
      have l : 4 * a ≤ 4 * (a + K) + 2 ∧ 4 * (a + K) + 2 < 4 * (a + (K + 1)) := by omega
      simp [FFTWrapper.cdTexel, d, m, l]
    · subst h
      have d : (4 * (a + K) + 3) / 4 - a = K := by omega
      have m : (4 * (a + K) + 3) % 4 = 3 := by omega
      have l : 4 * a ≤ 4 * (a + K) + 3 ∧ 4 * (a + K) + 3 < 4 * (a + (K + 1)) := by omega
      simp [FFTWrapper.cdTexel, d, m, l]
    · have n0 : idx ≠ 4 * (a + K) + 0 := by omega
      have n1 : idx ≠ 4 * (a + K) + 1 := by omega
      have n2 : idx ≠ 4 * (a + K) + 2 := by omega
      have n3 : idx ≠ 4 * (a + K) + 3 := by omega
      have l : ¬ (4 * a ≤ idx ∧ idx < 4 * (a + (K + 1))) := by omega
      have l' : ¬ (4 * a ≤ idx ∧ idx < 4 * (a + K)) := by omega
      simp only [n0, n1, n2, n3, if_false, l, l']

theorem cdTexel_pNormalOut (M : CLib F) (t : FFTWrapper F) (f : Nat → F) (c h e : F)
    (j i ch : Nat) :
    FFTWrapper.cdTexel M { t with pNormalOut := f } c h e j i ch = t.cdTexel M c h e j i ch := rfl

/-- The loop nest of `Fill_Normals_Central_Diff` after `J` rows of an `N` by `N` grid. -/
theorem Fill_Normals_Central_Diff_rows (M : CLib F) (choppy heightAdj intensity : F)
    (s : FFTWrapper F) (J : Nat) (hJ : J * s.m_height ≤ 2 ^ 32) :
    forLoop
        (fun j => forLoop (FFTWrapper.Fill_Normals_Central_Diff_cell M choppy heightAdj intensity j)
          s.m_height) J s =
      { s with
        pNormalOut := fun idx => if idx < 4 * (J * s.m_height) then
            s.cdTexel M choppy heightAdj intensity (idx / 4 / s.m_height) (idx / 4 % s.m_height)
              (idx % 4)
          else s.pNormalOut idx } := by
  induction J with
  | zero =>
    cases s
    simp only [forLoop, FFTWrapper.mk.injEq, true_and, and_true]
    funext idx
    rw [if_neg (by omega)]
  | succ J ih =>
    have hJ' : J * s.m_height + s.m_height ≤ 2 ^ 32 := by rw [Nat.succ_mul] at hJ; exact hJ
    simp only [forLoop, ih (by omega)]
    refine Eq.trans
      (Fill_Normals_Central_Diff_row M choppy heightAdj intensity _ J s.m_height ?_) ?_
    · exact hJ'
    rw [show (J + 1) * s.m_height = J * s.m_height + s.m_height from Nat.succ_mul _ _]
    simp only [cdTexel_pNormalOut, FFTWrapper.mk.injEq, true_and, and_true]
    funext idx
    generalize s.m_height = N at *
    by_cases hA : idx < 4 * (J * N)
    · have l1 : ¬ (4 * (J * N) ≤ idx ∧ idx < 4 * (J * N + N)) := by omega
      have l2 : idx < 4 * (J * N + N) := by omega
      rw [if_neg l1, if_pos hA, if_pos l2]
    · by_cases hB : idx < 4 * (J * N + N)
      · have l1 : 4 * (J * N) ≤ idx ∧ idx < 4 * (J * N + N) := by omega
        have r1 : J * N ≤ idx / 4 := by omega
        have r2 : idx / 4 < J * N + N := by omega
        obtain ⟨d, m⟩ := row_col_of_index r1 r2
        rw [if_pos l1, if_pos hB, d, m]
      · have l1 : ¬ (4 * (J * N) ≤ idx ∧ idx < 4 * (J * N + N)) := by omega
        rw [if_neg l1, if_neg hA, if_neg hB]

omit [LinearOrderedField F] in
theorem cellIndex_normals (t : FFTWrapper F) (f : Nat → F) (g : Nat → Nat → Nat → F)
    (j i : Nat) :
    FFTWrapper.cellIndex { t with pNormalOut := f, m_FFTin := g } j i = t.cellIndex j i := rfl

theorem foam_normals (t : FFTWrapper F) (f : Nat → F) (g : Nat → Nat → Nat → F) (c e : F)
    (j i : Nat) :
    FFTWrapper.foam { t with pNormalOut := f, m_FFTin := g } c e j i = t.foam c e j i := rfl

/-- One row of the first loop nest of `Fill_Normals_FFT`: the inner loop after `K` iterations
in row `j`. -/
theorem Fill_Normals_FFT_row (choppy intensity : F) (t : FFTWrapper F) (j K : Nat)
    (hK : 4 * (j * t.m_height + K) ≤ 2 ^ 32) :
    forLoop (FFTWrapper.Fill_Normals_FFT_cell choppy intensity j) K t =
      { t with
        pNormalOut := fun idx =>
          if 4 * (j * t.m_height) ≤ idx ∧ idx < 4 * (j * t.m_height + K) ∧ idx % 4 = 3 then
            t.foam choppy intensity j (idx / 4 - j * t.m_height)
          else t.pNormalOut idx
        m_FFTin := fun b n c =>
          if j * t.m_height ≤ n ∧ n < j * t.m_height + K then t.gradFFTin n b n c
          else t.m_FFTin b n c } := by
  induction K with
  | zero =>
    cases t
    simp only [forLoop, FFTWrapper.mk.injEq, true_and, and_true]
    constructor
    · funext b n c; rw [if_neg (by omega)]
    · funext idx; rw [if_neg (by omega)]
  | succ K ih =>
    have hc : t.cellIndex j K = j * t.m_height + K := u32_of_lt (by omega)
    have h3 : u32 (4 * (j * t.m_height + K) + 3) = 4 * (j * t.m_height + K) + 3 :=
      u32_of_lt (by omega)
    simp only [forLoop, ih (by omega), Fill_Normals_FFT_cell_eq, cellIndex_normals,
      foam_normals, hc, h3]
    simp only [FFTWrapper.mk.injEq, true_and, and_true]
    generalize j * t.m_height = a at *
    constructor
    · funext b n c
      have hself : ¬ (a ≤ a + K ∧ a + K < a + K) := by omega
      simp only [FFTWrapper.gradFFTin, wr3_apply, if_neg hself]
      rcases Nat.lt_trichotomy n (a + K) with h | h | h
      · have ne : n ≠ a + K := by omega
        have l : (a ≤ n ∧ n < a + (K + 1)) ↔ (a ≤ n ∧ n < a + K) := by omega
        simp only [ne, false_and, and_false, if_false, l]
      · subst h
        have l : a ≤ a + K ∧ a + K < a + (K + 1) := by omega
        simp only [if_pos l, if_neg hself, true_and]
      · have ne : n ≠ a + K := by omega
        have l : ¬ (a ≤ n ∧ n < a + (K + 1)) := by omega
        have l' : ¬ (a ≤ n ∧ n < a + K) := by omega
        simp only [ne, false_and, and_false, if_false, l, l']
    · funext idx
      simp only [wr_apply]
      by_cases e : idx = 4 * (a + K) + 3
      · subst e
        have d : (4 * (a + K) + 3) / 4 - a = K := by omega
        have l : 4 * a ≤ 4 * (a + K) + 3 ∧ 4 * (a + K) + 3 < 4 * (a + (K + 1)) ∧
            (4 * (a + K) + 3) % 4 = 3 := by omega
        rw [if_pos rfl, if_pos l, d]
      · have l : (4 * a ≤ idx ∧ idx < 4 * (a + (K + 1)) ∧ idx % 4 = 3) ↔
            (4 * a ≤ idx ∧ idx < 4 * (a + K) ∧ idx % 4 = 3) := by omega
        rw [if_neg e]
        simp only [l]

/-- The first loop nest of `Fill_Normals_FFT` after `J` rows. -/
theorem Fill_Normals_FFT_rows (choppy intensity : F) (s : FFTWrapper F) (J : Nat)
    (hJ : 4 * (J * s.m_height) ≤ 2 ^ 32) :
    forLoop (fun j => forLoop (FFTWrapper.Fill_Normals_FFT_cell choppy intensity j) s.m_height)
        J s =
      { s with
        pNormalOut := fun idx => if idx < 4 * (J * s.m_height) ∧ idx % 4 = 3 then
            s.foam choppy intensity (idx / 4 / s.m_height) (idx / 4 % s.m_height)
          else s.pNormalOut idx
        m_FFTin := fun b n c => if n < J * s.m_height then s.gradFFTin n b n c
          else s.m_FFTin b n c } := by
  induction J with
  | zero =>
    cases s
    simp only [forLoop, FFTWrapper.mk.injEq, true_and, and_true]
    constructor
    · funext b n c; rw [if_neg (by omega)]
    · funext idx; rw [if_neg (by omega)]
  | succ J ih =>
    have hs : (J + 1) * s.m_height = J * s.m_height + s.m_height := Nat.succ_mul _ _
    rw [hs] at hJ
    simp only [forLoop, ih (by omega)]
    refine Eq.trans (Fill_Normals_FFT_row choppy intensity _ J s.m_height ?_) ?_
    · exact hJ
    rw [hs]
    simp only [foam_normals, FFTWrapper.mk.injEq, true_and, and_true]
    generalize s.m_height = N at *
    constructor
    · funext b n c
      by_cases hA : n < J * N
      · have l1 : ¬ (J * N ≤ n ∧ n < J * N + N) := by omega
        have l2 : n < J * N + N := by omega
        rw [if_neg l1, if_pos hA, if_pos l2]
      · by_cases hB : n < J * N + N
        · have l1 : J * N ≤ n ∧ n < J * N + N := by omega
          rw [if_pos l1, if_pos hB]
          simp only [FFTWrapper.gradFFTin, wr3_apply, if_neg hA]
        · have l1 : ¬ (J * N ≤ n ∧ n < J * N + N) := by omega
          rw [if_neg l1, if_neg hA, if_neg hB]
    · funext idx
      by_cases hA : idx < 4 * (J * N)
      · have l1 : ¬ (4 * (J * N) ≤ idx ∧ idx < 4 * (J * N + N) ∧ idx % 4 = 3) := by omega
        have l2 : (idx < 4 * (J * N + N) ∧ idx % 4 = 3) ↔ (idx < 4 * (J * N) ∧ idx % 4 = 3) := by
          omega
        rw [if_neg l1]
        simp only [l2]
      · by_cases hB : idx < 4 * (J * N + N) ∧ idx % 4 = 3
        · have l1 : 4 * (J * N) ≤ idx ∧ idx < 4 * (J * N + N) ∧ idx % 4 = 3 := by omega
          have r1 : J * N ≤ idx / 4 := by omega
          have r2 : idx / 4 < J * N + N := by omega
          obtain ⟨d, m⟩ := row_col_of_index r1 r2
          rw [if_pos l1, if_pos hB, d, m]
        · have l1 : ¬ (4 * (J * N) ≤ idx ∧ idx < 4 * (J * N + N) ∧ idx % 4 = 3) := by omega
          have l2 : ¬ (idx < 4 * (J * N) ∧ idx % 4 = 3) := by omega
          rw [if_neg l1, if_neg l2, if_neg hB]

/-- The last loop of `Fill_Normals_FFT` after `k` iterations. -/
theorem Fill_Normals_FFT_write_loop (s : FFTWrapper F) (k : Nat) (hk : 4 * k ≤ 2 ^ 32) :
    forLoop FFTWrapper.Fill_Normals_FFT_write k s =
      { s with
        pNormalOut := fun idx => if idx < 4 * k ∧ idx % 4 ≠ 3 then
            (if idx % 4 = 0 then s.m_FFTout 1 (idx / 4) 0
             else if idx % 4 = 1 then 2500 else s.m_FFTout 2 (idx / 4) 0)
          else s.pNormalOut idx } := by
  induction k with
  | zero =>
    cases s
    simp only [forLoop, FFTWrapper.mk.injEq, true_and, and_true]
    funext idx; rw [if_neg (by omega)]
  | succ k ih =>
    have e0 : u32 (4 * k + 0) = 4 * k := u32_of_lt (by omega)
    have e1 : u32 (4 * k + 1) = 4 * k + 1 := u32_of_lt (by omega)
    have e2 : u32 (4 * k + 2) = 4 * k + 2 := u32_of_lt (by omega)
    simp only [forLoop, ih (by omega), FFTWrapper.Fill_Normals_FFT_write, e0, e1, e2,
      FFTWrapper.mk.injEq, true_and, and_true]
    funext idx
    simp only [wr_apply]
    have hc : idx = 4 * k ∨ idx = 4 * k + 1 ∨ idx = 4 * k + 2 ∨
        (idx ≠ 4 * k ∧ idx ≠ 4 * k + 1 ∧ idx ≠ 4 * k + 2) := by omega
    rcases hc with h | h | h | ⟨n0, n1, n2⟩
    · subst h
      have d : 4 * k / 4 = k := by omega
      have m : 4 * k % 4 = 0 := by omega
      have l : 4 * k < 4 * (k + 1) := by omega
      simp [d, m, l]
    · subst h
      have d : (4 * k + 1) / 4 = k := by omega
      have m : (4 * k + 1) % 4 = 1 := by omega
      have l : 4 * k + 1 < 4 * (k + 1) := by omega
      simp [d, m, l]
    · subst h
      have d : (4 * k + 2) / 4 = k := by omega
      have m : (4 * k + 2) % 4 = 2 := by omega
      have l : 4 * k + 2 < 4 * (k + 1) := by omega
      simp [d, m, l]
    · have l : (idx < 4 * (k + 1) ∧ idx % 4 ≠ 3) ↔ (idx < 4 * k ∧ idx % 4 ≠ 3) := by omega
      simp only [n0, n1, n2, if_false, l]

omit [LinearOrderedField F] in
/-- The neighbour column wraps at the grid edge. -/
theorem xNext_eq_mod (s : FFTWrapper F) (N i : Nat) (hw : s.m_width = N) (hi : i < N) :
    s.xNext i = (i + 1) % N := by
  unfold FFTWrapper.xNext
  rw [hw]
  by_cases e : i = N - 1
  · rw [if_pos e]
    have : i + 1 = N := by omega
    rw [this, Nat.mod_self]
  · rw [if_neg e, Nat.mod_eq_of_lt (by omega)]

omit [LinearOrderedField F] in
/-- The neighbour row wraps at the grid edge. -/
theorem zNext_eq_mod (s : FFTWrapper F) (N j : Nat) (hh : s.m_height = N) (hj : j < N) :
    s.zNext j = (j + 1) % N := by
  unfold FFTWrapper.zNext
  rw [hh]
  by_cases e : j = N - 1
  · rw [if_pos e]
    have : j + 1 = N := by omega
    rw [this, Nat.mod_self]
  · rw [if_neg e, Nat.mod_eq_of_lt (by omega)]

omit [LinearOrderedField F] in
/-- The linear index of a cell of the grid does not wrap. -/
theorem cellIndex_eq (s : FFTWrapper F) (N j i : Nat) (hh : s.m_height = N)
    (hN : N * N < 2 ^ 32) (hj : j < N) (hi : i < N) : s.cellIndex j i = j * N + i := by
  have h := cell_index_lt (N := N) (J := N) hj hi
  simp only [FFTWrapper.cellIndex, hh]
  exact u32_of_lt (by omega)

/-- Row and column of the linear index of cell `(i, j)`. -/
theorem index_row_col {N i j : Nat} (hi : i < N) : (j * N + i) / N = j ∧ (j * N + i) % N = i := by
  obtain ⟨d, m⟩ := row_col_of_index (N := N) (J := j) (m := j * N + i) (by omega) (by omega)
  exact ⟨d, by rw [m]; omega⟩

/-- `Fill_Normals_Central_Diff` in closed form. -/
theorem Fill_Normals_Central_Diff_eq (M : CLib F) (choppy heightAdj foamInt : F)
    (s : FFTWrapper F) (N : Nat) (hw : s.m_width = N) (hh : s.m_height = N)
    (hN : N * N ≤ 2 ^ 32) :
    s.Fill_Normals_Central_Diff M choppy heightAdj foamInt =
      { s with
        pNormalOut := fun idx => if idx < 4 * (N * N) then
            s.cdTexel M choppy heightAdj (s.foamIntensity foamInt) (idx / 4 / N) (idx / 4 % N)
              (idx % 4)
          else s.pNormalOut idx } := by
  have hwh : s.m_width = s.m_height := by rw [hw, hh]
  unfold FFTWrapper.Fill_Normals_Central_Diff
  simp only [hwh]
  rw [Fill_Normals_Central_Diff_rows M choppy heightAdj _ s s.m_height (by rw [hh]; exact hN)]
  simp only [hh, hw, FFTWrapper.foamIntensity]

/-- The foam channel after `Fill_Normals_FFT`. -/
theorem Fill_Normals_FFT_foam (M : CLib F) (choppy foamInt : F) (s : FFTWrapper F) (N n : Nat)
    (hw : s.m_width = N) (hh : s.m_height = N) (hN : 4 * (N * N) ≤ 2 ^ 32) (hn : n < N * N) :
    (s.Fill_Normals_FFT M choppy foamInt).pNormalOut (4 * n + 3) =
      s.foam choppy (s.foamIntensity foamInt) (n / N) (n % N) := by
  have hwh : s.m_width = s.m_height := by rw [hw, hh]
  have hb : u32 (N * N) = N * N := u32_of_lt (by omega)
  have d : (4 * n + 3) / 4 = n := by omega
  have l1 : ¬ (4 * n + 3 < 4 * (N * N) ∧ (4 * n + 3) % 4 ≠ 3) := by omega
  have l2 : 4 * n + 3 < 4 * (N * N) ∧ (4 * n + 3) % 4 = 3 := by omega
  unfold FFTWrapper.Fill_Normals_FFT
  simp only [hwh]
  rw [Fill_Normals_FFT_rows choppy _ s s.m_height (by rw [hh]; exact hN)]
  simp only [FFTWrapper.execute, hh, hw, hb]
  rw [Fill_Normals_FFT_write_loop _ _ hN]
  simp only [if_neg l1, if_pos l2, d, FFTWrapper.foamIntensity, hh]

/-- The inner loop of `Precalculate_Sinusoids` with enough fuel: if the loop condition holds
for the next `m` values of `time_unit` and fails for the one after, the loop returns with `m`
more samples in each vector. -/
theorem sinusoidLoop_eq (M : CLib F) (w P step : F) (m : Nat) :
    ∀ (fuel : Nat) (t : F) (cs : List F × List F), m < fuel →
      (∀ k, k < m → t + (k : F) * step < P) → ¬ (t + (m : F) * step < P) →
      sinusoidLoop M w P step fuel t cs =
        some (cs.1 ++ (List.range m).map (fun k : Nat => M.cos (w * (t + (k : F) * step))),
              cs.2 ++ (List.range m).map (fun k : Nat => M.sin (w * (t + (k : F) * step)))) := by
  induction m with
  | zero =>
    intro fuel t cs hf _ hstop
    obtain ⟨f, rfl⟩ : ∃ f, fuel = f + 1 := ⟨fuel - 1, by omega⟩
    have hstop' : ¬ t < P := by simpa using hstop
    simp [sinusoidLoop, hstop']
  | succ m ih =>
    intro fuel t cs hf hlt hstop
    obtain ⟨f, rfl⟩ : ∃ f, fuel = f + 1 := ⟨fuel - 1, by omega⟩
    have h0 : t < P := by simpa using hlt 0 (by omega)
    have hlt' : ∀ k, k < m → t + step + (k : F) * step < P := by
      intro k hk
      have := hlt (k + 1) (by omega)
      push_cast at this
      linarith
    have hstop' : ¬ (t + step + (m : F) * step < P) := by
      intro h
      apply hstop
      push_cast
      linarith
    rw [sinusoidLoop, if_pos h0, ih f (t + step) _ (by omega) hlt' hstop']
    have e : ∀ k : Nat, t + step + (k : F) * step = t + ((k + 1 : Nat) : F) * step := by
      intro k; push_cast; ring
    simp only [e, List.range_succ_eq_map, List.map_cons, List.map_map, Nat.cast_zero, zero_mul,
      add_zero, List.append_assoc, List.singleton_append]
    rfl

/-- The number of sample times `0, step, 2 * step, ...` below `P` is `⌈P / step⌉`. -/
theorem sinusoid_count [FloorRing F] (P step : F) (hstep : 0 < step) :
    (∀ k : Nat, k < ⌈P / step⌉₊ → (0 : F) + (k : F) * step < P) ∧
      ¬ ((0 : F) + ((⌈P / step⌉₊ : Nat) : F) * step < P) := by
  constructor
  · intro k hk
    have h := Nat.lt_ceil.mp hk
    rw [zero_add]
    exact (lt_div_iff₀ hstep).mp h
  · rw [zero_add, not_lt]
    exact (div_le_iff₀ hstep).mp (Nat.le_ceil _)

/-- One iteration of the outer loop of `Precalculate_Sinusoids` with enough fuel. -/
theorem Precalculate_Sinusoids_cell_eq (M : CLib F) (fuel : Nat) (step : F) (i : Nat)
    (s : FFTWrapper F) (m : Nat) (hm : m < fuel)
    (hlt : ∀ k : Nat, k < m → (0 : F) + (k : F) * step < s.wavePeriod M i)
    (hstop : ¬ ((0 : F) + (m : F) * step < s.wavePeriod M i)) :
    FFTWrapper.Precalculate_Sinusoids_cell M fuel step i s =
      some { s with
        m_cosPrecalc := wr s.m_cosPrecalc i (sinusoidSamples M.cos (s.omegaK M i) step m)
        m_sinPrecalc := wr s.m_sinPrecalc i (sinusoidSamples M.sin (s.omegaK M i) step m) } := by
  unfold FFTWrapper.wavePeriod FFTWrapper.omegaK at hlt hstop
  simp only [FFTWrapper.Precalculate_Sinusoids_cell, wr_apply, if_true,
    sinusoidLoop_eq M _ _ step m fuel 0 _ hm hlt hstop, List.nil_append, zero_add,
    sinusoidSamples, FFTWrapper.omegaK, Option.some.injEq, FFTWrapper.mk.injEq, true_and,
    and_true]
  constructor <;> funext j <;> by_cases e : j = i <;> simp [e]

/-- The outer loop of `Precalculate_Sinusoids` after `k` iterations, with enough fuel for the
`cnt i` samples of every cell `i` below `k`. -/
theorem Precalculate_Sinusoids_loop (M : CLib F) (fuel : Nat) (step : F) (s : FFTWrapper F)
    (cnt : Nat → Nat) (k : Nat)
    (h : ∀ i, i < k → cnt i < fuel ∧
      (∀ j : Nat, j < cnt i → (0 : F) + (j : F) * step < s.wavePeriod M i) ∧
      ¬ ((0 : F) + (cnt i : F) * step < s.wavePeriod M i)) :
    forLoopM (FFTWrapper.Precalculate_Sinusoids_cell M fuel step) k s =
      some { s with
        m_cosPrecalc := fun i => if i < k then sinusoidSamples M.cos (s.omegaK M i) step (cnt i)
          else s.m_cosPrecalc i
        m_sinPrecalc := fun i => if i < k then sinusoidSamples M.sin (s.omegaK M i) step (cnt i)
          else s.m_sinPrecalc i } := by
  induction k with
  | zero =>
    cases s
    simp [forLoopM]
  | succ k ih =>
    obtain ⟨h1, h2, h3⟩ := h k (by omega)
    rw [forLoopM, ih (fun i hi => h i (by omega)), Option.some_bind]
    refine Eq.trans (Precalculate_Sinusoids_cell_eq M fuel step k _ (cnt k) h1 ?_ ?_) ?_
    · exact h2
    · exact h3
    simp only [FFTWrapper.omegaK, Option.some.injEq, FFTWrapper.mk.injEq, true_and, and_true]
    constructor <;> funext i <;> simp only [wr_apply] <;>
      rcases Nat.lt_trichotomy i k with hlt | hlt | hlt
    · simp [hlt, Nat.lt_succ_of_lt hlt, Nat.ne_of_lt hlt]
    · subst hlt; simp
    · simp [Nat.ne_of_gt hlt, Nat.not_lt_of_gt hlt, show ¬ i < k + 1 by omega]
    · simp [hlt, Nat.lt_succ_of_lt hlt, Nat.ne_of_lt hlt]
    · subst hlt; simp
    · simp [Nat.ne_of_gt hlt, Nat.not_lt_of_gt hlt, show ¬ i < k + 1 by omega]

/-- `Precalculate_Sinusoids` with enough fuel, in closed form: the read indices of the cells
are zero and the caches of cell `i` hold the `⌈wavePeriod / step⌉` samples at the times
`0, step, 2 * step, ...`. -/
theorem Precalculate_Sinusoids_eq [FloorRing F] (M : CLib F) (fuel : Nat) (s : FFTWrapper F)
    (N : Nat) (hw : s.m_width = N) (hh : s.m_height = N) (hN : N * N < 2 ^ 32)
    (hfuel : ∀ i, i < N * N → ⌈s.wavePeriod M i / (1 / 20)⌉₊ < fuel) :
    s.Precalculate_Sinusoids M fuel =
      some { s with
        m_cosLookup := fun i => if i < N * N then 0 else s.m_cosLookup i
        m_sinLookup := fun i => if i < N * N then 0 else s.m_sinLookup i
        m_cosPrecalc := fun i => if i < N * N then
            sinusoidSamples M.cos (s.omegaK M i) (1 / 20) ⌈s.wavePeriod M i / (1 / 20)⌉₊
          else s.m_cosPrecalc i
        m_sinPrecalc := fun i => if i < N * N then
            sinusoidSamples M.sin (s.omegaK M i) (1 / 20) ⌈s.wavePeriod M i / (1 / 20)⌉₊
          else s.m_sinPrecalc i } := by
  have hstep : (0 : F) < 1 / 20 := by norm_num
  unfold FFTWrapper.Precalculate_Sinusoids
  simp only [hw, hh, u32_of_lt hN]
  refine Eq.trans (Precalculate_Sinusoids_loop M fuel (1 / 20) _
    (fun i => ⌈s.wavePeriod M i / (1 / 20)⌉₊) (N * N) ?_) ?_
  · intro i hi
    exact ⟨hfuel i hi, (sinusoid_count (s.wavePeriod M i) (1 / 20) hstep).1,
      (sinusoid_count (s.wavePeriod M i) (1 / 20) hstep).2⟩
  · rfl

theorem Fill_K_Vectors_width (M : CLib F) (s : FFTWrapper F) :
    (s.Fill_K_Vectors M).m_width = s.m_width := by
  have h := congrArg FFTWrapper.m_width (Fill_K_Vectors_frame M s)
  exact h

theorem Fill_K_Vectors_height (M : CLib F) (s : FFTWrapper F) :
    (s.Fill_K_Vectors M).m_height = s.m_height := by
  have h := congrArg FFTWrapper.m_height (Fill_K_Vectors_frame M s)
  exact h

/-- What `Fill_K_Vectors` stores at the linear index `n` of the grid. -/
theorem Fill_K_Vectors_cell_values (M : CLib F) (s : FFTWrapper F) (N n : Nat)
    (hw : s.m_width = N) (hh : s.m_height = N) (hN : N * N < 2 ^ 32) (hn : n < N * N) :
    (s.Fill_K_Vectors M).m_kVectors n =
        ⟨kfTwoPi * ((n % N : Nat) : F) / kfWorldUnit, kfTwoPi * ((n / N : Nat) : F) / kfWorldUnit⟩ ∧
      (s.Fill_K_Vectors M).m_kMag n =
        max (magnitude M ⟨kfTwoPi * ((n % N : Nat) : F) / kfWorldUnit,
          kfTwoPi * ((n / N : Nat) : F) / kfWorldUnit⟩) (1 / 10000) ∧
      (1 / 10000 : F) ≤ (s.Fill_K_Vectors M).m_kMag n := by
  have hN0 : 0 < N := by
    rcases Nat.eq_zero_or_pos N with h | h
    · subst h; simp at hn
    · exact h
  have hj : n / N < N := (Nat.div_lt_iff_lt_mul hN0).mpr hn
  have hi : n % N < N := Nat.mod_lt _ hN0
  have hdef : s.Fill_K_Vectors M = (forLoop (FFTWrapper.Fill_K_Vectors_row M N) N (s, 0)).1 := by
    simp only [FFTWrapper.Fill_K_Vectors, hw, hh]
  have key := (Fill_K_Vectors_row_loop M s N N hN).2 (n / N) (n % N) hj hi
  rw [Nat.div_add_mod' n N] at key
  rw [hdef]
  refine ⟨key.1, key.2, ?_⟩
  rw [key.2]
  exact le_max_right _ _

/-- Over the reals, a fuel of `4201` is enough for every cell whose magnitude is at least the
clamp value `0.0001`. -/
theorem real_fuel_bound (x : ℝ) (hx : 1 / 10000 ≤ x) :
    ⌈(kfTwoPi : ℝ) / Real.sqrt (kfGravity * x) / (1 / 20)⌉₊ < 4201 := by
  have hw : (3 / 100 : ℝ) ≤ Real.sqrt (kfGravity * x) := by
    apply Real.le_sqrt_of_sq_le
    unfold kfGravity
    nlinarith
  have hc : ⌈(kfTwoPi : ℝ) / Real.sqrt (kfGravity * x) / (1 / 20)⌉₊ ≤ 4200 := by
    rw [Nat.ceil_le, div_div, div_le_iff₀ (by positivity)]
    unfold kfTwoPi
    push_cast
    nlinarith
  omega

/-- Over the reals, `Precalculate_Sinusoids` with fuel `4201` returns on every grid filled by
`Fill_K_Vectors`. -/
theorem real_grid_fuel (s : FFTWrapper ℝ) (N : Nat) (hw : s.m_width = N) (hh : s.m_height = N)
    (hN : N * N < 2 ^ 32) (i : Nat) (hi : i < N * N) :
    ⌈(s.Fill_K_Vectors realLib).wavePeriod realLib i / (1 / 20)⌉₊ < 4201 :=
  real_fuel_bound _ (Fill_K_Vectors_cell_values realLib s N i hw hh hN hi).2.2

/-- Cell `(1, 0)` of the 2 by 2 grid over the reals: wavevector `(kfTwoPi / 200, 0)` of
magnitude `kfTwoPi / 200`. -/
theorem real_grid2_cell1 :
    ((FFTWrapper.blank 2 : FFTWrapper ℝ).Fill_K_Vectors realLib).m_kVectors 1 =
        ⟨kfTwoPi / 200, 0⟩ ∧
      ((FFTWrapper.blank 2 : FFTWrapper ℝ).Fill_K_Vectors realLib).m_kMag 1 = kfTwoPi / 200 := by
  obtain ⟨hv, hm, -⟩ := Fill_K_Vectors_cell_values realLib (FFTWrapper.blank 2 : FFTWrapper ℝ)
    2 1 rfl rfl (by norm_num) (by norm_num)
  have hk : (0 : ℝ) ≤ kfTwoPi / 200 := by unfold kfTwoPi; norm_num
  have e1 : (1 % 2 : Nat) = 1 := rfl
  have e0 : (1 / 2 : Nat) = 0 := rfl
  rw [hv, hm, e1, e0]
  simp only [magnitude, realLib, kfWorldUnit, Nat.cast_one, Nat.cast_zero, mul_one, mul_zero,
    zero_div, add_zero, Real.sqrt_mul_self hk]
  refine ⟨trivial, max_eq_left ?_⟩
  unfold kfTwoPi
  norm_num

/-- The angular frequency of cell `(1, 0)` of the 2 by 2 grid lies between `kfTwoPi * 20 / 227`
and `kfTwoPi * 20 / 226`: its period holds more than `226` and fewer than `227` steps. -/
theorem real_grid2_steps :
    (226 : ℝ) < kfTwoPi / Real.sqrt (kfGravity * (kfTwoPi / 200)) / (1 / 20) ∧
      (kfTwoPi : ℝ) / Real.sqrt (kfGravity * (kfTwoPi / 200)) / (1 / 20) < 227 := by
  have h1 : (kfTwoPi : ℝ) * 20 / 227 < Real.sqrt (kfGravity * (kfTwoPi / 200)) := by
    apply Real.lt_sqrt_of_sq_lt
    unfold kfTwoPi kfGravity
    norm_num
  have h2 : Real.sqrt (kfGravity * ((kfTwoPi : ℝ) / 200)) < kfTwoPi * 20 / 226 := by
    rw [Real.sqrt_lt' (by unfold kfTwoPi; norm_num)]
    unfold kfTwoPi kfGravity
    norm_num
  have hpos : 0 < Real.sqrt (kfGravity * ((kfTwoPi : ℝ) / 200)) := by
    refine lt_trans ?_ h1
    unfold kfTwoPi; norm_num
  constructor
  · rw [div_div, lt_div_iff₀ (by positivity)]
    rw [lt_div_iff₀ (by norm_num)] at h2
    linarith
  · rw [div_div, div_lt_iff₀ (by positivity)]
    rw [div_lt_iff₀ (by norm_num)] at h1
    linarith

omit [LinearOrderedField F] in
theorem sinusoidSamples_length (f : F → F) [LinearOrderedField F] (w step : F) (count : Nat) :
    (sinusoidSamples f w step count).length = count := by
  simp [sinusoidSamples]

omit [LinearOrderedField F] in
theorem sinusoidSamples_get (f : F → F) [LinearOrderedField F] (w step : F) (count m : Nat)
    (hm : m < count) :
    (sinusoidSamples f w step count)[m]? = some (f (w * ((m : F) * step))) := by
  simp [sinusoidSamples, List.getElem?_map, List.getElem?_range hm]

/-- Two calls of `Fill_htilde_and_Displacements` on the one-cell wrapper `sampleCell`: the read
index wraps back to `0`, the phase factor read is `(1, 0)` and the height spectrum written is
`4 + 6i`. -/
theorem sampleCell_run_twice :
    sampleCell.Fill_htilde_and_Displacements.Fill_htilde_and_Displacements.m_cosLookup 0 = 0 ∧
    sampleCell.Fill_htilde_and_Displacements.Fill_htilde_and_Displacements.m_sinLookup 0 = 0 ∧
    sampleCell.Fill_htilde_and_Displacements.Fill_htilde_and_Displacements.m_FFTin 0 0 0 = 4 ∧
    sampleCell.Fill_htilde_and_Displacements.Fill_htilde_and_Displacements.m_FFTin 0 0 1 = 6 := by
  have hb : u32 (sampleCell.m_width * sampleCell.m_height) = 1 := by decide
  have hn : nextLookup 0 2 = 1 := by decide
  have hn' : nextLookup 1 2 = 0 := by decide
  simp only [FFTWrapper.Fill_htilde_and_Displacements, Fill_htilde_and_Displacements_loop, hb]
  simp only [sampleCell, FFTWrapper.blank, cellFFTin, wr3_apply, FFTWrapper.htilde,
    FFTWrapper.dispX, FFTWrapper.dispZ, FFTWrapper.expPos, List.length_cons, List.length_nil,
    hn, hn', vecAt, multComplex, addComplex]
  norm_num [hn']

/-- The Jacobian entries of cell `(i, j)` written with the wrapped neighbour indices. -/
theorem jacobian_entries (s : FFTWrapper F) (c e : F) (N i j : Nat)
    (hw : s.m_width = N) (hh : s.m_height = N) (hN : N * N < 2 ^ 32) (hi : i < N) (hj : j < N) :
    s.Jxx c e j i =
      1 + c * (-s.m_FFTout 1 (j * N + (i + 1) % N) 0 + s.m_FFTout 1 (j * N + i) 0) * e ∧
    s.Jxy c e j i =
      c * (-s.m_FFTout 2 (j * N + (i + 1) % N) 0 + s.m_FFTout 2 (j * N + i) 0) * e ∧
    s.Jyy c e j i =
      1 + c * (-s.m_FFTout 2 ((j + 1) % N * N + i) 0 + s.m_FFTout 2 (j * N + i) 0) * e ∧
    s.Jyx c e j i =
      c * (-s.m_FFTout 1 ((j + 1) % N * N + i) 0 + s.m_FFTout 1 (j * N + i) 0) * e := by
  have hx : (i + 1) % N < N := Nat.mod_lt _ (by omega)
  have hz : (j + 1) % N < N := Nat.mod_lt _ (by omega)
  simp only [FFTWrapper.Jxx, FFTWrapper.Jxy, FFTWrapper.Jyy, FFTWrapper.Jyx,
    xNext_eq_mod s N i hw hi, zNext_eq_mod s N j hh hj, cellIndex_eq s N j i hh hN hj hi,
    cellIndex_eq s N j _ hh hN hj hx, cellIndex_eq s N _ i hh hN hz hi, and_self]

/-- `Fill_Normals_FFT` in closed form: the gradient spectra go to the spectral buffers `1` and
`2`, their transforms to the transformed buffers `1` and `2`, and the normal buffer gets
`(Re gx, 2500, Re gz, foam)` per cell. -/
theorem Fill_Normals_FFT_eq (M : CLib F) (choppy foamInt : F) (s : FFTWrapper F) (N : Nat)
    (hw : s.m_width = N) (hh : s.m_height = N) (hN : 4 * (N * N) ≤ 2 ^ 32) :
    s.Fill_Normals_FFT M choppy foamInt =
      { s with
        m_FFTin := fun b n c => if n < N * N then s.gradFFTin n b n c else s.m_FFTin b n c
        m_FFTout := fun b =>
          if b = 2 then
            M.fftwf_execute N N
              (fun n c => if n < N * N then s.gradFFTin n 2 n c else s.m_FFTin 2 n c)
          else if b = 1 then
            M.fftwf_execute N N
              (fun n c => if n < N * N then s.gradFFTin n 1 n c else s.m_FFTin 1 n c)
          else s.m_FFTout b
        pNormalOut := fun idx =>
          if idx < 4 * (N * N) ∧ idx % 4 ≠ 3 then
            (if idx % 4 = 0 then
              M.fftwf_execute N N
                (fun n c => if n < N * N then s.gradFFTin n 1 n c else s.m_FFTin 1 n c)
                (idx / 4) 0
             else if idx % 4 = 1 then 2500
             else
              M.fftwf_execute N N
                (fun n c => if n < N * N then s.gradFFTin n 2 n c else s.m_FFTin 2 n c)
                (idx / 4) 0)
          else if idx < 4 * (N * N) ∧ idx % 4 = 3 then
            s.foam choppy (s.foamIntensity foamInt) (idx / 4 / N) (idx / 4 % N)
          else s.pNormalOut idx } := by
  have hwh : s.m_width = s.m_height := by rw [hw, hh]
  have hb : u32 (N * N) = N * N := u32_of_lt (by omega)
  unfold FFTWrapper.Fill_Normals_FFT
  simp only [hwh]
  rw [Fill_Normals_FFT_rows choppy _ s s.m_height (by rw [hh]; exact hN)]
  simp only [FFTWrapper.execute, hh, hw, hb]
  rw [Fill_Normals_FFT_write_loop _ _ hN]
  simp only [FFTWrapper.foamIntensity, hh, hw]
  simp

/-- `Philips_Spectrum` takes the same value at `-k` and at `k`. -/
theorem Philips_Spectrum_neg_eq (M : CLib F) (s : FFTWrapper F) (vK : Vec2 F) (kMag : F) :
    s.Philips_Spectrum M ⟨-vK.x, -vK.y⟩ kMag = s.Philips_Spectrum M vK kMag := by
  simp only [FFTWrapper.Philips_Spectrum, sqr, normal, dot]
  ring

/-- `Fill_h0tilde` on an `N` by `N` grid in closed form. -/
theorem Fill_h0tilde_eq (M : CLib F) (dist : Nat → F) (s : FFTWrapper F) (N : Nat)
    (hw : s.m_width = N) (hh : s.m_height = N) (hN : N * N < 2 ^ 32) :
    s.Fill_h0tilde M dist =
      { s with
        m_h0tilde := fun n => if n < N * N then
            ⟨dist (4 * n) *
                (M.sqrt (s.Philips_Spectrum M (s.m_kVectors n) (s.m_kMag n)) * (1 / M.sqrt 2)),
             dist (4 * n + 1) *
                (M.sqrt (s.Philips_Spectrum M (s.m_kVectors n) (s.m_kMag n)) * (1 / M.sqrt 2))⟩
          else s.m_h0tilde n
        m_h0tildeConj := fun n => if n < N * N then
            ⟨dist (4 * n + 2) *
                (M.sqrt (s.Philips_Spectrum M (s.m_kVectors n) (s.m_kMag n)) * (1 / M.sqrt 2)),
             -dist (4 * n + 3) *
                (M.sqrt (s.Philips_Spectrum M (s.m_kVectors n) (s.m_kMag n)) * (1 / M.sqrt 2))⟩
          else s.m_h0tildeConj n } := by
  simp only [FFTWrapper.Fill_h0tilde, hw, hh, u32_of_lt hN, Fill_h0tilde_cell_loop,
    Philips_Spectrum_neg_eq]

/-- `Fill_htilde_and_Displacements` on an `N` by `N` grid in closed form. -/
theorem Fill_htilde_and_Displacements_eq (s : FFTWrapper F) (N : Nat)
    (hw : s.m_width = N) (hh : s.m_height = N) (hN : N * N < 2 ^ 32) :
    s.Fill_htilde_and_Displacements =
      { s with
        m_cosLookup := fun i => if i < N * N then
            nextLookup (s.m_cosLookup i) (s.m_cosPrecalc i).length
          else s.m_cosLookup i
        m_sinLookup := fun i => if i < N * N then
            nextLookup (s.m_sinLookup i) (s.m_sinPrecalc i).length
          else s.m_sinLookup i
        m_FFTin := fun b i c => if i < N * N then
            cellFFTin s.m_FFTin i (s.htilde i) (s.dispX i) (s.dispZ i) b i c
          else s.m_FFTin b i c } := by
  simp only [FFTWrapper.Fill_htilde_and_Displacements, hw, hh, u32_of_lt hN,
    Fill_htilde_and_Displacements_loop]

/-- The read index after one more call, when the index is `n mod L` and the cache is not
empty. -/
theorem nextLookup_mod (L : Nat) (hL : 1 ≤ L) (n : Nat) :
    nextLookup ((n % L : Nat) : Int) L = (((n + 1) % L : Nat) : Int) := by
  have hr : n % L < L := Nat.mod_lt _ hL
  have hm : (n + 1) % L = (n % L + 1) % L := (Nat.mod_add_mod n L 1).symm
  unfold nextLookup sizeGe
  by_cases e : n % L + 1 = L
  · have h0 : (n + 1) % L = 0 := by rw [hm, e, Nat.mod_self]
    rw [h0, if_pos]
    · rfl
    · right; omega
  · have h1 : (n + 1) % L = n % L + 1 := by rw [hm, Nat.mod_eq_of_lt (by omega)]
    rw [h1, if_neg]
    · push_cast; rfl
    · intro h
      rcases h with h | h <;> omega

/-- The read index after one more call is the next slot, or slot `0` at the end of the
cache. -/
theorem nextLookup_wrap (lookup : Int) (L : Nat) (h0 : 0 ≤ lookup) :
    nextLookup lookup L = if lookup + 1 < (L : Int) then lookup + 1 else 0 := by
  unfold nextLookup sizeGe
  by_cases h : lookup + 1 < (L : Int)
  · rw [if_pos h, if_neg]
    intro h'
    rcases h' with h' | h' <;> omega
  · rw [if_neg h, if_pos]
    right; omega

/-- What `n` calls of `Fill_htilde_and_Displacements` leave untouched. -/
theorem Fill_htilde_iterate_frame (s : FFTWrapper F) (N : Nat)
    (hw : s.m_width = N) (hh : s.m_height = N) (hN : N * N < 2 ^ 32) (n : Nat) :
    { (FFTWrapper.Fill_htilde_and_Displacements^[n]) s with
      m_cosLookup := s.m_cosLookup, m_sinLookup := s.m_sinLookup, m_FFTin := s.m_FFTin } = s := by
  induction n with
  | zero => rfl
  | succ n ih =>
    have hw' : ((FFTWrapper.Fill_htilde_and_Displacements^[n]) s).m_width = N := by
      have h := congrArg FFTWrapper.m_width ih
      exact h.trans hw
    have hh' : ((FFTWrapper.Fill_htilde_and_Displacements^[n]) s).m_height = N := by
      have h := congrArg FFTWrapper.m_height ih
      exact h.trans hh
    rw [Function.iterate_succ_apply', Fill_htilde_and_Displacements_eq _ N hw' hh' hN]
    exact ih

/-- The read indices of a cell after `n` calls of `Fill_htilde_and_Displacements`, from
indices `0` and caches that are not empty. -/
theorem Fill_htilde_iterate_lookup (s : FFTWrapper F) (N : Nat)
    (hw : s.m_width = N) (hh : s.m_height = N) (hN : N * N < 2 ^ 32) (i : Nat) (hi : i < N * N)
    (n : Nat) :
    (s.m_cosLookup i = 0 → 1 ≤ (s.m_cosPrecalc i).length →
      ((FFTWrapper.Fill_htilde_and_Displacements^[n]) s).m_cosLookup i =
        ((n % (s.m_cosPrecalc i).length : Nat) : Int)) ∧
    (s.m_sinLookup i = 0 → 1 ≤ (s.m_sinPrecalc i).length →
      ((FFTWrapper.Fill_htilde_and_Displacements^[n]) s).m_sinLookup i =
        ((n % (s.m_sinPrecalc i).length : Nat) : Int)) := by
  induction n with
  | zero =>
    refine ⟨fun h0 _ => ?_, fun h0 _ => ?_⟩
    · simp only [Function.iterate_zero, id_eq, h0, Nat.zero_mod, Nat.cast_zero]
    · simp only [Function.iterate_zero, id_eq, h0, Nat.zero_mod, Nat.cast_zero]
  | succ n ih =>
    have hf := Fill_htilde_iterate_frame s N hw hh hN n
    have hw' : ((FFTWrapper.Fill_htilde_and_Displacements^[n]) s).m_width = N := by
      have h := congrArg FFTWrapper.m_width hf
      exact h.trans hw
    have hh' : ((FFTWrapper.Fill_htilde_and_Displacements^[n]) s).m_height = N := by
      have h := congrArg FFTWrapper.m_height hf
      exact h.trans hh
    have hc : ((FFTWrapper.Fill_htilde_and_Displacements^[n]) s).m_cosPrecalc =
        s.m_cosPrecalc := by
      have h := congrArg FFTWrapper.m_cosPrecalc hf
      exact h
    have hs : ((FFTWrapper.Fill_htilde_and_Displacements^[n]) s).m_sinPrecalc =
        s.m_sinPrecalc := by
      have h := congrArg FFTWrapper.m_sinPrecalc hf
      exact h
    rw [Function.iterate_succ_apply', Fill_htilde_and_Displacements_eq _ N hw' hh' hN]
    simp only [if_pos hi, hc, hs]
    refine ⟨fun h0 hL => ?_, fun h0 hL => ?_⟩
    · rw [ih.1 h0 hL, nextLookup_mod _ hL]
    · rw [ih.2 h0 hL, nextLookup_mod _ hL]

omit [LinearOrderedField F] in
/-- A read of a vector at an index below its size returns the stored element. -/
theorem vecAt_natCast [LinearOrderedField F] (v : List F) (m : Nat) (hm : m < v.length) :
    v[m]? = some (vecAt v (m : Int)) := by
  simp [vecAt, List.getD_eq_getElem?_getD, List.getElem?_eq_getElem hm]

/-- What `Precalculate_Sinusoids` leaves, with enough fuel: the grid, the wavevectors and the
amplitudes are untouched, the read indices of the cells are zero and the caches hold the
samples. -/
theorem Precalculate_Sinusoids_spec [FloorRing F] (M : CLib F) (fuel : Nat) (s : FFTWrapper F)
    (N : Nat) (hw : s.m_width = N) (hh : s.m_height = N) (hN : N * N < 2 ^ 32)
    (hfuel : ∀ i, i < N * N →
      ⌈kfTwoPi / M.sqrt (kfGravity * s.m_kMag i) / (1 / 20)⌉₊ < fuel) :
    ∃ s0, s.Precalculate_Sinusoids M fuel = some s0 ∧ s0.m_width = N ∧ s0.m_height = N ∧
      s0.m_kMag = s.m_kMag ∧ s0.m_kVectors = s.m_kVectors ∧ s0.m_h0tilde = s.m_h0tilde ∧
      s0.m_h0tildeConj = s.m_h0tildeConj ∧
      ∀ i, i < N * N →
        s0.m_cosLookup i = 0 ∧ s0.m_sinLookup i = 0 ∧
        s0.m_cosPrecalc i = sinusoidSamples M.cos (M.sqrt (kfGravity * s.m_kMag i)) (1 / 20)
          ⌈kfTwoPi / M.sqrt (kfGravity * s.m_kMag i) / (1 / 20)⌉₊ ∧
        s0.m_sinPrecalc i = sinusoidSamples M.sin (M.sqrt (kfGravity * s.m_kMag i)) (1 / 20)
          ⌈kfTwoPi / M.sqrt (kfGravity * s.m_kMag i) / (1 / 20)⌉₊ := by
  refine ⟨_, Precalculate_Sinusoids_eq M fuel s N hw hh hN hfuel, hw, hh, rfl, rfl, rfl, rfl,
    fun i hi => ?_⟩
  simp only [if_pos hi]
  exact ⟨trivial, trivial, rfl, rfl⟩

/-- `Philips_Spectrum` reads the wind and the amplitude only, which `Fill_K_Vectors` leaves
untouched. -/
theorem Philips_Spectrum_frame (M : CLib F) (s : FFTWrapper F) (vK : Vec2 F) (kMag : F) :
    (s.Fill_K_Vectors M).Philips_Spectrum M vK kMag = s.Philips_Spectrum M vK kMag := by
  have h1 : (s.Fill_K_Vectors M).m_windSpeed = s.m_windSpeed := by
    have h := congrArg FFTWrapper.m_windSpeed (Fill_K_Vectors_frame M s)
    exact h
  have h2 : (s.Fill_K_Vectors M).m_windNormal = s.m_windNormal := by
    have h := congrArg FFTWrapper.m_windNormal (Fill_K_Vectors_frame M s)
    exact h
  have h3 : (s.Fill_K_Vectors M).m_amplitude = s.m_amplitude := by
    have h := congrArg FFTWrapper.m_amplitude (Fill_K_Vectors_frame M s)
    exact h
  simp only [FFTWrapper.Philips_Spectrum, h1, h2, h3]

/-- The period of cell `(1, 0)` of the 2 by 2 grid over the reals holds `227` samples. -/
theorem real_grid2_count :
    ⌈(kfTwoPi : ℝ) / Real.sqrt (kfGravity * (kfTwoPi / 200)) / (1 / 20)⌉₊ = 227 := by
  obtain ⟨hlo, hhi⟩ := real_grid2_steps
  rw [Nat.ceil_eq_iff (by norm_num)]
  exact ⟨by push_cast; linarith, by push_cast; linarith⟩

/-- The factor `sqrt (Philips_Spectrum (k, kMag)) / sqrt 2` of cell `(1, 0)` of the 2 by 2 grid
with the presets of the header is positive over the reals. -/
theorem real_grid2_scale_pos :
    0 < Real.sqrt ((FFTWrapper.blank 2 : FFTWrapper ℝ).Philips_Spectrum realLib
      ⟨kfTwoPi / 200, 0⟩ (kfTwoPi / 200)) * (1 / Real.sqrt 2) := by
  have hk : (0 : ℝ) < kfTwoPi / 200 := by unfold kfTwoPi; norm_num
  have hn : normal (⟨kfTwoPi / 200, 0⟩ : Vec2 ℝ) (kfTwoPi / 200) = ⟨1, 0⟩ := by
    simp only [normal, div_self hk.ne', zero_div]
  have hP : 0 < (FFTWrapper.blank 2 : FFTWrapper ℝ).Philips_Spectrum realLib
      ⟨kfTwoPi / 200, 0⟩ (kfTwoPi / 200) := by
    simp only [FFTWrapper.Philips_Spectrum, hn, dot, sqr, FFTWrapper.blank, realLib, mul_one,
      mul_zero, add_zero]
    have he := Real.exp_pos (-1 / (kfTwoPi / 200 * (kfTwoPi / 200) *
      (26 * 26 / kfGravity * (26 * 26 / kfGravity))))
    positivity
  have h2 : (0 : ℝ) < Real.sqrt 2 := Real.sqrt_pos.mpr (by norm_num)
  have hr := Real.sqrt_pos.mpr hP
  positivity

/-- The object `Generate_Heightmap` leaves on the 2 by 2 grid with the presets of the header
over the reals (sinusoids precalculated, fuel `4201`), at cell `(1, 0)`. -/
theorem real_grid2_pipeline (dist : Nat → ℝ) :
    ∃ t, (FFTWrapper.blank 2 : FFTWrapper ℝ).Generate_Heightmap realLib dist 4201 true = some t ∧
      t.m_width = 2 ∧ t.m_height = 2 ∧
      t.m_h0tilde 1 =
        ⟨dist 4 * (Real.sqrt ((FFTWrapper.blank 2 : FFTWrapper ℝ).Philips_Spectrum realLib
            ⟨kfTwoPi / 200, 0⟩ (kfTwoPi / 200)) * (1 / Real.sqrt 2)),
         dist 5 * (Real.sqrt ((FFTWrapper.blank 2 : FFTWrapper ℝ).Philips_Spectrum realLib
            ⟨kfTwoPi / 200, 0⟩ (kfTwoPi / 200)) * (1 / Real.sqrt 2))⟩ ∧
      t.m_h0tildeConj 1 =
        ⟨dist 6 * (Real.sqrt ((FFTWrapper.blank 2 : FFTWrapper ℝ).Philips_Spectrum realLib
            ⟨kfTwoPi / 200, 0⟩ (kfTwoPi / 200)) * (1 / Real.sqrt 2)),
         -dist 7 * (Real.sqrt ((FFTWrapper.blank 2 : FFTWrapper ℝ).Philips_Spectrum realLib
            ⟨kfTwoPi / 200, 0⟩ (kfTwoPi / 200)) * (1 / Real.sqrt 2))⟩ ∧
      t.m_cosLookup 1 = 0 ∧ t.m_sinLookup 1 = 0 ∧
      t.m_cosPrecalc 1 =
        sinusoidSamples Real.cos (Real.sqrt (kfGravity * (kfTwoPi / 200))) (1 / 20) 227 ∧
      t.m_sinPrecalc 1 =
        sinusoidSamples Real.sin (Real.sqrt (kfGravity * (kfTwoPi / 200))) (1 / 20) 227 := by
  have hN : 2 * 2 < 2 ^ 32 := by norm_num
  have h14 : (1 : Nat) < 2 * 2 := by norm_num
  have hw1 : ((FFTWrapper.blank 2 : FFTWrapper ℝ).Fill_K_Vectors realLib).m_width = 2 :=
    Fill_K_Vectors_width realLib _
  have hh1 : ((FFTWrapper.blank 2 : FFTWrapper ℝ).Fill_K_Vectors realLib).m_height = 2 :=
    Fill_K_Vectors_height realLib _
  have e2 := Fill_h0tilde_eq realLib dist
    ((FFTWrapper.blank 2 : FFTWrapper ℝ).Fill_K_Vectors realLib) 2 hw1 hh1 hN
  have hw2 : (((FFTWrapper.blank 2 : FFTWrapper ℝ).Fill_K_Vectors realLib).Fill_h0tilde realLib
      dist).m_width = 2 := by rw [e2]; exact hw1
  have hh2 : (((FFTWrapper.blank 2 : FFTWrapper ℝ).Fill_K_Vectors realLib).Fill_h0tilde realLib
      dist).m_height = 2 := by rw [e2]; exact hh1
  have hk2 : (((FFTWrapper.blank 2 : FFTWrapper ℝ).Fill_K_Vectors realLib).Fill_h0tilde realLib
      dist).m_kMag = ((FFTWrapper.blank 2 : FFTWrapper ℝ).Fill_K_Vectors realLib).m_kMag := by
    rw [e2]
  have ha : (((FFTWrapper.blank 2 : FFTWrapper ℝ).Fill_K_Vectors realLib).Fill_h0tilde realLib
      dist).m_h0tilde 1 =
        ⟨dist 4 * (Real.sqrt ((FFTWrapper.blank 2 : FFTWrapper ℝ).Philips_Spectrum realLib
            ⟨kfTwoPi / 200, 0⟩ (kfTwoPi / 200)) * (1 / Real.sqrt 2)),
         dist 5 * (Real.sqrt ((FFTWrapper.blank 2 : FFTWrapper ℝ).Philips_Spectrum realLib
            ⟨kfTwoPi / 200, 0⟩ (kfTwoPi / 200)) * (1 / Real.sqrt 2))⟩ := by
    rw [e2]
    simp only [if_pos h14, real_grid2_cell1.1, real_grid2_cell1.2, Philips_Spectrum_frame]
    rfl
  have hb : (((FFTWrapper.blank 2 : FFTWrapper ℝ).Fill_K_Vectors realLib).Fill_h0tilde realLib
      dist).m_h0tildeConj 1 =
        ⟨dist 6 * (Real.sqrt ((FFTWrapper.blank 2 : FFTWrapper ℝ).Philips_Spectrum realLib
            ⟨kfTwoPi / 200, 0⟩ (kfTwoPi / 200)) * (1 / Real.sqrt 2)),
         -dist 7 * (Real.sqrt ((FFTWrapper.blank 2 : FFTWrapper ℝ).Philips_Spectrum realLib
            ⟨kfTwoPi / 200, 0⟩ (kfTwoPi / 200)) * (1 / Real.sqrt 2))⟩ := by
    rw [e2]
    simp only [if_pos h14, real_grid2_cell1.1, real_grid2_cell1.2, Philips_Spectrum_frame]
    rfl
  obtain ⟨t, hrun, hw0, hh0, hk0, -, h0, h0c, hcell⟩ :=
    Precalculate_Sinusoids_spec realLib 4201
      (((FFTWrapper.blank 2 : FFTWrapper ℝ).Fill_K_Vectors realLib).Fill_h0tilde realLib dist) 2
      hw2 hh2 hN (fun i hi => by
        rw [hk2]
        exact real_grid_fuel (FFTWrapper.blank 2) 2 rfl rfl hN i hi)
  obtain ⟨hc0, hs0, hcos, hsin⟩ := hcell 1 h14
  rw [hk2, real_grid2_cell1.2] at hcos hsin
  have hcnt : ⌈(kfTwoPi : ℝ) / realLib.sqrt (kfGravity * (kfTwoPi / 200)) / (1 / 20)⌉₊ = 227 :=
    real_grid2_count
  rw [hcnt] at hcos hsin
  refine ⟨t, ?_, hw0, hh0, ?_, ?_, hc0, hs0, hcos, hsin⟩
  · simp only [FFTWrapper.Generate_Heightmap, if_true]
    exact hrun
  · rw [h0, ha]
  · rw [h0c, hb]

/-- The value a cell `(i, j)` and channel `ch` of the normal buffer holds after
`Fill_Normals_Central_Diff`. -/
theorem Fill_Normals_Central_Diff_channel (M : CLib F) (choppy heightAdj foamInt : F)
    (s : FFTWrapper F) (N i j ch : Nat) (hw : s.m_width = N) (hh : s.m_height = N)
    (hN : N * N ≤ 2 ^ 32) (hi : i < N) (hj : j < N) (hch : ch < 4) :
    (s.Fill_Normals_Central_Diff M choppy heightAdj foamInt).pNormalOut (4 * (j * N + i) + ch) =
      s.cdTexel M choppy heightAdj (s.foamIntensity foamInt) j i ch := by
  have hlt : j * N + i < N * N := cell_index_lt hj hi
  obtain ⟨d, m⟩ := index_row_col (N := N) (i := i) (j := j) hi
  have d4 : (4 * (j * N + i) + ch) / 4 = j * N + i := by omega
  have m4 : (4 * (j * N + i) + ch) % 4 = ch := by omega
  have l : 4 * (j * N + i) + ch < 4 * (N * N) := by omega
  rw [Fill_Normals_Central_Diff_eq M choppy heightAdj foamInt s N hw hh hN]
  simp only [if_pos l, d4, m4, d, m]

/-- The value `intensity` of the normal routines on a grid of height `N`. -/
theorem foamIntensity_eq (s : FFTWrapper F) (foamInt : F) (N : Nat) (hh : s.m_height = N) :
    s.foamIntensity foamInt = if foamInt = 0 then 0 else (1 + foamInt) / (N : F) := by
  simp only [FFTWrapper.foamIntensity, hh, one_div_div]

/-- `Philips_Spectrum` reads the presets of the object only. -/
theorem Philips_Spectrum_congr (M : CLib F) (s1 s2 : FFTWrapper F) (vK : Vec2 F) (kMag : F)
    (h1 : s1.m_windNormal = s2.m_windNormal) (h2 : s1.m_windSpeed = s2.m_windSpeed)
    (h3 : s1.m_amplitude = s2.m_amplitude) :
    s1.Philips_Spectrum M vK kMag = s2.Philips_Spectrum M vK kMag := by
  simp only [FFTWrapper.Philips_Spectrum, h1, h2, h3]

/-- `Fill_Horizontal_Displacement` on an `N` by `N` grid in closed form. -/
theorem Fill_Horizontal_Displacement_eq (s : FFTWrapper F) (N : Nat)
    (hw : s.m_width = N) (hh : s.m_height = N) (hN : N * N < 2 ^ 32) :
    s.Fill_Horizontal_Displacement =
      { s with
        m_FFTin := fun b n c =>
          if n < N * N then s.hdispFFTin n b n c else s.m_FFTin b n c } := by
  simp only [FFTWrapper.Fill_Horizontal_Displacement, hw, hh, u32_of_lt hN,
    Fill_Horizontal_Displacement_loop]

/-- The members that `n` calls of `Fill_htilde_and_Displacements` do not write. -/
theorem Fill_htilde_iterate_fields (s : FFTWrapper F) (N : Nat)
    (hw : s.m_width = N) (hh : s.m_height = N) (hN : N * N < 2 ^ 32) (n : Nat) :
    ((FFTWrapper.Fill_htilde_and_Displacements^[n]) s).m_width = N ∧
    ((FFTWrapper.Fill_htilde_and_Displacements^[n]) s).m_height = N ∧
    ((FFTWrapper.Fill_htilde_and_Displacements^[n]) s).m_h0tilde = s.m_h0tilde ∧
    ((FFTWrapper.Fill_htilde_and_Displacements^[n]) s).m_h0tildeConj = s.m_h0tildeConj ∧
    ((FFTWrapper.Fill_htilde_and_Displacements^[n]) s).m_kVectors = s.m_kVectors ∧
    ((FFTWrapper.Fill_htilde_and_Displacements^[n]) s).m_kMag = s.m_kMag := by
  have hf := Fill_htilde_iterate_frame s N hw hh hN n
  refine ⟨?_, ?_, ?_, ?_, ?_, ?_⟩
  · have h := congrArg FFTWrapper.m_width hf
    exact h.trans hw
  · have h := congrArg FFTWrapper.m_height hf
    exact h.trans hh
  · have h := congrArg FFTWrapper.m_h0tilde hf
    exact h
  · have h := congrArg FFTWrapper.m_h0tildeConj hf
    exact h
  · have h := congrArg FFTWrapper.m_kVectors hf
    exact h
  · have h := congrArg FFTWrapper.m_kMag hf
    exact h

/-- A cell whose two initial amplitudes are zero gets zero spectra from
`Fill_htilde_and_Displacements`. -/
theorem Fill_htilde_zero_cell (u : FFTWrapper F) (N n : Nat)
    (hw : u.m_width = N) (hh : u.m_height = N) (hN : N * N < 2 ^ 32) (hn : n < N * N)
    (ha : u.m_h0tilde n = ⟨0, 0⟩) (hb : u.m_h0tildeConj n = ⟨0, 0⟩) (b c : Nat)
    (hb3 : b < 3) (hc2 : c < 2) :
    u.Fill_htilde_and_Displacements.m_FFTin b n c = 0 := by
  rw [Fill_htilde_and_Displacements_eq u N hw hh hN]
  simp only [if_pos hn, cellFFTin, wr3_apply, FFTWrapper.dispX, FFTWrapper.dispZ,
    FFTWrapper.htilde, ha, hb, multComplex, addComplex, zero_mul, mul_zero, add_zero,
    sub_zero, neg_zero, ite_self, true_and]
  have hb' : b = 0 ∨ b = 1 ∨ b = 2 := by omega
  have hc' : c = 0 ∨ c = 1 := by omega
  rcases hb' with rfl | rfl | rfl <;> rcases hc' with rfl | rfl <;> simp

/-- The cross product of the two normalised difference vectors, for a square root that
squares back and is positive on positive numbers. -/
theorem cross_normalized (M : CLib F) (d1 d2 : F)
    (hsq : ∀ x, 0 ≤ x → M.sqrt x * M.sqrt x = x) (hpos : ∀ x, 0 < x → 0 < M.sqrt x) :
    ((v3.Normalize M ⟨2, 0, d1⟩).Cross (v3.Normalize M ⟨0, 2, d2⟩)).x =
      -(2 * d1) / (M.sqrt (4 + d1 ^ 2) * M.sqrt (4 + d2 ^ 2)) ∧
    ((v3.Normalize M ⟨2, 0, d1⟩).Cross (v3.Normalize M ⟨0, 2, d2⟩)).y =
      -(2 * d2) / (M.sqrt (4 + d1 ^ 2) * M.sqrt (4 + d2 ^ 2)) ∧
    ((v3.Normalize M ⟨2, 0, d1⟩).Cross (v3.Normalize M ⟨0, 2, d2⟩)).z =
      4 / (M.sqrt (4 + d1 ^ 2) * M.sqrt (4 + d2 ^ 2)) ∧
    ((v3.Normalize M ⟨2, 0, d1⟩).Cross (v3.Normalize M ⟨0, 2, d2⟩)).x *
        ((v3.Normalize M ⟨2, 0, d1⟩).Cross (v3.Normalize M ⟨0, 2, d2⟩)).x +
      ((v3.Normalize M ⟨2, 0, d1⟩).Cross (v3.Normalize M ⟨0, 2, d2⟩)).z *
        ((v3.Normalize M ⟨2, 0, d1⟩).Cross (v3.Normalize M ⟨0, 2, d2⟩)).z +
      ((v3.Normalize M ⟨2, 0, d1⟩).Cross (v3.Normalize M ⟨0, 2, d2⟩)).y *
        ((v3.Normalize M ⟨2, 0, d1⟩).Cross (v3.Normalize M ⟨0, 2, d2⟩)).y =
      1 - (d1 * d2) ^ 2 / ((4 + d1 ^ 2) * (4 + d2 ^ 2)) := by
  have hP : (0 : F) < 4 + d1 ^ 2 := by positivity
  have hQ : (0 : F) < 4 + d2 ^ 2 := by positivity
  have hA := hpos _ hP
  have hB := hpos _ hQ
  have hAA := hsq _ hP.le
  have hBB := hsq _ hQ.le
  have e1 : (2 : F) * 2 + 0 * 0 + d1 * d1 = 4 + d1 ^ 2 := by ring
  have e2 : (0 : F) * 0 + 2 * 2 + d2 * d2 = 4 + d2 ^ 2 := by ring
  have hx : ((v3.Normalize M ⟨2, 0, d1⟩).Cross (v3.Normalize M ⟨0, 2, d2⟩)).x =
      -(2 * d1) / (M.sqrt (4 + d1 ^ 2) * M.sqrt (4 + d2 ^ 2)) := by
    simp only [v3.Cross, v3.Normalize, e1, e2]
    field_simp
    ring
  have hy : ((v3.Normalize M ⟨2, 0, d1⟩).Cross (v3.Normalize M ⟨0, 2, d2⟩)).y =
      -(2 * d2) / (M.sqrt (4 + d1 ^ 2) * M.sqrt (4 + d2 ^ 2)) := by
    simp only [v3.Cross, v3.Normalize, e1, e2]
    field_simp
  have hz : ((v3.Normalize M ⟨2, 0, d1⟩).Cross (v3.Normalize M ⟨0, 2, d2⟩)).z =
      4 / (M.sqrt (4 + d1 ^ 2) * M.sqrt (4 + d2 ^ 2)) := by
    simp only [v3.Cross, v3.Normalize, e1, e2]
    field_simp
    ring
  refine ⟨hx, hy, hz, ?_⟩
  rw [hx, hy, hz]
  have hAB : (M.sqrt (4 + d1 ^ 2) * M.sqrt (4 + d2 ^ 2)) *
      (M.sqrt (4 + d1 ^ 2) * M.sqrt (4 + d2 ^ 2)) = (4 + d1 ^ 2) * (4 + d2 ^ 2) := by
    rw [mul_mul_mul_comm, hAA, hBB]
  rw [div_mul_div_comm, div_mul_div_comm, div_mul_div_comm, hAB]
  field_simp
  ring

/-- The vector `normals` of cell `(i, j)` written with the wrapped neighbour indices. -/
theorem cdNormal_eq (M : CLib F) (s : FFTWrapper F) (heightAdj : F) (N i j : Nat)
    (hw : s.m_width = N) (hh : s.m_height = N) (hN : N * N < 2 ^ 32) (hi : i < N) (hj : j < N) :
    s.cdNormal M heightAdj j i =
      (v3.Normalize M ⟨2, 0, heightAdj *
          (s.pImageOut (4 * (j * N + (i + 1) % N) + 1) - s.pImageOut (4 * (j * N + i) + 1))⟩).Cross
        (v3.Normalize M ⟨0, 2, heightAdj *
          (s.pImageOut (4 * ((j + 1) % N * N + i) + 1) - s.pImageOut (4 * (j * N + i) + 1))⟩) := by
  have hx : (i + 1) % N < N := Nat.mod_lt _ (by omega)
  have hz : (j + 1) % N < N := Nat.mod_lt _ (by omega)
  unfold FFTWrapper.cdNormal
  rw [xNext_eq_mod s N i hw hi, zNext_eq_mod s N j hh hj, cellIndex_eq s N j i hh hN hj hi,
    cellIndex_eq s N j _ hh hN hj hx, cellIndex_eq s N _ i hh hN hz hi, mul_sub, mul_sub]

end Lemmas

section Claims

variable {F : Type} [LinearOrderedField F]

/-- C1. `Fill_K_Vectors`: for a grid of size `N` (cell count within the 32-bit counter) and
every cell `(i, j)` with `i, j < N`, the wavevector stored at row-major index `j * N + i` is
`(kfTwoPi * i / kfWorldUnit, kfTwoPi * j / kfWorldUnit)` with `kfWorldUnit = 200`; for `N = 4`
the entry of cell `(0, 0)` is `(0, 0)` and the entry of cell `(1, 0)` is
`(kfTwoPi / 2 / 100, 0)`. -/
theorem Fill_K_Vectors_wavevector (M : CLib F) (s : FFTWrapper F) (N i j : Nat)
    (hw : s.m_width = N) (hh : s.m_height = N) (hN : N * N < 2 ^ 32)
    (hi : i < N) (hj : j < N) :
    (s.Fill_K_Vectors M).m_kVectors (j * N + i) =
        ⟨kfTwoPi * (i : F) / kfWorldUnit, kfTwoPi * (j : F) / kfWorldUnit⟩ ∧
      (kfWorldUnit : F) = 200 ∧
      (N = 4 → (s.Fill_K_Vectors M).m_kVectors 0 = ⟨0, 0⟩ ∧
        (s.Fill_K_Vectors M).m_kVectors 1 = ⟨kfTwoPi / 2 / 100, 0⟩) := by
  have key := (Fill_K_Vectors_row_loop M s N N hN).2
  have hdef : s.Fill_K_Vectors M = (forLoop (FFTWrapper.Fill_K_Vectors_row M N) N (s, 0)).1 := by
    simp only [FFTWrapper.Fill_K_Vectors, hw, hh]
  rw [hdef]
  refine ⟨(key j i hj hi).1, rfl, fun h4 => ?_⟩
  have h04 : 0 < N := by omega
  have h14 : 1 < N := by omega
  have k0 := (key 0 0 h04 h04).1
  have k1 := (key 0 1 h04 h14).1
  simp only [Nat.zero_mul, Nat.zero_add, Nat.cast_zero, Nat.cast_one, mul_zero, zero_div,
    mul_one] at k0 k1
  rw [k0, k1]
  refine ⟨rfl, ?_⟩
  congr 1
  simp only [kfWorldUnit]
  ring

/-- Witness of C1 on the 4 by 4 grid, cell `(1, 0)`. -/
theorem Fill_K_Vectors_wavevector_witness :
    ((FFTWrapper.blank 4 : FFTWrapper ℝ).Fill_K_Vectors realLib).m_kVectors 0 = ⟨0, 0⟩ ∧
      ((FFTWrapper.blank 4 : FFTWrapper ℝ).Fill_K_Vectors realLib).m_kVectors 1 =
        ⟨kfTwoPi / 2 / 100, 0⟩ :=
  (Fill_K_Vectors_wavevector realLib (FFTWrapper.blank 4) 4 1 0 rfl rfl (by norm_num)
    (by norm_num) (by norm_num)).2.2 rfl

/-- C2. `Fill_K_Vectors`: for every cell the stored magnitude is
`max (sqrt (kx ^ 2 + kz ^ 2)) 0.0001` of the cell's stored wavevector `(kx, kz)`; hence it is
`≥ 0.0001 > 0`; and (as `sqrt 0 = 0`) cell `(0, 0)` holds magnitude exactly `0.0001` while its
stored wavevector stays `(0, 0)`. -/
theorem Fill_K_Vectors_magnitude (M : CLib F) (s : FFTWrapper F) (N i j : Nat)
    (hw : s.m_width = N) (hh : s.m_height = N) (hN : N * N < 2 ^ 32)
    (hi : i < N) (hj : j < N) (hsqrt : M.sqrt 0 = 0) :
    (s.Fill_K_Vectors M).m_kMag (j * N + i) =
        max (M.sqrt (((s.Fill_K_Vectors M).m_kVectors (j * N + i)).x ^ 2 +
          ((s.Fill_K_Vectors M).m_kVectors (j * N + i)).y ^ 2)) (1 / 10000) ∧
      (1 / 10000 : F) ≤ (s.Fill_K_Vectors M).m_kMag (j * N + i) ∧
      (0 : F) < 1 / 10000 ∧
      (s.Fill_K_Vectors M).m_kMag 0 = 1 / 10000 ∧
      (s.Fill_K_Vectors M).m_kVectors 0 = ⟨0, 0⟩ := by
  have key := (Fill_K_Vectors_row_loop M s N N hN).2
  have hdef : s.Fill_K_Vectors M = (forLoop (FFTWrapper.Fill_K_Vectors_row M N) N (s, 0)).1 := by
    simp only [FFTWrapper.Fill_K_Vectors, hw, hh]
  rw [hdef]
  have h0N : 0 < N := by omega
  obtain ⟨kv, km⟩ := key j i hj hi
  obtain ⟨kv0, km0⟩ := key 0 0 h0N h0N
  simp only [Nat.zero_mul, Nat.zero_add, Nat.cast_zero, mul_zero, zero_div] at kv0 km0
  refine ⟨?_, ?_, by norm_num, ?_, kv0⟩
  · rw [km, kv]
    simp only [magnitude, sq]
  · rw [km]
    exact le_max_right _ _
  · rw [km0]
    simp only [magnitude, mul_zero, add_zero, hsqrt]
    exact max_eq_right (by norm_num)

/-- Witness of C2 on the 4 by 4 grid over the reals, cell `(1, 0)`. -/
theorem Fill_K_Vectors_magnitude_witness :
    (1 / 10000 : ℝ) ≤ ((FFTWrapper.blank 4 : FFTWrapper ℝ).Fill_K_Vectors realLib).m_kMag
        (0 * 4 + 1) ∧
      ((FFTWrapper.blank 4 : FFTWrapper ℝ).Fill_K_Vectors realLib).m_kMag 0 = 1 / 10000 :=
  have h := Fill_K_Vectors_magnitude realLib (FFTWrapper.blank 4) 4 1 0 rfl rfl (by norm_num)
    (by norm_num) (by norm_num) Real.sqrt_zero
  ⟨h.2.1, h.2.2.2.1⟩

/-- C3. `Philips_Spectrum`: for every wavevector `k` and magnitude `kMag > 0` the result is
`amplitude * exp (-1 / (kMag ^ 2 * L ^ 2)) / kMag ^ 4 * (dot (k / kMag) windDirection) ^ 2`
with `L = windSpeed ^ 2 / g`. -/
theorem Philips_Spectrum_formula (M : CLib F) (s : FFTWrapper F) (vK : Vec2 F) (kMag : F)
    (_hk : 0 < kMag) :
    s.Philips_Spectrum M vK kMag =
      s.m_amplitude * M.exp (-1 / (kMag ^ 2 * (s.m_windSpeed ^ 2 / kfGravity) ^ 2)) / kMag ^ 4 *
        (dot ⟨vK.x / kMag, vK.y / kMag⟩ s.m_windNormal) ^ 2 := by
  simp only [FFTWrapper.Philips_Spectrum, sqr, normal, ← sq]
  rw [show (kMag ^ 2) ^ 2 = kMag ^ 4 by ring]
  ring

/-- Witness of C3: the presets of the header at `k = (3, 4)`, `kMag = 5`. -/
theorem Philips_Spectrum_formula_witness :
    (FFTWrapper.blank 4 : FFTWrapper ℝ).Philips_Spectrum realLib ⟨3, 4⟩ 5 =
      20 * Real.exp (-1 / (5 ^ 2 * (26 ^ 2 / kfGravity) ^ 2)) / 5 ^ 4 *
        (dot ⟨3 / 5, 4 / 5⟩ (⟨1, 0⟩ : Vec2 ℝ)) ^ 2 :=
  Philips_Spectrum_formula realLib (FFTWrapper.blank 4) ⟨3, 4⟩ 5 (by norm_num)

/-- C4. `Fill_h0tilde`: for every cell `n`, with `x1 .. x4 = dist (4 n) .. dist (4 n + 3)` the
four successive samples drawn for the cell, `h0[n] = (x1 * r, x2 * r)` with
`r = sqrt (Philips_Spectrum (k_n, kMag_n) / 2)` and `h0conj[n] = (x3 * r', -x4 * r')` with
`r' = sqrt (Philips_Spectrum (-k_n, kMag_n) / 2)`; the sample positions of different components
are different, so no sample is used twice.  (`sqrt (a / 2) = sqrt a / sqrt 2` is the property
of the square root that the scaling by `1 / sqrt 2` relies on.) -/
theorem Fill_h0tilde_samples (M : CLib F) (dist : Nat → F) (s : FFTWrapper F) (N n : Nat)
    (hw : s.m_width = N) (hh : s.m_height = N) (hN : N * N < 2 ^ 32) (hn : n < N * N)
    (hs : ∀ a, M.sqrt (a / 2) = M.sqrt a / M.sqrt 2) :
    (s.Fill_h0tilde M dist).m_h0tilde n =
        ⟨dist (4 * n) * M.sqrt (s.Philips_Spectrum M (s.m_kVectors n) (s.m_kMag n) / 2),
         dist (4 * n + 1) * M.sqrt (s.Philips_Spectrum M (s.m_kVectors n) (s.m_kMag n) / 2)⟩ ∧
      (s.Fill_h0tilde M dist).m_h0tildeConj n =
        ⟨dist (4 * n + 2) * M.sqrt (s.Philips_Spectrum M
            ⟨-(s.m_kVectors n).x, -(s.m_kVectors n).y⟩ (s.m_kMag n) / 2),
         -(dist (4 * n + 3) * M.sqrt (s.Philips_Spectrum M
            ⟨-(s.m_kVectors n).x, -(s.m_kVectors n).y⟩ (s.m_kMag n) / 2))⟩ ∧
      ∀ m c d : Nat, c < 4 → d < 4 → 4 * n + c = 4 * m + d → m = n ∧ c = d := by
  have hdef : s.Fill_h0tilde M dist =
      (forLoop (FFTWrapper.Fill_h0tilde_cell M dist (1 / M.sqrt 2)) (N * N) (s, 0)).1 := by
    simp only [FFTWrapper.Fill_h0tilde, hw, hh, u32_of_lt hN]
  rw [hdef, Fill_h0tilde_cell_loop]
  simp only [if_pos hn, hs]
  refine ⟨?_, ?_, fun m c d hc hd e => by omega⟩
  · congr 1 <;> ring
  · congr 1 <;> ring

/-- Witness of C4 over the reals: cell `5` of the 4 by 4 grid filled by `Fill_K_Vectors`, with
the sample sequence `1, 2, 3, ...`. -/
theorem Fill_h0tilde_samples_witness :
    (((FFTWrapper.blank 4 : FFTWrapper ℝ).Fill_K_Vectors realLib).Fill_h0tilde realLib
        (fun k => (k : ℝ) + 1)).m_h0tilde 5 =
      ⟨(((4 * 5 : Nat) : ℝ) + 1) *
        Real.sqrt (((FFTWrapper.blank 4 : FFTWrapper ℝ).Fill_K_Vectors realLib).Philips_Spectrum
          realLib (((FFTWrapper.blank 4 : FFTWrapper ℝ).Fill_K_Vectors realLib).m_kVectors 5)
          (((FFTWrapper.blank 4 : FFTWrapper ℝ).Fill_K_Vectors realLib).m_kMag 5) / 2),
       (((4 * 5 + 1 : Nat) : ℝ) + 1) *
        Real.sqrt (((FFTWrapper.blank 4 : FFTWrapper ℝ).Fill_K_Vectors realLib).Philips_Spectrum
          realLib (((FFTWrapper.blank 4 : FFTWrapper ℝ).Fill_K_Vectors realLib).m_kVectors 5)
          (((FFTWrapper.blank 4 : FFTWrapper ℝ).Fill_K_Vectors realLib).m_kMag 5) / 2)⟩ :=
  (Fill_h0tilde_samples realLib (fun k => (k : ℝ) + 1)
    ((FFTWrapper.blank 4 : FFTWrapper ℝ).Fill_K_Vectors realLib) 4 5
    (congrArg FFTWrapper.m_width (Fill_K_Vectors_frame realLib (FFTWrapper.blank 4)))
    (congrArg FFTWrapper.m_height (Fill_K_Vectors_frame realLib (FFTWrapper.blank 4)))
    (by norm_num) (by norm_num) (fun a => Real.sqrt_div' a (by norm_num))).1

/-- C5 (as amended). `Fill_htilde_and_Displacements`: for every cell, with `(c, s)` the phase
factor read from the cell's caches at the advanced read index, the height spectrum written to
the first spectral buffer is `h0 * (c, s) + h0conj * (c, -s)`, the stored `h0conj` being used as
it is stored (it is not conjugated again). -/
theorem Fill_htilde_height_spectrum (s : FFTWrapper F) (N i : Nat)
    (hw : s.m_width = N) (hh : s.m_height = N) (hN : N * N < 2 ^ 32) (hi : i < N * N) :
    (⟨s.Fill_htilde_and_Displacements.m_FFTin 0 i 0,
      s.Fill_htilde_and_Displacements.m_FFTin 0 i 1⟩ : Vec2 F) =
      addComplex
        (multComplex (s.m_h0tilde i)
          ⟨vecAt (s.m_cosPrecalc i) (s.Fill_htilde_and_Displacements.m_cosLookup i),
           vecAt (s.m_sinPrecalc i) (s.Fill_htilde_and_Displacements.m_sinLookup i)⟩)
        (multComplex (s.m_h0tildeConj i)
          ⟨vecAt (s.m_cosPrecalc i) (s.Fill_htilde_and_Displacements.m_cosLookup i),
           -vecAt (s.m_sinPrecalc i) (s.Fill_htilde_and_Displacements.m_sinLookup i)⟩) := by
  simp only [FFTWrapper.Fill_htilde_and_Displacements, hw, hh, u32_of_lt hN,
    Fill_htilde_and_Displacements_loop, if_pos hi, cellFFTin, wr3_apply, FFTWrapper.htilde,
    FFTWrapper.expPos]
  simp

/-- Witness of C5 (as amended) on the one-cell wrapper `sampleCell`. -/
theorem Fill_htilde_height_spectrum_witness :
    (⟨sampleCell.Fill_htilde_and_Displacements.m_FFTin 0 0 0,
      sampleCell.Fill_htilde_and_Displacements.m_FFTin 0 0 1⟩ : Vec2 ℚ) =
      addComplex
        (multComplex (sampleCell.m_h0tilde 0)
          ⟨vecAt (sampleCell.m_cosPrecalc 0) (sampleCell.Fill_htilde_and_Displacements.m_cosLookup 0),
           vecAt (sampleCell.m_sinPrecalc 0)
            (sampleCell.Fill_htilde_and_Displacements.m_sinLookup 0)⟩)
        (multComplex (sampleCell.m_h0tildeConj 0)
          ⟨vecAt (sampleCell.m_cosPrecalc 0) (sampleCell.Fill_htilde_and_Displacements.m_cosLookup 0),
           -vecAt (sampleCell.m_sinPrecalc 0)
            (sampleCell.Fill_htilde_and_Displacements.m_sinLookup 0)⟩) :=
  Fill_htilde_height_spectrum sampleCell 1 0 rfl rfl (by norm_num) (by norm_num)

/-- C5 as stated fails: on the one-cell wrapper `sampleCell` (`h0 = 1 + 2i`, stored
`h0conj = 3 + 4i`, phase factor `(0, 1)`) the height spectrum written is `2 - 2i`, while
`h0 * e + conj(h0conj) * conj(e)` is `-6 - 2i`. -/
theorem Fill_htilde_height_spectrum_conj_fails :
    sampleCell.m_width = 1 ∧ sampleCell.m_height = 1 ∧
    (⟨sampleCell.Fill_htilde_and_Displacements.m_FFTin 0 0 0,
      sampleCell.Fill_htilde_and_Displacements.m_FFTin 0 0 1⟩ : Vec2 ℚ) = ⟨2, -2⟩ ∧
    addComplex
        (multComplex (sampleCell.m_h0tilde 0)
          ⟨vecAt (sampleCell.m_cosPrecalc 0) (sampleCell.Fill_htilde_and_Displacements.m_cosLookup 0),
           vecAt (sampleCell.m_sinPrecalc 0)
            (sampleCell.Fill_htilde_and_Displacements.m_sinLookup 0)⟩)
        (multComplex ⟨(sampleCell.m_h0tildeConj 0).x, -(sampleCell.m_h0tildeConj 0).y⟩
          ⟨vecAt (sampleCell.m_cosPrecalc 0) (sampleCell.Fill_htilde_and_Displacements.m_cosLookup 0),
           -vecAt (sampleCell.m_sinPrecalc 0)
            (sampleCell.Fill_htilde_and_Displacements.m_sinLookup 0)⟩) = (⟨-6, -2⟩ : Vec2 ℚ) ∧
    (⟨2, -2⟩ : Vec2 ℚ) ≠ ⟨-6, -2⟩ := by
  obtain ⟨hc, hs, h00, h01, -⟩ := sampleCell_run
  refine ⟨rfl, rfl, by rw [h00, h01], ?_, by decide⟩
  rw [hc, hs]
  simp only [sampleCell, vecAt, multComplex, addComplex]
  norm_num

/-- C6 (as amended). `Fill_htilde_and_Displacements`: for every cell the X- and Z-displacement
spectra written to the second and third spectral buffers are `h * (-i * kx / |k|)` and
`h * (-i * kz / |k|)`, that is `(kx * Im h / |k|, -kx * Re h / |k|)` and the same with `kz`,
where `h` is the height spectrum just written for the cell, `(kx, kz)` its wavevector and `|k|`
its stored magnitude. -/
theorem Fill_htilde_displacement_spectra (s : FFTWrapper F) (N i : Nat)
    (hw : s.m_width = N) (hh : s.m_height = N) (hN : N * N < 2 ^ 32) (hi : i < N * N) :
    (⟨s.Fill_htilde_and_Displacements.m_FFTin 1 i 0,
      s.Fill_htilde_and_Displacements.m_FFTin 1 i 1⟩ : Vec2 F) =
      multComplex ⟨s.Fill_htilde_and_Displacements.m_FFTin 0 i 0,
          s.Fill_htilde_and_Displacements.m_FFTin 0 i 1⟩
        ⟨0, -((s.m_kVectors i).x / s.m_kMag i)⟩ ∧
    (⟨s.Fill_htilde_and_Displacements.m_FFTin 2 i 0,
      s.Fill_htilde_and_Displacements.m_FFTin 2 i 1⟩ : Vec2 F) =
      multComplex ⟨s.Fill_htilde_and_Displacements.m_FFTin 0 i 0,
          s.Fill_htilde_and_Displacements.m_FFTin 0 i 1⟩
        ⟨0, -((s.m_kVectors i).y / s.m_kMag i)⟩ ∧
    s.Fill_htilde_and_Displacements.m_FFTin 1 i 0 =
      (s.m_kVectors i).x * s.Fill_htilde_and_Displacements.m_FFTin 0 i 1 / s.m_kMag i ∧
    s.Fill_htilde_and_Displacements.m_FFTin 1 i 1 =
      -(s.m_kVectors i).x * s.Fill_htilde_and_Displacements.m_FFTin 0 i 0 / s.m_kMag i ∧
    s.Fill_htilde_and_Displacements.m_FFTin 2 i 0 =
      (s.m_kVectors i).y * s.Fill_htilde_and_Displacements.m_FFTin 0 i 1 / s.m_kMag i ∧
    s.Fill_htilde_and_Displacements.m_FFTin 2 i 1 =
      -(s.m_kVectors i).y * s.Fill_htilde_and_Displacements.m_FFTin 0 i 0 / s.m_kMag i := by
  simp only [FFTWrapper.Fill_htilde_and_Displacements, hw, hh, u32_of_lt hN,
    Fill_htilde_and_Displacements_loop, if_pos hi, cellFFTin, wr3_apply, FFTWrapper.dispX,
    FFTWrapper.dispZ, multComplex]
  simp only [Vec2.mk.injEq]
  norm_num
  refine ⟨⟨?_, ?_⟩, ⟨?_, ?_⟩, ?_, ?_, ?_, ?_⟩ <;> ring

/-- Witness of C6 (as amended) on the one-cell wrapper `sampleCell`. -/
theorem Fill_htilde_displacement_spectra_witness :
    sampleCell.Fill_htilde_and_Displacements.m_FFTin 1 0 0 =
      (sampleCell.m_kVectors 0).x * sampleCell.Fill_htilde_and_Displacements.m_FFTin 0 0 1 /
        sampleCell.m_kMag 0 :=
  (Fill_htilde_displacement_spectra sampleCell 1 0 rfl rfl (by norm_num) (by norm_num)).2.2.1

/-- C6 as stated fails: on the one-cell wrapper `sampleCell` (`h = 2 - 2i`, `kx / |k| = 3/5`)
the X-displacement spectrum written is `(-6/5, -6/5)`, while `h * (i * kx / |k|)` is
`(6/5, 6/5)`. -/
theorem Fill_htilde_displacement_plus_i_fails :
    sampleCell.m_width = 1 ∧ sampleCell.m_height = 1 ∧
    (⟨sampleCell.Fill_htilde_and_Displacements.m_FFTin 1 0 0,
      sampleCell.Fill_htilde_and_Displacements.m_FFTin 1 0 1⟩ : Vec2 ℚ) = ⟨-6 / 5, -6 / 5⟩ ∧
    multComplex ⟨sampleCell.Fill_htilde_and_Displacements.m_FFTin 0 0 0,
          sampleCell.Fill_htilde_and_Displacements.m_FFTin 0 0 1⟩
        ⟨0, (sampleCell.m_kVectors 0).x / sampleCell.m_kMag 0⟩ = (⟨6 / 5, 6 / 5⟩ : Vec2 ℚ) ∧
    (⟨-6 / 5, -6 / 5⟩ : Vec2 ℚ) ≠ ⟨6 / 5, 6 / 5⟩ := by
  obtain ⟨-, -, h00, h01, h10, h11, -⟩ := sampleCell_run
  refine ⟨rfl, rfl, by rw [h10, h11], ?_, by rw [Ne, Vec2.mk.injEq]; norm_num⟩
  rw [h00, h01]
  simp only [sampleCell, multComplex]
  norm_num

/-- C7. `Fill_Texture`: for every cell `n` of an `N` by `N` grid the four height-buffer
channels are `(Re Xdisp_out[n] / N, Re height_out[n] / N, Re Zdisp_out[n] / N, 1)`; a wrapper
whose transformed fields differ in the imaginary parts only gets the same height buffer. -/
theorem Fill_Texture_channels (s s2 : FFTWrapper F) (N n : Nat)
    (hw : s.m_width = N) (hh : s.m_height = N) (hN : 4 * (N * N) < 2 ^ 32) (hn : n < N * N)
    (hw2 : s2.m_width = N) (hh2 : s2.m_height = N)
    (hre : ∀ b m, s2.m_FFTout b m 0 = s.m_FFTout b m 0) :
    s.Fill_Texture.pImageOut (4 * n + 0) = s.m_FFTout 1 n 0 / (N : F) ∧
    s.Fill_Texture.pImageOut (4 * n + 1) = s.m_FFTout 0 n 0 / (N : F) ∧
    s.Fill_Texture.pImageOut (4 * n + 2) = s.m_FFTout 2 n 0 / (N : F) ∧
    s.Fill_Texture.pImageOut (4 * n + 3) = 1 ∧
    ∀ ch, ch < 4 → s2.Fill_Texture.pImageOut (4 * n + ch) = s.Fill_Texture.pImageOut (4 * n + ch) := by
  have hb : u32 (N * N) = N * N := u32_of_lt (by omega)
  have hk : 4 * (N * N) ≤ 2 ^ 32 := by omega
  have key : ∀ (t : FFTWrapper F), t.m_width = N → t.m_height = N → ∀ ch, ch < 4 →
      t.Fill_Texture.pImageOut (4 * n + ch) = t.texel n ch := by
    intro t tw th ch hch
    have d : (4 * n + ch) / 4 = n := by omega
    have m : (4 * n + ch) % 4 = ch := by omega
    have l : 4 * n + ch < 4 * (N * N) := by omega
    simp only [FFTWrapper.Fill_Texture, tw, th, hb, Fill_Texture_loop t (N * N) hk, if_pos l, d, m]
  refine ⟨?_, ?_, ?_, ?_, fun ch hch => ?_⟩
  · rw [key s hw hh 0 (by norm_num)]; simp [FFTWrapper.texel, hh]
  · rw [key s hw hh 1 (by norm_num)]; simp [FFTWrapper.texel, hh]
  · rw [key s hw hh 2 (by norm_num)]; simp [FFTWrapper.texel, hh]
  · rw [key s hw hh 3 (by norm_num)]; simp [FFTWrapper.texel]
  · rw [key s hw hh ch hch, key s2 hw2 hh2 ch hch]
    simp only [FFTWrapper.texel, hre, hh, hh2]

/-- Witness of C7 on the 2 by 2 grid, cell `3`, against a wrapper whose transformed fields
have other imaginary parts. -/
theorem Fill_Texture_channels_witness :
    (FFTWrapper.sample 2 : FFTWrapper ℚ).Fill_Texture.pImageOut (4 * 3 + 1) =
        (FFTWrapper.sample 2 : FFTWrapper ℚ).m_FFTout 0 3 0 / ((2 : Nat) : ℚ) ∧
      ∀ ch, ch < 4 →
        FFTWrapper.pImageOut (FFTWrapper.Fill_Texture
          { (FFTWrapper.sample 2 : FFTWrapper ℚ) with
            m_FFTout := fun b n c =>
              if c = 0 then (FFTWrapper.sample 2 : FFTWrapper ℚ).m_FFTout b n 0 else 5 })
          (4 * 3 + ch) =
        (FFTWrapper.sample 2 : FFTWrapper ℚ).Fill_Texture.pImageOut (4 * 3 + ch) :=
  have h := Fill_Texture_channels (FFTWrapper.sample 2 : FFTWrapper ℚ)
    { (FFTWrapper.sample 2 : FFTWrapper ℚ) with
      m_FFTout := fun b n c =>
        if c = 0 then (FFTWrapper.sample 2 : FFTWrapper ℚ).m_FFTout b n 0 else 5 }
    2 3 rfl rfl (by norm_num) (by norm_num) rfl rfl (fun _ _ => rfl)
  ⟨h.2.1, h.2.2.2.2⟩

/-- C8. In both `Fill_Normals_Central_Diff` and `Fill_Normals_FFT`, for every cell `(i, j)`
the foam channel (fourth component of the normal buffer) is exactly `1` if the cell's Jacobian
determinant `Jxx * Jyy - Jxy * Jyx` is `< 0` and exactly `0` otherwise. -/
theorem foam_mask_semantics (M : CLib F) (choppy heightAdj foamInt : F) (s : FFTWrapper F)
    (N i j : Nat) (hw : s.m_width = N) (hh : s.m_height = N) (hN : 4 * (N * N) < 2 ^ 31)
    (hi : i < N) (hj : j < N) :
    (s.Fill_Normals_Central_Diff M choppy heightAdj foamInt).pNormalOut (4 * (j * N + i) + 3) =
      (if s.Jxx choppy (s.foamIntensity foamInt) j i * s.Jyy choppy (s.foamIntensity foamInt) j i -
          s.Jxy choppy (s.foamIntensity foamInt) j i * s.Jyx choppy (s.foamIntensity foamInt) j i
          < 0 then 1 else 0) ∧
    (s.Fill_Normals_FFT M choppy foamInt).pNormalOut (4 * (j * N + i) + 3) =
      (if s.Jxx choppy (s.foamIntensity foamInt) j i * s.Jyy choppy (s.foamIntensity foamInt) j i -
          s.Jxy choppy (s.foamIntensity foamInt) j i * s.Jyx choppy (s.foamIntensity foamInt) j i
          < 0 then 1 else 0) := by
  have hlt : j * N + i < N * N := cell_index_lt hj hi
  obtain ⟨d, m⟩ := index_row_col (N := N) (i := i) (j := j) hi
  have d4 : (4 * (j * N + i) + 3) / 4 = j * N + i := by omega
  have m4 : (4 * (j * N + i) + 3) % 4 = 3 := by omega
  have l : 4 * (j * N + i) + 3 < 4 * (N * N) := by omega
  constructor
  · rw [Fill_Normals_Central_Diff_eq M choppy heightAdj foamInt s N hw hh (by omega)]
    simp only [if_pos l, d4, m4, d, m, FFTWrapper.cdTexel, FFTWrapper.foam]
    norm_num
  · rw [Fill_Normals_FFT_foam M choppy foamInt s N (j * N + i) hw hh (by omega) hlt, d, m]
    rfl

/-- Witness of C8 on the 2 by 2 sample grid over the reals, cell `(1, 0)`. -/
theorem foam_mask_semantics_witness :
    ((FFTWrapper.sample 2 : FFTWrapper ℝ).Fill_Normals_FFT realLib 2 3).pNormalOut
        (4 * (0 * 2 + 1) + 3) =
      (if (FFTWrapper.sample 2 : FFTWrapper ℝ).Jxx 2
            ((FFTWrapper.sample 2 : FFTWrapper ℝ).foamIntensity 3) 0 1 *
          (FFTWrapper.sample 2 : FFTWrapper ℝ).Jyy 2
            ((FFTWrapper.sample 2 : FFTWrapper ℝ).foamIntensity 3) 0 1 -
          (FFTWrapper.sample 2 : FFTWrapper ℝ).Jxy 2
            ((FFTWrapper.sample 2 : FFTWrapper ℝ).foamIntensity 3) 0 1 *
          (FFTWrapper.sample 2 : FFTWrapper ℝ).Jyx 2
            ((FFTWrapper.sample 2 : FFTWrapper ℝ).foamIntensity 3) 0 1 < 0 then 1 else 0) :=
  (foam_mask_semantics realLib 2 1 3 (FFTWrapper.sample 2) 2 1 0 rfl rfl (by norm_num)
    (by norm_num) (by norm_num)).2

/-- C9. For every grid size `N` (within the 32-bit index range), every pair of transformed
displacement fields, every choppiness, foam-intensity and height-scale value,
`Fill_Normals_FFT` and `Fill_Normals_Central_Diff` started from the same state write the same
foam-mask value (fourth channel of the normal buffer) for every cell. -/
theorem foam_masks_agree (M : CLib F) (choppy heightAdj foamInt : F) (s : FFTWrapper F)
    (N n : Nat) (hw : s.m_width = N) (hh : s.m_height = N) (hN : 4 * (N * N) < 2 ^ 31)
    (hn : n < N * N) :
    (s.Fill_Normals_FFT M choppy foamInt).pNormalOut (4 * n + 3) =
      (s.Fill_Normals_Central_Diff M choppy heightAdj foamInt).pNormalOut (4 * n + 3) := by
  have d4 : (4 * n + 3) / 4 = n := by omega
  have m4 : (4 * n + 3) % 4 = 3 := by omega
  have l : 4 * n + 3 < 4 * (N * N) := by omega
  rw [Fill_Normals_FFT_foam M choppy foamInt s N n hw hh (by omega) hn,
    Fill_Normals_Central_Diff_eq M choppy heightAdj foamInt s N hw hh (by omega)]
  simp only [if_pos l, d4, m4, FFTWrapper.cdTexel]
  norm_num

/-- Witness of C9 on the 2 by 2 sample grid over the reals, cell `3`. -/
theorem foam_masks_agree_witness :
    ((FFTWrapper.sample 2 : FFTWrapper ℝ).Fill_Normals_FFT realLib 2 3).pNormalOut (4 * 3 + 3) =
      ((FFTWrapper.sample 2 : FFTWrapper ℝ).Fill_Normals_Central_Diff realLib 2 5 3).pNormalOut
        (4 * 3 + 3) :=
  foam_masks_agree realLib 2 5 3 (FFTWrapper.sample 2) 2 3 rfl rfl (by norm_num) (by norm_num)

/-- C10. `Fill_Normals_Central_Diff`: for every cell `(i, j)`, with `H` the height channel of
the height buffer, `d1 = heightAdj * (H[i+1, j] - H[i, j])` and
`d2 = heightAdj * (H[i, j+1] - H[i, j])` (neighbour indices wrapping at the grid edge), the
normal written is `c = normalize (2, 0, d1) × normalize (0, 2, d2)`, stored in the first three
channels of the normal buffer as `(c.x, c.z, c.y)`. -/
theorem Fill_Normals_Central_Diff_normal (M : CLib F) (choppy heightAdj foamInt : F)
    (s : FFTWrapper F) (N i j : Nat) (hw : s.m_width = N) (hh : s.m_height = N)
    (hN : 4 * (N * N) < 2 ^ 31) (hi : i < N) (hj : j < N) :
    (s.Fill_Normals_Central_Diff M choppy heightAdj foamInt).pNormalOut (4 * (j * N + i) + 0) =
      ((v3.Normalize M ⟨2, 0, heightAdj *
          (s.pImageOut (4 * (j * N + (i + 1) % N) + 1) - s.pImageOut (4 * (j * N + i) + 1))⟩).Cross
        (v3.Normalize M ⟨0, 2, heightAdj *
          (s.pImageOut (4 * ((j + 1) % N * N + i) + 1) - s.pImageOut (4 * (j * N + i) + 1))⟩)).x ∧
    (s.Fill_Normals_Central_Diff M choppy heightAdj foamInt).pNormalOut (4 * (j * N + i) + 1) =
      ((v3.Normalize M ⟨2, 0, heightAdj *
          (s.pImageOut (4 * (j * N + (i + 1) % N) + 1) - s.pImageOut (4 * (j * N + i) + 1))⟩).Cross
        (v3.Normalize M ⟨0, 2, heightAdj *
          (s.pImageOut (4 * ((j + 1) % N * N + i) + 1) - s.pImageOut (4 * (j * N + i) + 1))⟩)).z ∧
    (s.Fill_Normals_Central_Diff M choppy heightAdj foamInt).pNormalOut (4 * (j * N + i) + 2) =
      ((v3.Normalize M ⟨2, 0, heightAdj *
          (s.pImageOut (4 * (j * N + (i + 1) % N) + 1) - s.pImageOut (4 * (j * N + i) + 1))⟩).Cross
        (v3.Normalize M ⟨0, 2, heightAdj *
          (s.pImageOut (4 * ((j + 1) % N * N + i) + 1) - s.pImageOut (4 * (j * N + i) + 1))⟩)).y := by
  have hN' : N * N < 2 ^ 32 := by omega
  have hlt : j * N + i < N * N := cell_index_lt hj hi
  have hx : (i + 1) % N < N := Nat.mod_lt _ (by omega)
  have hz : (j + 1) % N < N := Nat.mod_lt _ (by omega)
  obtain ⟨d, m⟩ := index_row_col (N := N) (i := i) (j := j) hi
  have key : ∀ ch, ch < 3 →
      (s.Fill_Normals_Central_Diff M choppy heightAdj foamInt).pNormalOut (4 * (j * N + i) + ch) =
        s.cdTexel M choppy heightAdj (s.foamIntensity foamInt) j i ch := by
    intro ch hch
    have d4 : (4 * (j * N + i) + ch) / 4 = j * N + i := by omega
    have m4 : (4 * (j * N + i) + ch) % 4 = ch := by omega
    have l : 4 * (j * N + i) + ch < 4 * (N * N) := by omega
    rw [Fill_Normals_Central_Diff_eq M choppy heightAdj foamInt s N hw hh (by omega)]
    simp only [if_pos l, d4, m4, d, m]
  have hnormal : s.cdNormal M heightAdj j i =
      (v3.Normalize M ⟨2, 0, heightAdj *
          (s.pImageOut (4 * (j * N + (i + 1) % N) + 1) - s.pImageOut (4 * (j * N + i) + 1))⟩).Cross
        (v3.Normalize M ⟨0, 2, heightAdj *
          (s.pImageOut (4 * ((j + 1) % N * N + i) + 1) - s.pImageOut (4 * (j * N + i) + 1))⟩) := by
    unfold FFTWrapper.cdNormal
    rw [xNext_eq_mod s N i hw hi, zNext_eq_mod s N j hh hj, cellIndex_eq s N j i hh hN' hj hi,
      cellIndex_eq s N j _ hh hN' hj hx, cellIndex_eq s N _ i hh hN' hz hi, mul_sub, mul_sub]
  rw [key 0 (by norm_num), key 1 (by norm_num), key 2 (by norm_num), ← hnormal]
  simp [FFTWrapper.cdTexel]

/-- Witness of C10 on the 2 by 2 sample grid over the reals, cell `(1, 1)`: both neighbours
wrap to index `0`. -/
theorem Fill_Normals_Central_Diff_normal_witness :
    ((FFTWrapper.sample 2 : FFTWrapper ℝ).Fill_Normals_Central_Diff realLib 2 5 3).pNormalOut
        (4 * (1 * 2 + 1) + 0) =
      ((v3.Normalize realLib ⟨2, 0, 5 *
          ((FFTWrapper.sample 2 : FFTWrapper ℝ).pImageOut (4 * (1 * 2 + (1 + 1) % 2) + 1) -
            (FFTWrapper.sample 2 : FFTWrapper ℝ).pImageOut (4 * (1 * 2 + 1) + 1))⟩).Cross
        (v3.Normalize realLib ⟨0, 2, 5 *
          ((FFTWrapper.sample 2 : FFTWrapper ℝ).pImageOut (4 * ((1 + 1) % 2 * 2 + 1) + 1) -
            (FFTWrapper.sample 2 : FFTWrapper ℝ).pImageOut (4 * (1 * 2 + 1) + 1))⟩)).x :=
  (Fill_Normals_Central_Diff_normal realLib 2 5 3 (FFTWrapper.sample 2) 2 1 1 rfl rfl
    (by norm_num) (by norm_num) (by norm_num)).1

/-- C11. In `Fill_Normals_Central_Diff` and in the Jacobian part of `Fill_Normals_FFT`, for
every `N ≥ 1` and every cell `(i, j)` the next neighbours used are `((i + 1) mod N, j)` and
`(i, (j + 1) mod N)`, read at the linear indices `j * N + (i + 1) mod N` and
`((j + 1) mod N) * N + i`; the next-x neighbour of cell `(N - 1, j)` is cell `(0, j)` and the
next-z neighbour of cell `(i, N - 1)` is cell `(i, 0)`.  The foam value both routines store is
the sign test of the determinant built from the transformed fields at these cells. -/
theorem next_neighbours_wrap (M : CLib F) (choppy heightAdj foamInt : F) (s : FFTWrapper F)
    (N i j : Nat) (hw : s.m_width = N) (hh : s.m_height = N) (hN : 4 * (N * N) < 2 ^ 31)
    (hi : i < N) (hj : j < N) :
    s.xNext i = (i + 1) % N ∧ s.zNext j = (j + 1) % N ∧
    s.xNext (N - 1) = 0 ∧ s.zNext (N - 1) = 0 ∧
    s.cellIndex j (s.xNext i) = j * N + (i + 1) % N ∧
    s.cellIndex (s.zNext j) i = (j + 1) % N * N + i ∧
    s.cellIndex j (s.xNext (N - 1)) = j * N + 0 ∧
    s.cellIndex (s.zNext (N - 1)) i = 0 * N + i ∧
    (s.Fill_Normals_Central_Diff M choppy heightAdj foamInt).pNormalOut (4 * (j * N + i) + 3) =
      (if (1 + choppy * (-s.m_FFTout 1 (j * N + (i + 1) % N) 0 + s.m_FFTout 1 (j * N + i) 0) *
              s.foamIntensity foamInt) *
            (1 + choppy * (-s.m_FFTout 2 ((j + 1) % N * N + i) 0 + s.m_FFTout 2 (j * N + i) 0) *
              s.foamIntensity foamInt) -
          (choppy * (-s.m_FFTout 2 (j * N + (i + 1) % N) 0 + s.m_FFTout 2 (j * N + i) 0) *
              s.foamIntensity foamInt) *
            (choppy * (-s.m_FFTout 1 ((j + 1) % N * N + i) 0 + s.m_FFTout 1 (j * N + i) 0) *
              s.foamIntensity foamInt) < 0 then 1 else 0) ∧
    (s.Fill_Normals_FFT M choppy foamInt).pNormalOut (4 * (j * N + i) + 3) =
      (s.Fill_Normals_Central_Diff M choppy heightAdj foamInt).pNormalOut
        (4 * (j * N + i) + 3) := by
  have hN' : N * N < 2 ^ 32 := by omega
  have hlt : j * N + i < N * N := cell_index_lt hj hi
  have h1 : N - 1 < N := by omega
  have hx : (i + 1) % N < N := Nat.mod_lt _ (by omega)
  have hz : (j + 1) % N < N := Nat.mod_lt _ (by omega)
  have hxe : s.xNext (N - 1) = 0 := by
    rw [xNext_eq_mod s N _ hw h1, Nat.sub_add_cancel (by omega), Nat.mod_self]
  have hze : s.zNext (N - 1) = 0 := by
    rw [zNext_eq_mod s N _ hh h1, Nat.sub_add_cancel (by omega), Nat.mod_self]
  obtain ⟨d, m⟩ := index_row_col (N := N) (i := i) (j := j) hi
  obtain ⟨jxx, jxy, jyy, jyx⟩ :=
    jacobian_entries s choppy (s.foamIntensity foamInt) N i j hw hh hN' hi hj
  have d4 : (4 * (j * N + i) + 3) / 4 = j * N + i := by omega
  have m4 : (4 * (j * N + i) + 3) % 4 = 3 := by omega
  have l : 4 * (j * N + i) + 3 < 4 * (N * N) := by omega
  have hcd : (s.Fill_Normals_Central_Diff M choppy heightAdj foamInt).pNormalOut
      (4 * (j * N + i) + 3) = s.foam choppy (s.foamIntensity foamInt) j i := by
    rw [Fill_Normals_Central_Diff_eq M choppy heightAdj foamInt s N hw hh (by omega)]
    simp only [if_pos l, d4, m4, d, m, FFTWrapper.cdTexel]
    norm_num
  refine ⟨xNext_eq_mod s N i hw hi, zNext_eq_mod s N j hh hj, hxe, hze, ?_, ?_, ?_, ?_, ?_, ?_⟩
  · rw [xNext_eq_mod s N i hw hi, cellIndex_eq s N j _ hh hN' hj hx]
  · rw [zNext_eq_mod s N j hh hj, cellIndex_eq s N _ i hh hN' hz hi]
  · rw [hxe, cellIndex_eq s N j 0 hh hN' hj (by omega)]
  · rw [hze, cellIndex_eq s N 0 i hh hN' (by omega) hi]
  · rw [hcd, FFTWrapper.foam, jxx, jxy, jyy, jyx]
  · rw [hcd, Fill_Normals_FFT_foam M choppy foamInt s N (j * N + i) hw hh (by omega) hlt, d, m]

/-- Witness of C11 on the 2 by 2 sample grid over the reals, cell `(1, 1)`: both neighbours
wrap. -/
theorem next_neighbours_wrap_witness :
    (FFTWrapper.sample 2 : FFTWrapper ℝ).xNext 1 = (1 + 1) % 2 ∧
      (FFTWrapper.sample 2 : FFTWrapper ℝ).zNext 1 = (1 + 1) % 2 ∧
      (FFTWrapper.sample 2 : FFTWrapper ℝ).xNext (2 - 1) = 0 ∧
      (FFTWrapper.sample 2 : FFTWrapper ℝ).zNext (2 - 1) = 0 :=
  have h := next_neighbours_wrap realLib 2 5 3 (FFTWrapper.sample 2 : FFTWrapper ℝ) 2 1 1 rfl rfl
    (by norm_num) (by norm_num) (by norm_num)
  ⟨h.1, h.2.1, h.2.2.1, h.2.2.2.1⟩

/-- C12. `Fill_Normals_FFT`: for every cell the two spectra it prepares for the extra inverse
transforms are the height spectrum `h` times `i * kx` and times `i * kz` (real part
`-k * Im h`, imaginary part `k * Re h`), with `(kx, kz)` the stored wavevector of the cell and
no division by the magnitude; the height spectrum is left as it is and the two transforms are
run on these spectra. -/
theorem Fill_Normals_FFT_gradient_spectra (M : CLib F) (choppy foamInt : F) (s : FFTWrapper F)
    (N n : Nat) (hw : s.m_width = N) (hh : s.m_height = N) (hN : 4 * (N * N) < 2 ^ 31)
    (hn : n < N * N) :
    (⟨(s.Fill_Normals_FFT M choppy foamInt).m_FFTin 1 n 0,
      (s.Fill_Normals_FFT M choppy foamInt).m_FFTin 1 n 1⟩ : Vec2 F) =
      multComplex ⟨s.m_FFTin 0 n 0, s.m_FFTin 0 n 1⟩ ⟨0, (s.m_kVectors n).x⟩ ∧
    (⟨(s.Fill_Normals_FFT M choppy foamInt).m_FFTin 2 n 0,
      (s.Fill_Normals_FFT M choppy foamInt).m_FFTin 2 n 1⟩ : Vec2 F) =
      multComplex ⟨s.m_FFTin 0 n 0, s.m_FFTin 0 n 1⟩ ⟨0, (s.m_kVectors n).y⟩ ∧
    (s.Fill_Normals_FFT M choppy foamInt).m_FFTin 1 n 0 = -((s.m_kVectors n).x * s.m_FFTin 0 n 1) ∧
    (s.Fill_Normals_FFT M choppy foamInt).m_FFTin 1 n 1 = (s.m_kVectors n).x * s.m_FFTin 0 n 0 ∧
    (s.Fill_Normals_FFT M choppy foamInt).m_FFTin 2 n 0 = -((s.m_kVectors n).y * s.m_FFTin 0 n 1) ∧
    (s.Fill_Normals_FFT M choppy foamInt).m_FFTin 2 n 1 = (s.m_kVectors n).y * s.m_FFTin 0 n 0 ∧
    (∀ c, (s.Fill_Normals_FFT M choppy foamInt).m_FFTin 0 n c = s.m_FFTin 0 n c) ∧
    (s.Fill_Normals_FFT M choppy foamInt).m_FFTout 1 =
      M.fftwf_execute N N ((s.Fill_Normals_FFT M choppy foamInt).m_FFTin 1) ∧
    (s.Fill_Normals_FFT M choppy foamInt).m_FFTout 2 =
      M.fftwf_execute N N ((s.Fill_Normals_FFT M choppy foamInt).m_FFTin 2) := by
  rw [Fill_Normals_FFT_eq M choppy foamInt s N hw hh (by omega)]
  simp only [if_pos hn, FFTWrapper.gradFFTin, wr3_apply, multComplex, Vec2.mk.injEq]
  norm_num
  exact ⟨⟨mul_comm _ _, mul_comm _ _⟩, mul_comm _ _, mul_comm _ _⟩

/-- Witness of C12 on the 2 by 2 sample grid over the reals, cell `3`. -/
theorem Fill_Normals_FFT_gradient_spectra_witness :
    ((FFTWrapper.sample 2 : FFTWrapper ℝ).Fill_Normals_FFT realLib 2 3).m_FFTin 1 3 1 =
      ((FFTWrapper.sample 2 : FFTWrapper ℝ).m_kVectors 3).x *
        (FFTWrapper.sample 2 : FFTWrapper ℝ).m_FFTin 0 3 0 :=
  (Fill_Normals_FFT_gradient_spectra realLib 2 3 (FFTWrapper.sample 2 : FFTWrapper ℝ) 2 3 rfl rfl
    (by norm_num) (by norm_num)).2.2.2.1

/-- C13. Cached evolution: `Precalculate_Sinusoids` (which returns, given fuel for the samples
of every cell, on a grid of positive magnitudes with a square root that is positive on positive
numbers) leaves every read index `0` and caches of equal length `L ≥ 1`; after `n` calls of
`Fill_htilde_and_Displacements` the caches are unchanged and the cosine and the sine read index
of every cell equal `n mod L`; each call advances the index by one slot with wrap-around; and
call `n + 1` reads slot `(n + 1) mod L < L` of both caches. -/
theorem cached_evolution [FloorRing F] (M : CLib F) (fuel : Nat) (s : FFTWrapper F) (N : Nat)
    (hw : s.m_width = N) (hh : s.m_height = N) (hN : N * N < 2 ^ 32)
    (hfuel : ∀ i, i < N * N →
      ⌈kfTwoPi / M.sqrt (kfGravity * s.m_kMag i) / (1 / 20)⌉₊ < fuel)
    (hk : ∀ i, i < N * N → 0 < s.m_kMag i)
    (hsqrt : ∀ x, 0 < x → 0 < M.sqrt x) :
    ∃ s0, s.Precalculate_Sinusoids M fuel = some s0 ∧
      ∀ i, i < N * N →
        s0.m_cosLookup i = 0 ∧ s0.m_sinLookup i = 0 ∧
        1 ≤ (s0.m_cosPrecalc i).length ∧
        (s0.m_sinPrecalc i).length = (s0.m_cosPrecalc i).length ∧
        ∀ n : Nat,
          ((FFTWrapper.Fill_htilde_and_Displacements^[n]) s0).m_cosPrecalc i =
            s0.m_cosPrecalc i ∧
          ((FFTWrapper.Fill_htilde_and_Displacements^[n]) s0).m_sinPrecalc i =
            s0.m_sinPrecalc i ∧
          ((FFTWrapper.Fill_htilde_and_Displacements^[n]) s0).m_cosLookup i =
            ((n % (s0.m_cosPrecalc i).length : Nat) : Int) ∧
          ((FFTWrapper.Fill_htilde_and_Displacements^[n]) s0).m_sinLookup i =
            ((n % (s0.m_cosPrecalc i).length : Nat) : Int) ∧
          ((FFTWrapper.Fill_htilde_and_Displacements^[n + 1]) s0).m_cosLookup i =
            (if ((FFTWrapper.Fill_htilde_and_Displacements^[n]) s0).m_cosLookup i + 1 <
                ((s0.m_cosPrecalc i).length : Int)
              then ((FFTWrapper.Fill_htilde_and_Displacements^[n]) s0).m_cosLookup i + 1
              else 0) ∧
          ((FFTWrapper.Fill_htilde_and_Displacements^[n + 1]) s0).m_sinLookup i =
            (if ((FFTWrapper.Fill_htilde_and_Displacements^[n]) s0).m_sinLookup i + 1 <
                ((s0.m_cosPrecalc i).length : Int)
              then ((FFTWrapper.Fill_htilde_and_Displacements^[n]) s0).m_sinLookup i + 1
              else 0) ∧
          (n + 1) % (s0.m_cosPrecalc i).length < (s0.m_cosPrecalc i).length ∧
          (s0.m_cosPrecalc i)[(n + 1) % (s0.m_cosPrecalc i).length]? =
            some (((FFTWrapper.Fill_htilde_and_Displacements^[n]) s0).expPos i).x ∧
          (s0.m_sinPrecalc i)[(n + 1) % (s0.m_cosPrecalc i).length]? =
            some (((FFTWrapper.Fill_htilde_and_Displacements^[n]) s0).expPos i).y := by
  have hstep : (0 : F) < 1 / 20 := by norm_num
  have h2pi : (0 : F) < kfTwoPi := by unfold kfTwoPi; norm_num
  have hg : (0 : F) < kfGravity := by unfold kfGravity; norm_num
  obtain ⟨s0, hrun, hw0, hh0, -, -, -, -, hcell⟩ :=
    Precalculate_Sinusoids_spec M fuel s N hw hh hN hfuel
  refine ⟨s0, hrun, fun i hi => ?_⟩
  obtain ⟨hc0, hs0, hcos, hsin⟩ := hcell i hi
  have hlenc : (s0.m_cosPrecalc i).length =
      ⌈kfTwoPi / M.sqrt (kfGravity * s.m_kMag i) / (1 / 20)⌉₊ := by
    rw [hcos, sinusoidSamples_length]
  have hlens : (s0.m_sinPrecalc i).length = (s0.m_cosPrecalc i).length := by
    rw [hlenc, hsin, sinusoidSamples_length]
  have hL : 1 ≤ (s0.m_cosPrecalc i).length := by
    rw [hlenc]
    exact Nat.ceil_pos.mpr (div_pos (div_pos h2pi (hsqrt _ (mul_pos hg (hk i hi)))) hstep)
  have hLs : 1 ≤ (s0.m_sinPrecalc i).length := by rw [hlens]; exact hL
  refine ⟨hc0, hs0, hL, hlens, fun n => ?_⟩
  have hf := Fill_htilde_iterate_frame s0 N hw0 hh0 hN n
  have hc : ((FFTWrapper.Fill_htilde_and_Displacements^[n]) s0).m_cosPrecalc =
      s0.m_cosPrecalc := by
    have h := congrArg FFTWrapper.m_cosPrecalc hf
    exact h
  have hs : ((FFTWrapper.Fill_htilde_and_Displacements^[n]) s0).m_sinPrecalc =
      s0.m_sinPrecalc := by
    have h := congrArg FFTWrapper.m_sinPrecalc hf
    exact h
  have hcn := (Fill_htilde_iterate_lookup s0 N hw0 hh0 hN i hi n).1 hc0 hL
  have hsn := (Fill_htilde_iterate_lookup s0 N hw0 hh0 hN i hi n).2 hs0 hLs
  have hcn1 := (Fill_htilde_iterate_lookup s0 N hw0 hh0 hN i hi (n + 1)).1 hc0 hL
  have hsn1 := (Fill_htilde_iterate_lookup s0 N hw0 hh0 hN i hi (n + 1)).2 hs0 hLs
  rw [hlens] at hsn hsn1
  have hlt : (n + 1) % (s0.m_cosPrecalc i).length < (s0.m_cosPrecalc i).length :=
    Nat.mod_lt _ hL
  refine ⟨congrFun hc i, congrFun hs i, hcn, hsn, ?_, ?_, hlt, ?_, ?_⟩
  · rw [hcn1, hcn, ← nextLookup_mod _ hL n]
    exact nextLookup_wrap _ _ (Int.natCast_nonneg _)
  · rw [hsn1, hsn, ← nextLookup_mod _ hL n]
    exact nextLookup_wrap _ _ (Int.natCast_nonneg _)
  · simp only [FFTWrapper.expPos, hc, hcn, nextLookup_mod _ hL n]
    exact vecAt_natCast _ _ hlt
  · simp only [FFTWrapper.expPos, hs, hsn, hlens, nextLookup_mod _ hL n]
    exact vecAt_natCast _ _ (by rw [hlens]; exact hlt)

/-- Witness of C13 over the reals: the 2 by 2 grid filled by `Fill_K_Vectors`, fuel `4201`,
cell `1` after three calls. -/
theorem cached_evolution_witness :
    ∃ s0, ((FFTWrapper.blank 2 : FFTWrapper ℝ).Fill_K_Vectors realLib).Precalculate_Sinusoids
        realLib 4201 = some s0 ∧
      ((FFTWrapper.Fill_htilde_and_Displacements^[3]) s0).m_cosLookup 1 =
        ((3 % (s0.m_cosPrecalc 1).length : Nat) : Int) :=
  let ⟨s0, h1, h2⟩ := cached_evolution realLib 4201
    ((FFTWrapper.blank 2 : FFTWrapper ℝ).Fill_K_Vectors realLib) 2
    (Fill_K_Vectors_width realLib _) (Fill_K_Vectors_height realLib _) (by norm_num)
    (real_grid_fuel (FFTWrapper.blank 2) 2 rfl rfl (by norm_num))
    (fun i hi => lt_of_lt_of_le (by norm_num)
      (Fill_K_Vectors_cell_values realLib (FFTWrapper.blank 2) 2 i rfl rfl (by norm_num) hi).2.2)
    (fun _ hx => Real.sqrt_pos.mpr hx)
  ⟨s0, h1, ((h2 1 (by norm_num)).2.2.2.2 3).2.2.1⟩

/-- C14 (as amended). After `Precalculate_Sinusoids` (which returns, given fuel for the
samples of every cell), for every cell the length of its cosine cache and of its sine cache
equals `⌈period / step⌉`, the number of sample times `0, step, 2 * step, ...` below the
period, where `period = 2 π / w`, `w = sqrt (g * kMag)` for the stored magnitude of the cell
and `step = 0.05`; this is `⌊period / step⌋` or `⌊period / step⌋ + 1`. -/
theorem sinusoid_cache_length [FloorRing F] (M : CLib F) (fuel : Nat) (s : FFTWrapper F)
    (N : Nat) (hw : s.m_width = N) (hh : s.m_height = N) (hN : N * N < 2 ^ 32)
    (hfuel : ∀ i, i < N * N →
      ⌈kfTwoPi / M.sqrt (kfGravity * s.m_kMag i) / (1 / 20)⌉₊ < fuel) :
    ∃ s', s.Precalculate_Sinusoids M fuel = some s' ∧
      ∀ i, i < N * N →
        (s'.m_cosPrecalc i).length =
          ⌈kfTwoPi / M.sqrt (kfGravity * s.m_kMag i) / (1 / 20)⌉₊ ∧
        (s'.m_sinPrecalc i).length =
          ⌈kfTwoPi / M.sqrt (kfGravity * s.m_kMag i) / (1 / 20)⌉₊ ∧
        ⌊kfTwoPi / M.sqrt (kfGravity * s.m_kMag i) / (1 / 20)⌋₊ ≤ (s'.m_cosPrecalc i).length ∧
        (s'.m_cosPrecalc i).length ≤
          ⌊kfTwoPi / M.sqrt (kfGravity * s.m_kMag i) / (1 / 20)⌋₊ + 1 := by
  refine ⟨_, Precalculate_Sinusoids_eq M fuel s N hw hh hN hfuel, fun i hi => ?_⟩
  simp only [if_pos hi, sinusoidSamples_length, FFTWrapper.wavePeriod, FFTWrapper.omegaK,
    true_and]
  exact ⟨Nat.floor_le_ceil _, Nat.ceil_le_floor_add_one _⟩

/-- Witness of C14 (as amended) over the reals: the 2 by 2 grid filled by `Fill_K_Vectors`,
fuel `4201`, cell `1`. -/
theorem sinusoid_cache_length_witness :
    ∃ s', ((FFTWrapper.blank 2 : FFTWrapper ℝ).Fill_K_Vectors realLib).Precalculate_Sinusoids
        realLib 4201 = some s' ∧
      (s'.m_cosPrecalc 1).length =
        ⌈(kfTwoPi : ℝ) / Real.sqrt (kfGravity *
          ((FFTWrapper.blank 2 : FFTWrapper ℝ).Fill_K_Vectors realLib).m_kMag 1) / (1 / 20)⌉₊ :=
  let ⟨s', h1, h2⟩ := sinusoid_cache_length realLib 4201
    ((FFTWrapper.blank 2 : FFTWrapper ℝ).Fill_K_Vectors realLib) 2
    (Fill_K_Vectors_width realLib _) (Fill_K_Vectors_height realLib _) (by norm_num)
    (real_grid_fuel (FFTWrapper.blank 2) 2 rfl rfl (by norm_num))
  ⟨s', h1, (h2 1 (by norm_num)).1⟩

/-- C14 as stated fails: over the reals, on the 2 by 2 grid filled by `Fill_K_Vectors`, the
cosine cache of cell `(1, 0)` (wavevector `(kfTwoPi / 200, 0)`) gets `227` samples, while
`⌊period / step⌋ = 226`. -/
theorem sinusoid_cache_length_not_floor :
    (((FFTWrapper.blank 2 : FFTWrapper ℝ).Fill_K_Vectors realLib).Precalculate_Sinusoids
        realLib 4201).map (fun s' => (s'.m_cosPrecalc 1).length) = some 227 ∧
      ⌊(kfTwoPi : ℝ) / Real.sqrt (kfGravity *
        ((FFTWrapper.blank 2 : FFTWrapper ℝ).Fill_K_Vectors realLib).m_kMag 1) / (1 / 20)⌋₊ =
        226 := by
  obtain ⟨hlo, hhi⟩ := real_grid2_steps
  have hceil : ⌈(kfTwoPi : ℝ) / Real.sqrt (kfGravity * (kfTwoPi / 200)) / (1 / 20)⌉₊ = 227 := by
    rw [Nat.ceil_eq_iff (by norm_num)]
    exact ⟨by push_cast; linarith, by push_cast; linarith⟩
  have hfloor : ⌊(kfTwoPi : ℝ) / Real.sqrt (kfGravity * (kfTwoPi / 200)) / (1 / 20)⌋₊ = 226 := by
    rw [Nat.floor_eq_iff (by linarith)]
    exact ⟨by push_cast; linarith, by push_cast; linarith⟩
  rw [Precalculate_Sinusoids_eq realLib 4201 _ 2 (Fill_K_Vectors_width realLib _)
    (Fill_K_Vectors_height realLib _) (by norm_num)
    (real_grid_fuel (FFTWrapper.blank 2) 2 rfl rfl (by norm_num))]
  have hk := real_grid2_cell1.2
  have h4 : (1 : Nat) < 2 * 2 := by norm_num
  simp only [Option.map_some', if_pos h4, sinusoidSamples_length, FFTWrapper.wavePeriod,
    FFTWrapper.omegaK, hk]
  simp only [realLib, hceil, hfloor, and_self]

/-- C15. After `Precalculate_Sinusoids` (which returns, given fuel for the samples of every
cell), for every cell and every slot `m` below the cache length of the cell, the cached pair
is `(cos (w * t_m), sin (w * t_m))` with `w = sqrt (g * kMag)` and `t_m = m * 0.05`, and every
sample time satisfies `0 ≤ t_m < 2 π / w`. -/
theorem sinusoid_cache_samples [FloorRing F] (M : CLib F) (fuel : Nat) (s : FFTWrapper F)
    (N : Nat) (hw : s.m_width = N) (hh : s.m_height = N) (hN : N * N < 2 ^ 32)
    (hfuel : ∀ i, i < N * N →
      ⌈kfTwoPi / M.sqrt (kfGravity * s.m_kMag i) / (1 / 20)⌉₊ < fuel) :
    ∃ s', s.Precalculate_Sinusoids M fuel = some s' ∧
      ∀ i, i < N * N → ∀ m, m < (s'.m_cosPrecalc i).length →
        (s'.m_cosPrecalc i)[m]? =
          some (M.cos (M.sqrt (kfGravity * s.m_kMag i) * ((m : F) * (1 / 20)))) ∧
        (s'.m_sinPrecalc i)[m]? =
          some (M.sin (M.sqrt (kfGravity * s.m_kMag i) * ((m : F) * (1 / 20)))) ∧
        0 ≤ (m : F) * (1 / 20) ∧
        (m : F) * (1 / 20) < kfTwoPi / M.sqrt (kfGravity * s.m_kMag i) := by
  refine ⟨_, Precalculate_Sinusoids_eq M fuel s N hw hh hN hfuel, fun i hi m hm => ?_⟩
  simp only [if_pos hi, sinusoidSamples_length] at hm
  have hstep : (0 : F) < 1 / 20 := by norm_num
  have hlt := (sinusoid_count (s.wavePeriod M i) (1 / 20) hstep).1 m hm
  rw [zero_add] at hlt
  simp only [if_pos hi, sinusoidSamples_get _ _ _ _ m hm, FFTWrapper.omegaK, true_and]
  exact ⟨by positivity, hlt⟩

/-- Witness of C15 over the reals: the 2 by 2 grid filled by `Fill_K_Vectors`, fuel `4201`. -/
theorem sinusoid_cache_samples_witness :
    ∃ s', ((FFTWrapper.blank 2 : FFTWrapper ℝ).Fill_K_Vectors realLib).Precalculate_Sinusoids
        realLib 4201 = some s' ∧
      ∀ m, m < (s'.m_cosPrecalc 1).length →
        (s'.m_cosPrecalc 1)[m]? =
          some (Real.cos (Real.sqrt (kfGravity *
            ((FFTWrapper.blank 2 : FFTWrapper ℝ).Fill_K_Vectors realLib).m_kMag 1) *
              ((m : ℝ) * (1 / 20)))) :=
  let ⟨s', h1, h2⟩ := sinusoid_cache_samples realLib 4201
    ((FFTWrapper.blank 2 : FFTWrapper ℝ).Fill_K_Vectors realLib) 2
    (Fill_K_Vectors_width realLib _) (Fill_K_Vectors_height realLib _) (by norm_num)
    (real_grid_fuel (FFTWrapper.blank 2) 2 rfl rfl (by norm_num))
  ⟨s', h1, fun m hm => (h2 1 (by norm_num) m hm).1⟩

/-- C16 (as amended). Time evolution rotates the phase of each of the two terms of the height
spectrum: for every cell whose phase factor `e` read from the caches has unit modulus,
`|h0 * e|^2 = |h0|^2` and `|h0conj * conj e|^2 = |h0conj|^2`, whatever the tick.  The height
spectrum written is the sum of the two terms and
`|h|^2 = |h0|^2 + |h0conj|^2 + 2 * Re (h0 * conj h0conj * e^2)`; summed over the cells,
`Σ |h|^2 = Σ (|h0|^2 + |h0conj|^2) + 2 * Σ Re (h0 * conj h0conj * e^2)`, whose first part is
the same at every tick and whose second part depends on the phases. -/
theorem height_spectrum_energy (s : FFTWrapper F) (N : Nat)
    (hw : s.m_width = N) (hh : s.m_height = N) (hN : N * N < 2 ^ 32)
    (hunit : ∀ i, i < N * N → normSq (s.expPos i) = 1) :
    (∀ i, i < N * N →
      normSq (multComplex (s.m_h0tilde i) (s.expPos i)) = normSq (s.m_h0tilde i) ∧
      normSq (multComplex (s.m_h0tildeConj i) ⟨(s.expPos i).x, -(s.expPos i).y⟩) =
        normSq (s.m_h0tildeConj i) ∧
      (⟨s.Fill_htilde_and_Displacements.m_FFTin 0 i 0,
        s.Fill_htilde_and_Displacements.m_FFTin 0 i 1⟩ : Vec2 F) =
        addComplex (multComplex (s.m_h0tilde i) (s.expPos i))
          (multComplex (s.m_h0tildeConj i) ⟨(s.expPos i).x, -(s.expPos i).y⟩) ∧
      normSq ⟨s.Fill_htilde_and_Displacements.m_FFTin 0 i 0,
          s.Fill_htilde_and_Displacements.m_FFTin 0 i 1⟩ =
        normSq (s.m_h0tilde i) + normSq (s.m_h0tildeConj i) +
          2 * (((s.m_h0tilde i).x * (s.m_h0tildeConj i).x +
                (s.m_h0tilde i).y * (s.m_h0tildeConj i).y) *
              ((s.expPos i).x * (s.expPos i).x - (s.expPos i).y * (s.expPos i).y) -
            ((s.m_h0tilde i).y * (s.m_h0tildeConj i).x -
                (s.m_h0tilde i).x * (s.m_h0tildeConj i).y) *
              (2 * (s.expPos i).x * (s.expPos i).y))) ∧
    ∑ i ∈ Finset.range (N * N),
        normSq ⟨s.Fill_htilde_and_Displacements.m_FFTin 0 i 0,
          s.Fill_htilde_and_Displacements.m_FFTin 0 i 1⟩ =
      ∑ i ∈ Finset.range (N * N), (normSq (s.m_h0tilde i) + normSq (s.m_h0tildeConj i)) +
        2 * ∑ i ∈ Finset.range (N * N),
          (((s.m_h0tilde i).x * (s.m_h0tildeConj i).x +
                (s.m_h0tilde i).y * (s.m_h0tildeConj i).y) *
              ((s.expPos i).x * (s.expPos i).x - (s.expPos i).y * (s.expPos i).y) -
            ((s.m_h0tilde i).y * (s.m_h0tildeConj i).x -
                (s.m_h0tilde i).x * (s.m_h0tildeConj i).y) *
              (2 * (s.expPos i).x * (s.expPos i).y)) := by
  have hout : ∀ i, i < N * N →
      (⟨s.Fill_htilde_and_Displacements.m_FFTin 0 i 0,
        s.Fill_htilde_and_Displacements.m_FFTin 0 i 1⟩ : Vec2 F) = s.htilde i := by
    intro i hi
    simp only [FFTWrapper.Fill_htilde_and_Displacements, hw, hh, u32_of_lt hN,
      Fill_htilde_and_Displacements_loop, if_pos hi, cellFFTin, wr3_apply]
    simp
  have hcell : ∀ i, i < N * N →
      normSq ⟨s.Fill_htilde_and_Displacements.m_FFTin 0 i 0,
          s.Fill_htilde_and_Displacements.m_FFTin 0 i 1⟩ =
        normSq (s.m_h0tilde i) + normSq (s.m_h0tildeConj i) +
          2 * (((s.m_h0tilde i).x * (s.m_h0tildeConj i).x +
                (s.m_h0tilde i).y * (s.m_h0tildeConj i).y) *
              ((s.expPos i).x * (s.expPos i).x - (s.expPos i).y * (s.expPos i).y) -
            ((s.m_h0tilde i).y * (s.m_h0tildeConj i).x -
                (s.m_h0tilde i).x * (s.m_h0tildeConj i).y) *
              (2 * (s.expPos i).x * (s.expPos i).y)) := by
    intro i hi
    have hu := hunit i hi
    rw [hout i hi]
    simp only [FFTWrapper.htilde, normSq, multComplex, addComplex] at hu ⊢
    linear_combination
      ((s.m_h0tilde i).x * (s.m_h0tilde i).x + (s.m_h0tilde i).y * (s.m_h0tilde i).y +
        (s.m_h0tildeConj i).x * (s.m_h0tildeConj i).x +
        (s.m_h0tildeConj i).y * (s.m_h0tildeConj i).y) * hu
  refine ⟨fun i hi => ⟨?_, ?_, ?_, hcell i hi⟩, ?_⟩
  · have hu := hunit i hi
    simp only [normSq, multComplex] at hu ⊢
    linear_combination
      ((s.m_h0tilde i).x * (s.m_h0tilde i).x + (s.m_h0tilde i).y * (s.m_h0tilde i).y) * hu
  · have hu := hunit i hi
    simp only [normSq, multComplex] at hu ⊢
    linear_combination
      ((s.m_h0tildeConj i).x * (s.m_h0tildeConj i).x +
        (s.m_h0tildeConj i).y * (s.m_h0tildeConj i).y) * hu
  · rw [hout i hi]; rfl
  · rw [Finset.mul_sum, ← Finset.sum_add_distrib]
    refine Finset.sum_congr rfl (fun i hi => ?_)
    exact hcell i (Finset.mem_range.mp hi)

/-- Witness of C16 (as amended) on the one-cell wrapper `sampleCell`, whose phase factor at the
first call is `(0, 1)`. -/
theorem height_spectrum_energy_witness :
    normSq (multComplex (sampleCell.m_h0tilde 0) (sampleCell.expPos 0)) =
      normSq (sampleCell.m_h0tilde 0) :=
  ((height_spectrum_energy sampleCell 1 rfl rfl (by norm_num)
    (fun i hi => by
      have hi0 : i = 0 := by omega
      subst hi0
      have hn : nextLookup 0 2 = 1 := by decide
      simp only [normSq, FFTWrapper.expPos, sampleCell, FFTWrapper.blank, List.length_cons,
        List.length_nil, hn, vecAt]
      norm_num)).1 0 (by norm_num)).1

/-- C16 as stated fails: on the one-cell wrapper `sampleCell` the phase factors read at the
first and at the second call, `(0, 1)` and `(1, 0)`, both have unit modulus, while the summed
squared magnitude of the height spectrum is `8` after the first call and `52` after the
second. -/
theorem height_spectrum_energy_not_conserved :
    sampleCell.m_width = 1 ∧ sampleCell.m_height = 1 ∧
    normSq (sampleCell.expPos 0) = 1 ∧
    normSq (sampleCell.Fill_htilde_and_Displacements.expPos 0) = 1 ∧
    ∑ i ∈ Finset.range (1 * 1),
        normSq ⟨sampleCell.Fill_htilde_and_Displacements.m_FFTin 0 i 0,
          sampleCell.Fill_htilde_and_Displacements.m_FFTin 0 i 1⟩ = (8 : ℚ) ∧
    ∑ i ∈ Finset.range (1 * 1),
        normSq ⟨sampleCell.Fill_htilde_and_Displacements.Fill_htilde_and_Displacements.m_FFTin 0 i 0,
          sampleCell.Fill_htilde_and_Displacements.Fill_htilde_and_Displacements.m_FFTin 0 i 1⟩ =
      (52 : ℚ) ∧
    (8 : ℚ) ≠ 52 := by
  obtain ⟨hc, hs, h00, h01, -⟩ := sampleCell_run
  obtain ⟨-, -, g00, g01⟩ := sampleCell_run_twice
  have hn : nextLookup 0 2 = 1 := by decide
  have hn' : nextLookup 1 2 = 0 := by decide
  have hcache : sampleCell.Fill_htilde_and_Displacements.m_cosPrecalc 0 = [1, 0] ∧
      sampleCell.Fill_htilde_and_Displacements.m_sinPrecalc 0 = [0, 1] := by
    simp only [FFTWrapper.Fill_htilde_and_Displacements, Fill_htilde_and_Displacements_loop]
    exact ⟨rfl, rfl⟩
  refine ⟨rfl, rfl, ?_, ?_, ?_, ?_, by norm_num⟩
  · simp only [normSq, FFTWrapper.expPos, sampleCell, FFTWrapper.blank, List.length_cons,
      List.length_nil, hn, vecAt]
    norm_num
  · simp only [normSq, FFTWrapper.expPos, hcache.1, hcache.2, hc, hs, List.length_cons,
      List.length_nil, hn', vecAt]
    norm_num
  · simp only [Nat.mul_one, Finset.sum_range_one, h00, h01, normSq]
    norm_num
  · simp only [Nat.mul_one, Finset.sum_range_one, g00, g01, normSq]
    norm_num

/-- C17 (as amended). For every realisation `dist` of the random samples and every state of
the caches and read indices (every tick), the height spectrum that `Fill_h0tilde` followed by
`Fill_htilde_and_Displacements` builds at a cell `n` of the grid is
`r * ((x1 + x3) * c - (x2 + x4) * s, (x1 - x3) * s + (x2 - x4) * c)`, where
`r = sqrt (Philips_Spectrum (k_n, kMag_n)) / sqrt 2`, `(c, s)` is the phase factor read from
the caches of the cell and `x1, ..., x4` are the four samples drawn for that cell; it depends
on no sample of another cell, so that two realisations that agree on the four samples of the
cell give the same value there whatever they are at the mirrored cell. -/
theorem height_spectrum_cell_samples (M : CLib F) (dist : Nat → F) (s : FFTWrapper F)
    (N n : Nat) (hw : s.m_width = N) (hh : s.m_height = N) (hN : N * N < 2 ^ 32)
    (hn : n < N * N) :
    (s.Fill_h0tilde M dist).Fill_htilde_and_Displacements.m_FFTin 0 n 0 =
      M.sqrt (s.Philips_Spectrum M (s.m_kVectors n) (s.m_kMag n)) * (1 / M.sqrt 2) *
        ((dist (4 * n) + dist (4 * n + 2)) * (s.expPos n).x -
          (dist (4 * n + 1) + dist (4 * n + 3)) * (s.expPos n).y) ∧
    (s.Fill_h0tilde M dist).Fill_htilde_and_Displacements.m_FFTin 0 n 1 =
      M.sqrt (s.Philips_Spectrum M (s.m_kVectors n) (s.m_kMag n)) * (1 / M.sqrt 2) *
        ((dist (4 * n) - dist (4 * n + 2)) * (s.expPos n).y +
          (dist (4 * n + 1) - dist (4 * n + 3)) * (s.expPos n).x) ∧
    ∀ dist2 : Nat → F,
      dist2 (4 * n) = dist (4 * n) → dist2 (4 * n + 1) = dist (4 * n + 1) →
      dist2 (4 * n + 2) = dist (4 * n + 2) → dist2 (4 * n + 3) = dist (4 * n + 3) →
      (s.Fill_h0tilde M dist2).Fill_htilde_and_Displacements.m_FFTin 0 n 0 =
        (s.Fill_h0tilde M dist).Fill_htilde_and_Displacements.m_FFTin 0 n 0 ∧
      (s.Fill_h0tilde M dist2).Fill_htilde_and_Displacements.m_FFTin 0 n 1 =
        (s.Fill_h0tilde M dist).Fill_htilde_and_Displacements.m_FFTin 0 n 1 := by
  have key : ∀ d : Nat → F,
      (s.Fill_h0tilde M d).Fill_htilde_and_Displacements.m_FFTin 0 n 0 =
        M.sqrt (s.Philips_Spectrum M (s.m_kVectors n) (s.m_kMag n)) * (1 / M.sqrt 2) *
          ((d (4 * n) + d (4 * n + 2)) * (s.expPos n).x -
            (d (4 * n + 1) + d (4 * n + 3)) * (s.expPos n).y) ∧
      (s.Fill_h0tilde M d).Fill_htilde_and_Displacements.m_FFTin 0 n 1 =
        M.sqrt (s.Philips_Spectrum M (s.m_kVectors n) (s.m_kMag n)) * (1 / M.sqrt 2) *
          ((d (4 * n) - d (4 * n + 2)) * (s.expPos n).y +
            (d (4 * n + 1) - d (4 * n + 3)) * (s.expPos n).x) := by
    intro d
    have e2 := Fill_h0tilde_eq M d s N hw hh hN
    have hw2 : (s.Fill_h0tilde M d).m_width = N := by rw [e2]; exact hw
    have hh2 : (s.Fill_h0tilde M d).m_height = N := by rw [e2]; exact hh
    rw [Fill_htilde_and_Displacements_eq _ N hw2 hh2 hN]
    simp only [if_pos hn, cellFFTin, wr3_apply]
    rw [e2]
    simp only [FFTWrapper.htilde, FFTWrapper.expPos, if_pos hn, addComplex, multComplex]
    constructor
    · simp
      ring
    · simp
      ring
  refine ⟨(key dist).1, (key dist).2, fun dist2 h0 h1 h2 h3 => ?_⟩
  rw [(key dist2).1, (key dist2).2, (key dist).1, (key dist).2, h0, h1, h2, h3]
  exact ⟨rfl, rfl⟩

/-- Witness of C17 (as amended) over the reals: cell `1` of the 2 by 2 grid filled by
`Fill_K_Vectors`, with the sample sequence `0, 1, 2, ...`: the real part of the height
spectrum. -/
theorem height_spectrum_cell_samples_witness :
    (((FFTWrapper.blank 2 : FFTWrapper ℝ).Fill_K_Vectors realLib).Fill_h0tilde realLib
        (fun k => (k : ℝ))).Fill_htilde_and_Displacements.m_FFTin 0 1 0 =
      Real.sqrt (((FFTWrapper.blank 2 : FFTWrapper ℝ).Fill_K_Vectors realLib).Philips_Spectrum
          realLib (((FFTWrapper.blank 2 : FFTWrapper ℝ).Fill_K_Vectors realLib).m_kVectors 1)
          (((FFTWrapper.blank 2 : FFTWrapper ℝ).Fill_K_Vectors realLib).m_kMag 1)) *
          (1 / Real.sqrt 2) *
        ((((4 * 1 : Nat) : ℝ) + ((4 * 1 + 2 : Nat) : ℝ)) *
            (((FFTWrapper.blank 2 : FFTWrapper ℝ).Fill_K_Vectors realLib).expPos 1).x -
          (((4 * 1 + 1 : Nat) : ℝ) + ((4 * 1 + 3 : Nat) : ℝ)) *
            (((FFTWrapper.blank 2 : FFTWrapper ℝ).Fill_K_Vectors realLib).expPos 1).y) :=
  (height_spectrum_cell_samples realLib (fun k => (k : ℝ))
    ((FFTWrapper.blank 2 : FFTWrapper ℝ).Fill_K_Vectors realLib) 2 1
    (Fill_K_Vectors_width realLib _) (Fill_K_Vectors_height realLib _) (by norm_num)
    (by norm_num)).1

/-- C17 as stated fails: over the reals, on the 2 by 2 grid with the presets of the header and
the realisation whose sample `5` is `1` and every other sample `0`, cell `(1, 0)` is its own
mirror `((2 - 1) mod 2, (2 - 0) mod 2)`, and after `Generate_Heightmap` and one call of
`Fill_htilde_and_Displacements` the height spectrum at that cell is not its own conjugate: its
imaginary part is `r * cos (w / 20) > 0`. -/
theorem conjugate_symmetry_fails :
    ∃ t, (FFTWrapper.blank 2 : FFTWrapper ℝ).Generate_Heightmap realLib
        (fun k => if k = 5 then 1 else 0) 4201 true = some t ∧
      t.cellIndex ((2 - 0) % 2) ((2 - 1) % 2) = t.cellIndex 0 1 ∧
      (⟨t.Fill_htilde_and_Displacements.m_FFTin 0 (t.cellIndex ((2 - 0) % 2) ((2 - 1) % 2)) 0,
        t.Fill_htilde_and_Displacements.m_FFTin 0 (t.cellIndex ((2 - 0) % 2) ((2 - 1) % 2)) 1⟩ :
          Vec2 ℝ) ≠
        ⟨t.Fill_htilde_and_Displacements.m_FFTin 0 (t.cellIndex 0 1) 0,
          -t.Fill_htilde_and_Displacements.m_FFTin 0 (t.cellIndex 0 1) 1⟩ := by
  obtain ⟨t, hrun, hw, hh, h0, h0c, hc0, hs0, hcos, hsin⟩ :=
    real_grid2_pipeline (fun k => if k = 5 then 1 else 0)
  have hN : 2 * 2 < 2 ^ 32 := by norm_num
  have h14 : (1 : Nat) < 2 * 2 := by norm_num
  have hidx : t.cellIndex 0 1 = 1 := by
    rw [cellIndex_eq t 2 0 1 hh hN (by norm_num) (by norm_num)]
  have hr := real_grid2_scale_pos
  have hw0 : (0 : ℝ) ≤ Real.sqrt (kfGravity * (kfTwoPi / 200)) := Real.sqrt_nonneg _
  have hw1 : Real.sqrt (kfGravity * ((kfTwoPi : ℝ) / 200)) ≤ 1 := by
    rw [Real.sqrt_le_one]
    unfold kfGravity kfTwoPi
    norm_num
  have hcpos : 0 < Real.cos (Real.sqrt (kfGravity * (kfTwoPi / 200)) * (((1 : Nat) : ℝ) * (1 / 20))) := by
    apply Real.cos_pos_of_mem_Ioo
    have hpi := Real.pi_gt_three
    constructor
    · have : (0 : ℝ) ≤ Real.sqrt (kfGravity * (kfTwoPi / 200)) * (((1 : Nat) : ℝ) * (1 / 20)) := by
        positivity
      linarith
    · push_cast
      linarith
  have hnl : nextLookup 0 227 = ((1 : Nat) : Int) := by decide
  have hx : (t.expPos 1).x =
      Real.cos (Real.sqrt (kfGravity * (kfTwoPi / 200)) * (((1 : Nat) : ℝ) * (1 / 20))) := by
    have h1 := vecAt_natCast (t.m_cosPrecalc 1) 1 (by rw [hcos, sinusoidSamples_length]; norm_num)
    rw [hcos, sinusoidSamples_get _ _ _ _ 1 (by norm_num)] at h1
    simp only [FFTWrapper.expPos, hc0, hcos, sinusoidSamples_length, hnl]
    exact (Option.some.inj h1).symm
  have him : t.Fill_htilde_and_Displacements.m_FFTin 0 1 1 =
      Real.sqrt ((FFTWrapper.blank 2 : FFTWrapper ℝ).Philips_Spectrum realLib
          ⟨kfTwoPi / 200, 0⟩ (kfTwoPi / 200)) * (1 / Real.sqrt 2) *
        Real.cos (Real.sqrt (kfGravity * (kfTwoPi / 200)) * (((1 : Nat) : ℝ) * (1 / 20))) := by
    rw [Fill_htilde_and_Displacements_eq t 2 hw hh hN]
    simp only [if_pos h14, cellFFTin, wr3_apply]
    simp only [FFTWrapper.htilde, h0, h0c, hx, addComplex, multComplex]
    simp
  refine ⟨t, hrun, rfl, ?_⟩
  have e1 : (2 - 0) % 2 = 0 := rfl
  have e2 : (2 - 1) % 2 = 1 := rfl
  rw [e1, e2, hidx, him, Ne, Vec2.mk.injEq]
  intro h
  have hpos := mul_pos hr hcpos
  linarith [h.2]

/-- C18. For every wavevector `k` and every magnitude `kMag > 0`, with a non-negative
amplitude (and the exponential of the C library non-negative), `Philips_Spectrum (k, kMag) ≥ 0`
and `Philips_Spectrum (-k, kMag) ≥ 0`: both square roots taken in `Fill_h0tilde` are of
non-negative numbers. -/
theorem Philips_Spectrum_nonneg (M : CLib F) (s : FFTWrapper F) (vK : Vec2 F) (kMag : F)
    (_hk : 0 < kMag) (hA : 0 ≤ s.m_amplitude) (hexp : ∀ x, 0 ≤ M.exp x) :
    0 ≤ s.Philips_Spectrum M vK kMag ∧ 0 ≤ s.Philips_Spectrum M ⟨-vK.x, -vK.y⟩ kMag := by
  have key : ∀ v : Vec2 F, 0 ≤ s.Philips_Spectrum M v kMag := by
    intro v
    simp only [FFTWrapper.Philips_Spectrum, sqr]
    apply mul_nonneg
    · apply mul_nonneg hA
      apply div_nonneg (hexp _)
      exact mul_nonneg (mul_self_nonneg _) (mul_self_nonneg _)
    · exact mul_self_nonneg _
  exact ⟨key _, key _⟩

/-- Witness of C18: the presets of the header over the reals at `k = (3, 4)`, `kMag = 5`. -/
theorem Philips_Spectrum_nonneg_witness :
    0 ≤ (FFTWrapper.blank 4 : FFTWrapper ℝ).Philips_Spectrum realLib ⟨3, 4⟩ 5 ∧
      0 ≤ (FFTWrapper.blank 4 : FFTWrapper ℝ).Philips_Spectrum realLib ⟨-3, -4⟩ 5 :=
  Philips_Spectrum_nonneg realLib (FFTWrapper.blank 4) ⟨3, 4⟩ 5 (by norm_num)
    (by simp [FFTWrapper.blank]) (fun x => (Real.exp_pos x).le)

/-- C19. For every wavevector `k = (kx, kz)` and magnitude `kMag > 0`,
`Philips_Spectrum ((-kx, -kz), kMag) = Philips_Spectrum ((kx, kz), kMag)`; consequently
`Fill_h0tilde` scales `h0` and `h0conj` of the same cell by the same factor
`r = sqrt (Philips_Spectrum (k_n, kMag_n)) * (1 / sqrt 2)`. -/
theorem Philips_Spectrum_reflection (M : CLib F) (dist : Nat → F) (s : FFTWrapper F)
    (vK : Vec2 F) (kMag : F) (N n : Nat) (_hk : 0 < kMag)
    (hw : s.m_width = N) (hh : s.m_height = N) (hN : N * N < 2 ^ 32) (hn : n < N * N) :
    s.Philips_Spectrum M ⟨-vK.x, -vK.y⟩ kMag = s.Philips_Spectrum M vK kMag ∧
    (s.Fill_h0tilde M dist).m_h0tilde n =
      ⟨dist (4 * n) *
          (M.sqrt (s.Philips_Spectrum M (s.m_kVectors n) (s.m_kMag n)) * (1 / M.sqrt 2)),
       dist (4 * n + 1) *
          (M.sqrt (s.Philips_Spectrum M (s.m_kVectors n) (s.m_kMag n)) * (1 / M.sqrt 2))⟩ ∧
    (s.Fill_h0tilde M dist).m_h0tildeConj n =
      ⟨dist (4 * n + 2) *
          (M.sqrt (s.Philips_Spectrum M (s.m_kVectors n) (s.m_kMag n)) * (1 / M.sqrt 2)),
       -dist (4 * n + 3) *
          (M.sqrt (s.Philips_Spectrum M (s.m_kVectors n) (s.m_kMag n)) * (1 / M.sqrt 2))⟩ := by
  have hdef : s.Fill_h0tilde M dist =
      (forLoop (FFTWrapper.Fill_h0tilde_cell M dist (1 / M.sqrt 2)) (N * N) (s, 0)).1 := by
    simp only [FFTWrapper.Fill_h0tilde, hw, hh, u32_of_lt hN]
  rw [hdef, Fill_h0tilde_cell_loop]
  simp only [if_pos hn, Philips_Spectrum_neg_eq]
  exact ⟨trivial, trivial, trivial⟩

/-- Witness of C19 over the reals: `k = (3, 4)`, `kMag = 5` and cell `2` of the 4 by 4 grid. -/
theorem Philips_Spectrum_reflection_witness :
    (FFTWrapper.blank 4 : FFTWrapper ℝ).Philips_Spectrum realLib ⟨-3, -4⟩ 5 =
      (FFTWrapper.blank 4 : FFTWrapper ℝ).Philips_Spectrum realLib ⟨3, 4⟩ 5 :=
  (Philips_Spectrum_reflection realLib (fun k => (k : ℝ)) (FFTWrapper.blank 4) ⟨3, 4⟩ 5 4 2
    (by norm_num) rfl rfl (by norm_num) (by norm_num)).1

/-- C20. Per-tick totality: `Generate_Heightmap` on an `N` by `N` grid returns (given, in the
configurations that precalculate the sinusoids, fuel for the samples of every cell), and in the
object it leaves every stored magnitude of the grid is at least `0.0001`, so non-zero, and is
left unchanged by `Fill_htilde_and_Displacements` and `Fill_Horizontal_Displacement`, the two
routines that divide by it; both vectors normalised in `Fill_Normals_Central_Diff`,
`(2, 0, d)` and `(0, 2, d)`, have length at least `2` whatever `d` (for a square root with
`sqrt x ≥ 2` when `x ≥ 4`); and every linear index `j * N + i`, `j * N + xNext`,
`zNext * N + i` of the normal computations lies below `N * N`. -/
theorem per_tick_totality [FloorRing F] (M : CLib F) (dist : Nat → F) (fuel : Nat) (cpu : Bool)
    (s : FFTWrapper F) (N : Nat) (hw : s.m_width = N) (hh : s.m_height = N)
    (hN : 4 * (N * N) < 2 ^ 31)
    (hfuel : cpu = true → ∀ i, i < N * N →
      ⌈kfTwoPi / M.sqrt (kfGravity * (s.Fill_K_Vectors M).m_kMag i) / (1 / 20)⌉₊ < fuel)
    (hsqrt : ∀ x, 4 ≤ x → 2 ≤ M.sqrt x) :
    ∃ t, s.Generate_Heightmap M dist fuel cpu = some t ∧
      t.m_width = N ∧ t.m_height = N ∧
      (∀ i, i < N * N → 1 / 10000 ≤ t.m_kMag i ∧ t.m_kMag i ≠ 0) ∧
      t.Fill_htilde_and_Displacements.m_kMag = t.m_kMag ∧
      t.Fill_Horizontal_Displacement.m_kMag = t.m_kMag ∧
      (∀ v : v3 F, v3.Normalize M v =
        ⟨v.x / v3.Length M v, v.y / v3.Length M v, v.z / v3.Length M v⟩) ∧
      (∀ d : F, 2 ≤ v3.Length M ⟨2, 0, d⟩ ∧ 2 ≤ v3.Length M ⟨0, 2, d⟩) ∧
      (∀ j i, j < N → i < N →
        t.cellIndex j i = j * N + i ∧ t.cellIndex j i < N * N ∧
        t.cellIndex j (t.xNext i) = j * N + t.xNext i ∧ t.cellIndex j (t.xNext i) < N * N ∧
        t.cellIndex (t.zNext j) i = t.zNext j * N + i ∧
        t.cellIndex (t.zNext j) i < N * N) := by
  have hN32 : N * N < 2 ^ 32 := by omega
  have hw1 : (s.Fill_K_Vectors M).m_width = N := (Fill_K_Vectors_width M s).trans hw
  have hh1 : (s.Fill_K_Vectors M).m_height = N := (Fill_K_Vectors_height M s).trans hh
  have e2 := Fill_h0tilde_eq M dist (s.Fill_K_Vectors M) N hw1 hh1 hN32
  have hw2 : ((s.Fill_K_Vectors M).Fill_h0tilde M dist).m_width = N := by rw [e2]; exact hw1
  have hh2 : ((s.Fill_K_Vectors M).Fill_h0tilde M dist).m_height = N := by rw [e2]; exact hh1
  have hk2 : ((s.Fill_K_Vectors M).Fill_h0tilde M dist).m_kMag = (s.Fill_K_Vectors M).m_kMag := by
    rw [e2]
  have main : ∀ t : FFTWrapper F, t.m_width = N → t.m_height = N →
      t.m_kMag = (s.Fill_K_Vectors M).m_kMag →
      (∀ i, i < N * N → 1 / 10000 ≤ t.m_kMag i ∧ t.m_kMag i ≠ 0) ∧
      t.Fill_htilde_and_Displacements.m_kMag = t.m_kMag ∧
      t.Fill_Horizontal_Displacement.m_kMag = t.m_kMag ∧
      (∀ v : v3 F, v3.Normalize M v =
        ⟨v.x / v3.Length M v, v.y / v3.Length M v, v.z / v3.Length M v⟩) ∧
      (∀ d : F, 2 ≤ v3.Length M ⟨2, 0, d⟩ ∧ 2 ≤ v3.Length M ⟨0, 2, d⟩) ∧
      (∀ j i, j < N → i < N →
        t.cellIndex j i = j * N + i ∧ t.cellIndex j i < N * N ∧
        t.cellIndex j (t.xNext i) = j * N + t.xNext i ∧ t.cellIndex j (t.xNext i) < N * N ∧
        t.cellIndex (t.zNext j) i = t.zNext j * N + i ∧
        t.cellIndex (t.zNext j) i < N * N) := by
    intro t hwt hht hkt
    refine ⟨fun i hi => ?_, ?_, ?_, fun v => rfl, fun d => ⟨?_, ?_⟩, fun j i hj hi => ?_⟩
    · have h := (Fill_K_Vectors_cell_values M s N i hw hh hN32 hi).2.2
      rw [hkt]
      exact ⟨h, ne_of_gt (lt_of_lt_of_le (by norm_num) h)⟩
    · rw [Fill_htilde_and_Displacements_eq t N hwt hht hN32]
    · simp only [FFTWrapper.Fill_Horizontal_Displacement, Fill_Horizontal_Displacement_loop]
    · apply hsqrt
      show (4 : F) ≤ 2 * 2 + 0 * 0 + d * d
      nlinarith [mul_self_nonneg d]
    · apply hsqrt
      show (4 : F) ≤ 0 * 0 + 2 * 2 + d * d
      nlinarith [mul_self_nonneg d]
    · have hx : t.xNext i < N := by
        rw [xNext_eq_mod t N i hwt hi]
        exact Nat.mod_lt _ (by omega)
      have hz : t.zNext j < N := by
        rw [zNext_eq_mod t N j hht hj]
        exact Nat.mod_lt _ (by omega)
      rw [cellIndex_eq t N j i hht hN32 hj hi, cellIndex_eq t N j _ hht hN32 hj hx,
        cellIndex_eq t N _ i hht hN32 hz hi]
      exact ⟨rfl, cell_index_lt hj hi, rfl, cell_index_lt hj hx, rfl, cell_index_lt hz hi⟩
  cases cpu with
  | false =>
    exact ⟨_, rfl, hw2, hh2, main _ hw2 hh2 hk2⟩
  | true =>
    obtain ⟨s0, hrun, hw0, hh0, hk0, -⟩ :=
      Precalculate_Sinusoids_spec M fuel ((s.Fill_K_Vectors M).Fill_h0tilde M dist) N hw2 hh2
        hN32 (fun i hi => by rw [hk2]; exact hfuel rfl i hi)
    exact ⟨s0, hrun, hw0, hh0, main s0 hw0 hh0 (hk0.trans hk2)⟩

/-- Witness of C20 over the reals: the 2 by 2 grid with the presets of the header, the sample
sequence `0, 1, 2, ...`, fuel `4201`, sinusoids precalculated. -/
theorem per_tick_totality_witness :
    ∃ t, (FFTWrapper.blank 2 : FFTWrapper ℝ).Generate_Heightmap realLib (fun k => (k : ℝ)) 4201
        true = some t ∧
      t.m_kMag 1 ≠ 0 ∧ t.cellIndex (t.zNext 1) 1 < 2 * 2 :=
  let ⟨t, h1, _, _, h2, _, _, _, _, h3⟩ := per_tick_totality realLib (fun k => (k : ℝ)) 4201 true
    (FFTWrapper.blank 2 : FFTWrapper ℝ) 2 rfl rfl (by norm_num)
    (fun _ => real_grid_fuel (FFTWrapper.blank 2) 2 rfl rfl (by norm_num))
    (fun x hx => Real.le_sqrt_of_sq_le (by norm_num; exact hx))
  ⟨t, h1, (h2 1 (by norm_num)).2, (h3 1 1 (by norm_num) (by norm_num)).2.2.2.2.2⟩

/-- C23. Determinism of spectrum generation: `Fill_h0tilde` run with the same sample sequence
(the sequence the seeded generator returns) on two objects that have the same grid size, the
same wavevectors and magnitudes on the grid and the same spectrum presets stores the same
`h0` and `h0conj` in every cell of the grid. -/
theorem Fill_h0tilde_deterministic (M : CLib F) (dist : Nat → F) (s1 s2 : FFTWrapper F)
    (N : Nat) (hw1 : s1.m_width = N) (hh1 : s1.m_height = N) (hw2 : s2.m_width = N)
    (hh2 : s2.m_height = N) (hN : N * N < 2 ^ 32)
    (hgrid : ∀ n, n < N * N → s1.m_kVectors n = s2.m_kVectors n ∧ s1.m_kMag n = s2.m_kMag n)
    (hwind : s1.m_windNormal = s2.m_windNormal) (hspeed : s1.m_windSpeed = s2.m_windSpeed)
    (hamp : s1.m_amplitude = s2.m_amplitude) :
    ∀ n, n < N * N →
      (s1.Fill_h0tilde M dist).m_h0tilde n = (s2.Fill_h0tilde M dist).m_h0tilde n ∧
      (s1.Fill_h0tilde M dist).m_h0tildeConj n = (s2.Fill_h0tilde M dist).m_h0tildeConj n := by
  intro n hn
  rw [Fill_h0tilde_eq M dist s1 N hw1 hh1 hN, Fill_h0tilde_eq M dist s2 N hw2 hh2 hN]
  simp only [if_pos hn, (hgrid n hn).1, (hgrid n hn).2,
    Philips_Spectrum_congr M s1 s2 _ _ hwind hspeed hamp, and_self]

/-- Witness of C23 over the reals: the 2 by 2 grid filled by `Fill_K_Vectors`, once with empty
buffers and once with the buffers of the sample grid. -/
theorem Fill_h0tilde_deterministic_witness :
    (((FFTWrapper.blank 2 : FFTWrapper ℝ).Fill_K_Vectors realLib).Fill_h0tilde realLib
        (fun k => (k : ℝ))).m_h0tilde 1 =
      ({ (FFTWrapper.blank 2 : FFTWrapper ℝ).Fill_K_Vectors realLib with
          pImageOut := fun idx => (idx : ℝ) }.Fill_h0tilde realLib (fun k => (k : ℝ))).m_h0tilde 1 :=
  (Fill_h0tilde_deterministic realLib (fun k => (k : ℝ))
    ((FFTWrapper.blank 2 : FFTWrapper ℝ).Fill_K_Vectors realLib)
    { (FFTWrapper.blank 2 : FFTWrapper ℝ).Fill_K_Vectors realLib with
      pImageOut := fun idx => (idx : ℝ) } 2
    (Fill_K_Vectors_width realLib _) (Fill_K_Vectors_height realLib _)
    (Fill_K_Vectors_width realLib _) (Fill_K_Vectors_height realLib _) (by norm_num)
    (fun _ _ => ⟨rfl, rfl⟩) rfl rfl rfl 1 (by norm_num)).1

/-- C24. Jacobian entries: in both normal routines, for every cell `(i, j)`, with `Dx`, `Dz`
the real parts of the transformed X- and Z-displacement fields and neighbours wrapping,
`Jxx = 1 + choppy * s * (Dx[i,j] - Dx[i+1,j])`, `Jxy = choppy * s * (Dz[i,j] - Dz[i+1,j])`,
`Jyy = 1 + choppy * s * (Dz[i,j] - Dz[i,j+1])`, `Jyx = choppy * s * (Dx[i,j] - Dx[i,j+1])`,
where `s = (1 + foamInt) / N` when `foamInt ≠ 0` and `s = 0` when `foamInt = 0`; the foam
channel of both routines tests the determinant `Jxx * Jyy - Jxy * Jyx`. -/
theorem jacobian_entries_formula (M : CLib F) (choppy heightAdj foamInt : F) (s : FFTWrapper F)
    (N i j : Nat) (hw : s.m_width = N) (hh : s.m_height = N) (hN : 4 * (N * N) < 2 ^ 31)
    (hi : i < N) (hj : j < N) :
    s.foamIntensity foamInt = (if foamInt = 0 then 0 else (1 + foamInt) / (N : F)) ∧
    s.Jxx choppy (s.foamIntensity foamInt) j i =
      1 + choppy * (if foamInt = 0 then 0 else (1 + foamInt) / (N : F)) *
        (s.m_FFTout 1 (j * N + i) 0 - s.m_FFTout 1 (j * N + (i + 1) % N) 0) ∧
    s.Jxy choppy (s.foamIntensity foamInt) j i =
      choppy * (if foamInt = 0 then 0 else (1 + foamInt) / (N : F)) *
        (s.m_FFTout 2 (j * N + i) 0 - s.m_FFTout 2 (j * N + (i + 1) % N) 0) ∧
    s.Jyy choppy (s.foamIntensity foamInt) j i =
      1 + choppy * (if foamInt = 0 then 0 else (1 + foamInt) / (N : F)) *
        (s.m_FFTout 2 (j * N + i) 0 - s.m_FFTout 2 ((j + 1) % N * N + i) 0) ∧
    s.Jyx choppy (s.foamIntensity foamInt) j i =
      choppy * (if foamInt = 0 then 0 else (1 + foamInt) / (N : F)) *
        (s.m_FFTout 1 (j * N + i) 0 - s.m_FFTout 1 ((j + 1) % N * N + i) 0) ∧
    (s.Fill_Normals_Central_Diff M choppy heightAdj foamInt).pNormalOut (4 * (j * N + i) + 3) =
      (if s.Jxx choppy (s.foamIntensity foamInt) j i * s.Jyy choppy (s.foamIntensity foamInt) j i -
          s.Jxy choppy (s.foamIntensity foamInt) j i * s.Jyx choppy (s.foamIntensity foamInt) j i
          < 0 then 1 else 0) ∧
    (s.Fill_Normals_FFT M choppy foamInt).pNormalOut (4 * (j * N + i) + 3) =
      (if s.Jxx choppy (s.foamIntensity foamInt) j i * s.Jyy choppy (s.foamIntensity foamInt) j i -
          s.Jxy choppy (s.foamIntensity foamInt) j i * s.Jyx choppy (s.foamIntensity foamInt) j i
          < 0 then 1 else 0) := by
  have hN' : N * N < 2 ^ 32 := by omega
  have hlt : j * N + i < N * N := cell_index_lt hj hi
  obtain ⟨d, m⟩ := index_row_col (N := N) (i := i) (j := j) hi
  obtain ⟨jxx, jxy, jyy, jyx⟩ :=
    jacobian_entries s choppy (s.foamIntensity foamInt) N i j hw hh hN' hi hj
  have he := foamIntensity_eq s foamInt N hh
  refine ⟨he, ?_, ?_, ?_, ?_, ?_, ?_⟩
  · rw [jxx, he]; ring
  · rw [jxy, he]; ring
  · rw [jyy, he]; ring
  · rw [jyx, he]; ring
  · rw [Fill_Normals_Central_Diff_channel M choppy heightAdj foamInt s N i j 3 hw hh (by omega)
      hi hj (by norm_num)]
    simp [FFTWrapper.cdTexel, FFTWrapper.foam]
  · rw [Fill_Normals_FFT_foam M choppy foamInt s N (j * N + i) hw hh (by omega) hlt, d, m]
    rfl

/-- Witness of C24 on the 2 by 2 sample grid over the reals, cell `(1, 1)`. -/
theorem jacobian_entries_formula_witness :
    (FFTWrapper.sample 2 : FFTWrapper ℝ).Jxx 2 ((FFTWrapper.sample 2 : FFTWrapper ℝ).foamIntensity 3)
        1 1 =
      1 + 2 * (if (3 : ℝ) = 0 then 0 else (1 + 3) / ((2 : Nat) : ℝ)) *
        ((FFTWrapper.sample 2 : FFTWrapper ℝ).m_FFTout 1 (1 * 2 + 1) 0 -
          (FFTWrapper.sample 2 : FFTWrapper ℝ).m_FFTout 1 (1 * 2 + (1 + 1) % 2) 0) :=
  (jacobian_entries_formula realLib 2 5 3 (FFTWrapper.sample 2 : FFTWrapper ℝ) 2 1 1 rfl rfl
    (by norm_num) (by norm_num) (by norm_num)).2.1

/-- C30. Foam switches off: if `foamInt = 0` or `choppy = 0`, then for every displacement
field and every cell the Jacobian determinant is exactly `1`, and both
`Fill_Normals_Central_Diff` and `Fill_Normals_FFT` write foam mask `0` in the cell. -/
theorem foam_switches_off (M : CLib F) (choppy heightAdj foamInt : F) (s : FFTWrapper F)
    (N i j : Nat) (hw : s.m_width = N) (hh : s.m_height = N) (hN : 4 * (N * N) < 2 ^ 31)
    (hi : i < N) (hj : j < N) (hoff : foamInt = 0 ∨ choppy = 0) :
    s.Jxx choppy (s.foamIntensity foamInt) j i * s.Jyy choppy (s.foamIntensity foamInt) j i -
        s.Jxy choppy (s.foamIntensity foamInt) j i * s.Jyx choppy (s.foamIntensity foamInt) j i =
      1 ∧
    (s.Fill_Normals_Central_Diff M choppy heightAdj foamInt).pNormalOut (4 * (j * N + i) + 3) =
      0 ∧
    (s.Fill_Normals_FFT M choppy foamInt).pNormalOut (4 * (j * N + i) + 3) = 0 := by
  have hlt : j * N + i < N * N := cell_index_lt hj hi
  obtain ⟨d, m⟩ := index_row_col (N := N) (i := i) (j := j) hi
  have hdet : s.Jxx choppy (s.foamIntensity foamInt) j i *
        s.Jyy choppy (s.foamIntensity foamInt) j i -
      s.Jxy choppy (s.foamIntensity foamInt) j i * s.Jyx choppy (s.foamIntensity foamInt) j i =
        1 := by
    rcases hoff with h | h
    · have he : s.foamIntensity foamInt = 0 := by simp [FFTWrapper.foamIntensity, h]
      simp [FFTWrapper.Jxx, FFTWrapper.Jxy, FFTWrapper.Jyy, FFTWrapper.Jyx, he]
    · simp [FFTWrapper.Jxx, FFTWrapper.Jxy, FFTWrapper.Jyy, FFTWrapper.Jyx, h]
  have hfoam : s.foam choppy (s.foamIntensity foamInt) j i = 0 := by
    unfold FFTWrapper.foam
    rw [hdet, if_neg (by norm_num)]
  refine ⟨hdet, ?_, ?_⟩
  · rw [Fill_Normals_Central_Diff_channel M choppy heightAdj foamInt s N i j 3 hw hh (by omega)
      hi hj (by norm_num)]
    simpa [FFTWrapper.cdTexel] using hfoam
  · rw [Fill_Normals_FFT_foam M choppy foamInt s N (j * N + i) hw hh (by omega) hlt, d, m]
    exact hfoam

/-- Witness of C30 on the 2 by 2 sample grid over the reals with `foamInt = 0`, cell
`(1, 0)`. -/
theorem foam_switches_off_witness :
    ((FFTWrapper.sample 2 : FFTWrapper ℝ).Fill_Normals_Central_Diff realLib 2 5 0).pNormalOut
        (4 * (0 * 2 + 1) + 3) = 0 ∧
      ((FFTWrapper.sample 2 : FFTWrapper ℝ).Fill_Normals_FFT realLib 2 0).pNormalOut
        (4 * (0 * 2 + 1) + 3) = 0 :=
  (foam_switches_off realLib 2 5 0 (FFTWrapper.sample 2 : FFTWrapper ℝ) 2 1 0 rfl rfl
    (by norm_num) (by norm_num) (by norm_num) (Or.inl rfl)).2

/-- C25. The two ways of filling the displacement spectra agree: for every cell,
`Fill_Horizontal_Displacement` writes `(kx * Im h / |k|, -kx * Re h / |k|)` and
`(kz * Im h / |k|, -kz * Re h / |k|)` from the height spectrum `h` it finds and leaves the
height spectrum unchanged; the spectra `Fill_htilde_and_Displacements` writes are the same
function of the height spectrum it writes, so that `Fill_Horizontal_Displacement` run on its
output changes nothing. -/
theorem displacement_fills_agree (s : FFTWrapper F) (N n : Nat)
    (hw : s.m_width = N) (hh : s.m_height = N) (hN : N * N < 2 ^ 32) (hn : n < N * N) :
    s.Fill_Horizontal_Displacement.m_FFTin 1 n 0 =
      (s.m_kVectors n).x * s.m_FFTin 0 n 1 / s.m_kMag n ∧
    s.Fill_Horizontal_Displacement.m_FFTin 1 n 1 =
      -(s.m_kVectors n).x * s.m_FFTin 0 n 0 / s.m_kMag n ∧
    s.Fill_Horizontal_Displacement.m_FFTin 2 n 0 =
      (s.m_kVectors n).y * s.m_FFTin 0 n 1 / s.m_kMag n ∧
    s.Fill_Horizontal_Displacement.m_FFTin 2 n 1 =
      -(s.m_kVectors n).y * s.m_FFTin 0 n 0 / s.m_kMag n ∧
    s.Fill_Horizontal_Displacement.m_FFTin 0 = s.m_FFTin 0 ∧
    s.Fill_htilde_and_Displacements.m_FFTin 1 n 0 =
      (s.m_kVectors n).x * s.Fill_htilde_and_Displacements.m_FFTin 0 n 1 / s.m_kMag n ∧
    s.Fill_htilde_and_Displacements.m_FFTin 1 n 1 =
      -(s.m_kVectors n).x * s.Fill_htilde_and_Displacements.m_FFTin 0 n 0 / s.m_kMag n ∧
    s.Fill_htilde_and_Displacements.m_FFTin 2 n 0 =
      (s.m_kVectors n).y * s.Fill_htilde_and_Displacements.m_FFTin 0 n 1 / s.m_kMag n ∧
    s.Fill_htilde_and_Displacements.m_FFTin 2 n 1 =
      -(s.m_kVectors n).y * s.Fill_htilde_and_Displacements.m_FFTin 0 n 0 / s.m_kMag n ∧
    (∀ b c, s.Fill_htilde_and_Displacements.Fill_Horizontal_Displacement.m_FFTin b n c =
      s.Fill_htilde_and_Displacements.m_FFTin b n c) := by
  have e1 := Fill_htilde_and_Displacements_eq s N hw hh hN
  have hw1 : s.Fill_htilde_and_Displacements.m_width = N := by rw [e1]; exact hw
  have hh1 : s.Fill_htilde_and_Displacements.m_height = N := by rw [e1]; exact hh
  have hkv : s.Fill_htilde_and_Displacements.m_kVectors = s.m_kVectors := by rw [e1]
  have hkm : s.Fill_htilde_and_Displacements.m_kMag = s.m_kMag := by rw [e1]
  have t10 : s.Fill_htilde_and_Displacements.m_FFTin 1 n 0 =
      (s.m_kVectors n).x * s.Fill_htilde_and_Displacements.m_FFTin 0 n 1 / s.m_kMag n := by
    rw [e1]
    simp only [if_pos hn, cellFFTin, wr3_apply, FFTWrapper.dispX, multComplex]
    norm_num
    ring
  have t11 : s.Fill_htilde_and_Displacements.m_FFTin 1 n 1 =
      -(s.m_kVectors n).x * s.Fill_htilde_and_Displacements.m_FFTin 0 n 0 / s.m_kMag n := by
    rw [e1]
    simp only [if_pos hn, cellFFTin, wr3_apply, FFTWrapper.dispX, multComplex]
    norm_num
    ring
  have t20 : s.Fill_htilde_and_Displacements.m_FFTin 2 n 0 =
      (s.m_kVectors n).y * s.Fill_htilde_and_Displacements.m_FFTin 0 n 1 / s.m_kMag n := by
    rw [e1]
    simp only [if_pos hn, cellFFTin, wr3_apply, FFTWrapper.dispZ, multComplex]
    norm_num
    ring
  have t21 : s.Fill_htilde_and_Displacements.m_FFTin 2 n 1 =
      -(s.m_kVectors n).y * s.Fill_htilde_and_Displacements.m_FFTin 0 n 0 / s.m_kMag n := by
    rw [e1]
    simp only [if_pos hn, cellFFTin, wr3_apply, FFTWrapper.dispZ, multComplex]
    norm_num
    ring
  have hd : ∀ (u : FFTWrapper F), u.m_width = N → u.m_height = N →
      u.Fill_Horizontal_Displacement.m_FFTin 1 n 0 =
        (u.m_kVectors n).x * u.m_FFTin 0 n 1 / u.m_kMag n ∧
      u.Fill_Horizontal_Displacement.m_FFTin 1 n 1 =
        -(u.m_kVectors n).x * u.m_FFTin 0 n 0 / u.m_kMag n ∧
      u.Fill_Horizontal_Displacement.m_FFTin 2 n 0 =
        (u.m_kVectors n).y * u.m_FFTin 0 n 1 / u.m_kMag n ∧
      u.Fill_Horizontal_Displacement.m_FFTin 2 n 1 =
        -(u.m_kVectors n).y * u.m_FFTin 0 n 0 / u.m_kMag n ∧
      u.Fill_Horizontal_Displacement.m_FFTin 0 = u.m_FFTin 0 ∧
      (∀ b c, ¬ ((b = 1 ∨ b = 2) ∧ (c = 0 ∨ c = 1)) →
        u.Fill_Horizontal_Displacement.m_FFTin b n c = u.m_FFTin b n c) := by
    intro u hwu hhu
    rw [Fill_Horizontal_Displacement_eq u N hwu hhu hN]
    simp only [if_pos hn, FFTWrapper.hdispFFTin, wr3_apply]
    refine ⟨?_, ?_, ?_, ?_, ?_, ?_⟩
    · norm_num
      ring
    · norm_num
      ring
    · norm_num
      ring
    · norm_num
      ring
    · funext m c
      by_cases hm : m < N * N <;> simp [hm]
    · intro b c hbc
      have h1 : ¬ (b = 2 ∧ c = 1) := fun h => hbc ⟨Or.inr h.1, Or.inr h.2⟩
      have h2 : ¬ (b = 2 ∧ c = 0) := fun h => hbc ⟨Or.inr h.1, Or.inl h.2⟩
      have h3 : ¬ (b = 1 ∧ c = 1) := fun h => hbc ⟨Or.inl h.1, Or.inr h.2⟩
      have h4 : ¬ (b = 1 ∧ c = 0) := fun h => hbc ⟨Or.inl h.1, Or.inl h.2⟩
      simp only [true_and, h1, h2, h3, h4, if_false]
  obtain ⟨a10, a11, a20, a21, a0, -⟩ := hd s hw hh
  obtain ⟨b10, b11, b20, b21, -, bo⟩ := hd s.Fill_htilde_and_Displacements hw1 hh1
  rw [hkv, hkm] at b10 b11 b20 b21
  refine ⟨a10, a11, a20, a21, a0, t10, t11, t20, t21, fun b c => ?_⟩
  by_cases hbc : (b = 1 ∨ b = 2) ∧ (c = 0 ∨ c = 1)
  · rcases hbc with ⟨hb | hb, hc | hc⟩ <;> subst hb <;> subst hc
    · rw [b10, ← t10]
    · rw [b11, ← t11]
    · rw [b20, ← t20]
    · rw [b21, ← t21]
  · exact bo b c hbc

/-- Witness of C25 on the one-cell wrapper `sampleCell`: the X-displacement spectrum that
`Fill_Horizontal_Displacement` recomputes from the output of `Fill_htilde_and_Displacements`
is the one already there. -/
theorem displacement_fills_agree_witness :
    sampleCell.Fill_htilde_and_Displacements.Fill_Horizontal_Displacement.m_FFTin 1 0 0 =
      sampleCell.Fill_htilde_and_Displacements.m_FFTin 1 0 0 :=
  (displacement_fills_agree sampleCell 1 0 rfl rfl (by norm_num) (by norm_num)).2.2.2.2.2.2.2.2.2
    1 0

/-- C29. `Fill_Normals_FFT` output and side effects: for every cell it writes the normal
channels `(Re gx, 2500, Re gz)`, where `gx` and `gz` are the transforms of the spectra
`i * kx * h` and `i * kz * h` it stores in the second and third spectral buffers; the height
spectrum, the transformed height field and the height buffer are unchanged, while the
displacement spectra and the transformed displacement fields are overwritten by the gradient
data. -/
theorem Fill_Normals_FFT_effects (M : CLib F) (choppy foamInt : F) (s : FFTWrapper F)
    (N n : Nat) (hw : s.m_width = N) (hh : s.m_height = N) (hN : 4 * (N * N) < 2 ^ 31)
    (hn : n < N * N) :
    (s.Fill_Normals_FFT M choppy foamInt).pNormalOut (4 * n + 0) =
      (s.Fill_Normals_FFT M choppy foamInt).m_FFTout 1 n 0 ∧
    (s.Fill_Normals_FFT M choppy foamInt).pNormalOut (4 * n + 1) = 2500 ∧
    (s.Fill_Normals_FFT M choppy foamInt).pNormalOut (4 * n + 2) =
      (s.Fill_Normals_FFT M choppy foamInt).m_FFTout 2 n 0 ∧
    (s.Fill_Normals_FFT M choppy foamInt).m_FFTout 1 =
      M.fftwf_execute N N ((s.Fill_Normals_FFT M choppy foamInt).m_FFTin 1) ∧
    (s.Fill_Normals_FFT M choppy foamInt).m_FFTout 2 =
      M.fftwf_execute N N ((s.Fill_Normals_FFT M choppy foamInt).m_FFTin 2) ∧
    (⟨(s.Fill_Normals_FFT M choppy foamInt).m_FFTin 1 n 0,
      (s.Fill_Normals_FFT M choppy foamInt).m_FFTin 1 n 1⟩ : Vec2 F) =
      multComplex ⟨0, (s.m_kVectors n).x⟩ ⟨s.m_FFTin 0 n 0, s.m_FFTin 0 n 1⟩ ∧
    (⟨(s.Fill_Normals_FFT M choppy foamInt).m_FFTin 2 n 0,
      (s.Fill_Normals_FFT M choppy foamInt).m_FFTin 2 n 1⟩ : Vec2 F) =
      multComplex ⟨0, (s.m_kVectors n).y⟩ ⟨s.m_FFTin 0 n 0, s.m_FFTin 0 n 1⟩ ∧
    (s.Fill_Normals_FFT M choppy foamInt).m_FFTin 0 = s.m_FFTin 0 ∧
    (s.Fill_Normals_FFT M choppy foamInt).m_FFTout 0 = s.m_FFTout 0 ∧
    (s.Fill_Normals_FFT M choppy foamInt).pImageOut = s.pImageOut := by
  have l0 : 4 * n + 0 < 4 * (N * N) ∧ (4 * n + 0) % 4 ≠ 3 := by omega
  have l1 : 4 * n + 1 < 4 * (N * N) ∧ (4 * n + 1) % 4 ≠ 3 := by omega
  have l2 : 4 * n + 2 < 4 * (N * N) ∧ (4 * n + 2) % 4 ≠ 3 := by omega
  have m0 : (4 * n + 0) % 4 = 0 := by omega
  have m1 : (4 * n + 1) % 4 = 1 := by omega
  have m2 : (4 * n + 2) % 4 = 2 := by omega
  have d0 : (4 * n + 0) / 4 = n := by omega
  have d2 : (4 * n + 2) / 4 = n := by omega
  rw [Fill_Normals_FFT_eq M choppy foamInt s N hw hh (by omega)]
  simp only [if_pos l0, if_pos l1, if_pos l2, m0, m1, m2, d0, d2, if_pos hn,
    FFTWrapper.gradFFTin, wr3_apply, multComplex, Vec2.mk.injEq]
  refine ⟨?_, ?_, ?_, ?_, ?_, ?_, ?_, ?_, ?_, ?_⟩
  · norm_num
    intro h
    omega
  · norm_num
    intro h
    omega
  · norm_num
    intro h
    omega
  · norm_num
  · norm_num
  · norm_num
  · norm_num
  · funext m c
    by_cases hm : m < N * N <;> simp [hm]
  · norm_num
  · trivial

/-- Witness of C29 on the 2 by 2 sample grid over the reals, cell `3`: the up channel. -/
theorem Fill_Normals_FFT_effects_witness :
    ((FFTWrapper.sample 2 : FFTWrapper ℝ).Fill_Normals_FFT realLib 2 3).pNormalOut (4 * 3 + 1) =
      2500 :=
  (Fill_Normals_FFT_effects realLib 2 3 (FFTWrapper.sample 2 : FFTWrapper ℝ) 2 3 rfl rfl
    (by norm_num) (by norm_num)).2.1

/-- C27. Cells whose wavevector is orthogonal to the wind carry no energy: with the wind
direction `(1, 0)`, for every cell of column `0` (linear index `j * N`) the wavevector stored
by `Fill_K_Vectors` has `kx = 0`, `Philips_Spectrum` returns `0` there, `Fill_h0tilde` stores
`h0 = h0conj = (0, 0)` whatever the samples are (for a square root with `sqrt 0 = 0`), and
after any number `k + 1` of calls of `Fill_htilde_and_Displacements`, whatever the caches and
read indices, the height and displacement spectra of the cell are zero. -/
theorem crosswind_cells_zero (M : CLib F) (dist : Nat → F) (s : FFTWrapper F) (N j : Nat)
    (hw : s.m_width = N) (hh : s.m_height = N) (hN : N * N < 2 ^ 32) (hj : j < N)
    (hwind : s.m_windNormal = ⟨1, 0⟩) (hsqrt : M.sqrt 0 = 0) :
    ((s.Fill_K_Vectors M).m_kVectors (j * N)).x = 0 ∧
    (s.Fill_K_Vectors M).Philips_Spectrum M ((s.Fill_K_Vectors M).m_kVectors (j * N))
      ((s.Fill_K_Vectors M).m_kMag (j * N)) = 0 ∧
    ((s.Fill_K_Vectors M).Fill_h0tilde M dist).m_h0tilde (j * N) = ⟨0, 0⟩ ∧
    ((s.Fill_K_Vectors M).Fill_h0tilde M dist).m_h0tildeConj (j * N) = ⟨0, 0⟩ ∧
    ∀ (cl sl : Nat → Int) (cp sp : Nat → List F) (k b c : Nat), b < 3 → c < 2 →
      ((FFTWrapper.Fill_htilde_and_Displacements^[k + 1])
        { (s.Fill_K_Vectors M).Fill_h0tilde M dist with
          m_cosLookup := cl, m_sinLookup := sl, m_cosPrecalc := cp, m_sinPrecalc := sp }).m_FFTin
        b (j * N) c = 0 := by
  have hN0 : 0 < N := by omega
  have hn : j * N < N * N := Nat.mul_lt_mul_of_pos_right hj hN0
  have hw1 : (s.Fill_K_Vectors M).m_width = N := (Fill_K_Vectors_width M s).trans hw
  have hh1 : (s.Fill_K_Vectors M).m_height = N := (Fill_K_Vectors_height M s).trans hh
  have hx : ((s.Fill_K_Vectors M).m_kVectors (j * N)).x = 0 := by
    rw [(Fill_K_Vectors_cell_values M s N (j * N) hw hh hN hn).1]
    simp
  have hP : (s.Fill_K_Vectors M).Philips_Spectrum M ((s.Fill_K_Vectors M).m_kVectors (j * N))
      ((s.Fill_K_Vectors M).m_kMag (j * N)) = 0 := by
    rw [Philips_Spectrum_frame]
    simp only [FFTWrapper.Philips_Spectrum, hwind, dot, normal, hx, sqr]
    simp
  have e2 := Fill_h0tilde_eq M dist (s.Fill_K_Vectors M) N hw1 hh1 hN
  have h0 : ((s.Fill_K_Vectors M).Fill_h0tilde M dist).m_h0tilde (j * N) = ⟨0, 0⟩ := by
    rw [e2]
    simp only [if_pos hn, hP, hsqrt, zero_mul, mul_zero]
  have h0c : ((s.Fill_K_Vectors M).Fill_h0tilde M dist).m_h0tildeConj (j * N) = ⟨0, 0⟩ := by
    rw [e2]
    simp only [if_pos hn, hP, hsqrt, zero_mul, mul_zero]
  refine ⟨hx, hP, h0, h0c, fun cl sl cp sp k b c hb hc => ?_⟩
  have hwu : ({ (s.Fill_K_Vectors M).Fill_h0tilde M dist with
      m_cosLookup := cl, m_sinLookup := sl, m_cosPrecalc := cp, m_sinPrecalc := sp } :
        FFTWrapper F).m_width = N := by
    show ((s.Fill_K_Vectors M).Fill_h0tilde M dist).m_width = N
    rw [e2]; exact hw1
  have hhu : ({ (s.Fill_K_Vectors M).Fill_h0tilde M dist with
      m_cosLookup := cl, m_sinLookup := sl, m_cosPrecalc := cp, m_sinPrecalc := sp } :
        FFTWrapper F).m_height = N := by
    show ((s.Fill_K_Vectors M).Fill_h0tilde M dist).m_height = N
    rw [e2]; exact hh1
  obtain ⟨hwk, hhk, hak, hbk, -, -⟩ := Fill_htilde_iterate_fields _ N hwu hhu hN k
  rw [Function.iterate_succ_apply']
  refine Fill_htilde_zero_cell _ N (j * N) hwk hhk hN hn ?_ ?_ b c hb hc
  · rw [hak]; exact h0
  · rw [hbk]; exact h0c

/-- Witness of C27 over the reals: column `0` of row `1` of the 2 by 2 grid with the presets of
the header and the sample sequence `1, 2, 3, ...`. -/
theorem crosswind_cells_zero_witness :
    (((FFTWrapper.blank 2 : FFTWrapper ℝ).Fill_K_Vectors realLib).Fill_h0tilde realLib
        (fun k => (k : ℝ) + 1)).m_h0tilde (1 * 2) = ⟨0, 0⟩ ∧
      (((FFTWrapper.blank 2 : FFTWrapper ℝ).Fill_K_Vectors realLib).Fill_h0tilde realLib
        (fun k => (k : ℝ) + 1)).m_h0tildeConj (1 * 2) = ⟨0, 0⟩ :=
  have h := crosswind_cells_zero realLib (fun k => (k : ℝ) + 1)
    (FFTWrapper.blank 2 : FFTWrapper ℝ) 2 1 rfl rfl (by norm_num) (by norm_num) rfl
    Real.sqrt_zero
  ⟨h.2.2.1, h.2.2.2.1⟩

/-- C26. The central-difference normal is generally not a unit vector: for every cell, with
`d1` and `d2` the two scaled height differences, the squared length of the normal written by
`Fill_Normals_Central_Diff` is `1 - (d1 * d2)^2 / ((4 + d1^2) * (4 + d2^2))`; it is `≤ 1`, with
equality if and only if `d1 = 0` or `d2 = 0`, and its up channel (second channel) is
`4 / sqrt ((4 + d1^2) * (4 + d2^2))`, strictly positive (for a square root that squares back,
is positive on positive numbers and is multiplicative). -/
theorem central_diff_normal_length (M : CLib F) (choppy heightAdj foamInt : F)
    (s : FFTWrapper F) (N i j : Nat) (d1 d2 : F) (hw : s.m_width = N) (hh : s.m_height = N)
    (hN : 4 * (N * N) < 2 ^ 31) (hi : i < N) (hj : j < N)
    (hd1 : d1 = heightAdj *
      (s.pImageOut (4 * (j * N + (i + 1) % N) + 1) - s.pImageOut (4 * (j * N + i) + 1)))
    (hd2 : d2 = heightAdj *
      (s.pImageOut (4 * ((j + 1) % N * N + i) + 1) - s.pImageOut (4 * (j * N + i) + 1)))
    (hsq : ∀ x, 0 ≤ x → M.sqrt x * M.sqrt x = x) (hpos : ∀ x, 0 < x → 0 < M.sqrt x)
    (hmul : ∀ x y, 0 ≤ x → 0 ≤ y → M.sqrt (x * y) = M.sqrt x * M.sqrt y) :
    (s.Fill_Normals_Central_Diff M choppy heightAdj foamInt).pNormalOut (4 * (j * N + i) + 0) *
        (s.Fill_Normals_Central_Diff M choppy heightAdj foamInt).pNormalOut
          (4 * (j * N + i) + 0) +
      (s.Fill_Normals_Central_Diff M choppy heightAdj foamInt).pNormalOut (4 * (j * N + i) + 1) *
        (s.Fill_Normals_Central_Diff M choppy heightAdj foamInt).pNormalOut
          (4 * (j * N + i) + 1) +
      (s.Fill_Normals_Central_Diff M choppy heightAdj foamInt).pNormalOut (4 * (j * N + i) + 2) *
        (s.Fill_Normals_Central_Diff M choppy heightAdj foamInt).pNormalOut
          (4 * (j * N + i) + 2) =
      1 - (d1 * d2) ^ 2 / ((4 + d1 ^ 2) * (4 + d2 ^ 2)) ∧
    1 - (d1 * d2) ^ 2 / ((4 + d1 ^ 2) * (4 + d2 ^ 2)) ≤ 1 ∧
    (1 - (d1 * d2) ^ 2 / ((4 + d1 ^ 2) * (4 + d2 ^ 2)) = 1 ↔ d1 = 0 ∨ d2 = 0) ∧
    (s.Fill_Normals_Central_Diff M choppy heightAdj foamInt).pNormalOut (4 * (j * N + i) + 1) =
      4 / M.sqrt ((4 + d1 ^ 2) * (4 + d2 ^ 2)) ∧
    0 < (s.Fill_Normals_Central_Diff M choppy heightAdj foamInt).pNormalOut
      (4 * (j * N + i) + 1) := by
  have hN' : N * N < 2 ^ 32 := by omega
  have hP : (0 : F) < 4 + d1 ^ 2 := by positivity
  have hQ : (0 : F) < 4 + d2 ^ 2 := by positivity
  have hPQ : (0 : F) < (4 + d1 ^ 2) * (4 + d2 ^ 2) := mul_pos hP hQ
  obtain ⟨-, -, hz, hlen⟩ := cross_normalized M d1 d2 hsq hpos
  have hnormal := cdNormal_eq M s heightAdj N i j hw hh hN' hi hj
  rw [← hd1, ← hd2] at hnormal
  have k0 := Fill_Normals_Central_Diff_channel M choppy heightAdj foamInt s N i j 0 hw hh
    (by omega) hi hj (by norm_num)
  have k1 := Fill_Normals_Central_Diff_channel M choppy heightAdj foamInt s N i j 1 hw hh
    (by omega) hi hj (by norm_num)
  have k2 := Fill_Normals_Central_Diff_channel M choppy heightAdj foamInt s N i j 2 hw hh
    (by omega) hi hj (by norm_num)
  have c0 : s.cdTexel M choppy heightAdj (s.foamIntensity foamInt) j i 0 =
      ((v3.Normalize M ⟨2, 0, d1⟩).Cross (v3.Normalize M ⟨0, 2, d2⟩)).x := by
    simp [FFTWrapper.cdTexel, hnormal]
  have c1 : s.cdTexel M choppy heightAdj (s.foamIntensity foamInt) j i 1 =
      ((v3.Normalize M ⟨2, 0, d1⟩).Cross (v3.Normalize M ⟨0, 2, d2⟩)).z := by
    simp [FFTWrapper.cdTexel, hnormal]
  have c2 : s.cdTexel M choppy heightAdj (s.foamIntensity foamInt) j i 2 =
      ((v3.Normalize M ⟨2, 0, d1⟩).Cross (v3.Normalize M ⟨0, 2, d2⟩)).y := by
    simp [FFTWrapper.cdTexel, hnormal]
  rw [k0, k1, k2, c0, c1, c2]
  have hsqq : (0 : F) ≤ (d1 * d2) ^ 2 / ((4 + d1 ^ 2) * (4 + d2 ^ 2)) :=
    div_nonneg (sq_nonneg _) hPQ.le
  refine ⟨hlen, by linarith, ?_, ?_, ?_⟩
  · constructor
    · intro h
      have h0 : (d1 * d2) ^ 2 / ((4 + d1 ^ 2) * (4 + d2 ^ 2)) = 0 := by linarith
      rcases div_eq_zero_iff.mp h0 with h1 | h1
      · exact mul_eq_zero.mp (pow_eq_zero_iff (by norm_num) |>.mp h1)
      · exact absurd h1 hPQ.ne'
    · intro h
      have h0 : d1 * d2 = 0 := mul_eq_zero.mpr h
      rw [h0]
      simp
  · rw [hz, hmul _ _ hP.le hQ.le]
  · rw [hz]
    exact div_pos (by norm_num) (mul_pos (hpos _ hP) (hpos _ hQ))

/-- Witness of C26 on the 2 by 2 sample grid over the reals, cell `(1, 1)`, with
`heightAdj = 5`: the up channel is positive. -/
theorem central_diff_normal_length_witness :
    0 < ((FFTWrapper.sample 2 : FFTWrapper ℝ).Fill_Normals_Central_Diff realLib 2 5 3).pNormalOut
      (4 * (1 * 2 + 1) + 1) :=
  (central_diff_normal_length realLib 2 5 3 (FFTWrapper.sample 2 : FFTWrapper ℝ) 2 1 1
    (5 * ((FFTWrapper.sample 2 : FFTWrapper ℝ).pImageOut (4 * (1 * 2 + (1 + 1) % 2) + 1) -
      (FFTWrapper.sample 2 : FFTWrapper ℝ).pImageOut (4 * (1 * 2 + 1) + 1)))
    (5 * ((FFTWrapper.sample 2 : FFTWrapper ℝ).pImageOut (4 * ((1 + 1) % 2 * 2 + 1) + 1) -
      (FFTWrapper.sample 2 : FFTWrapper ℝ).pImageOut (4 * (1 * 2 + 1) + 1)))
    rfl rfl (by norm_num) (by norm_num) (by norm_num) rfl rfl
    (fun _ hx => Real.mul_self_sqrt hx) (fun _ hx => Real.sqrt_pos.mpr hx)
    (fun x y hx _ => Real.sqrt_mul hx y)).2.2.2.2

/-- C28. Tileability as shift-equivariance: for every `N` and every offset `(a, b)`, if the
height channel of the height buffer and the real parts of the two transformed displacement
fields of `s2` are those of `s1` cyclically shifted by `(a, b)` modulo `N`, then the
normal/foam buffer `Fill_Normals_Central_Diff` writes for `s2` is the same cyclic shift of the
buffer it writes for `s1`, in every cell and channel. -/
theorem central_diff_shift_equivariant (M : CLib F) (choppy heightAdj foamInt : F)
    (s1 s2 : FFTWrapper F) (N a b : Nat)
    (hw1 : s1.m_width = N) (hh1 : s1.m_height = N) (hw2 : s2.m_width = N) (hh2 : s2.m_height = N)
    (hN : 4 * (N * N) < 2 ^ 31)
    (hH : ∀ i j, i < N → j < N →
      s2.pImageOut (4 * (j * N + i) + 1) =
        s1.pImageOut (4 * ((j + b) % N * N + (i + a) % N) + 1))
    (hDx : ∀ i j, i < N → j < N →
      s2.m_FFTout 1 (j * N + i) 0 = s1.m_FFTout 1 ((j + b) % N * N + (i + a) % N) 0)
    (hDz : ∀ i j, i < N → j < N →
      s2.m_FFTout 2 (j * N + i) 0 = s1.m_FFTout 2 ((j + b) % N * N + (i + a) % N) 0) :
    ∀ i j ch, i < N → j < N → ch < 4 →
      (s2.Fill_Normals_Central_Diff M choppy heightAdj foamInt).pNormalOut
          (4 * (j * N + i) + ch) =
        (s1.Fill_Normals_Central_Diff M choppy heightAdj foamInt).pNormalOut
          (4 * ((j + b) % N * N + (i + a) % N) + ch) := by
  intro i j ch hi hj hch
  have hN' : N * N < 2 ^ 32 := by omega
  have hN0 : 0 < N := by omega
  have hi' : (i + a) % N < N := Nat.mod_lt _ hN0
  have hj' : (j + b) % N < N := Nat.mod_lt _ hN0
  have hx : (i + 1) % N < N := Nat.mod_lt _ hN0
  have hz : (j + 1) % N < N := Nat.mod_lt _ hN0
  have ex : ((i + 1) % N + a) % N = ((i + a) % N + 1) % N := by
    rw [Nat.mod_add_mod, Nat.mod_add_mod, Nat.add_right_comm]
  have ez : ((j + 1) % N + b) % N = ((j + b) % N + 1) % N := by
    rw [Nat.mod_add_mod, Nat.mod_add_mod, Nat.add_right_comm]
  rw [Fill_Normals_Central_Diff_channel M choppy heightAdj foamInt s2 N i j ch hw2 hh2
      (by omega) hi hj hch,
    Fill_Normals_Central_Diff_channel M choppy heightAdj foamInt s1 N _ _ ch hw1 hh1
      (by omega) hi' hj' hch]
  have hnorm : s2.cdNormal M heightAdj j i =
      s1.cdNormal M heightAdj ((j + b) % N) ((i + a) % N) := by
    rw [cdNormal_eq M s2 heightAdj N i j hw2 hh2 hN' hi hj,
      cdNormal_eq M s1 heightAdj N _ _ hw1 hh1 hN' hi' hj',
      hH i j hi hj, hH _ j hx hj, hH i _ hi hz, ex, ez]
  have hint : s2.foamIntensity foamInt = s1.foamIntensity foamInt := by
    rw [foamIntensity_eq s2 foamInt N hh2, foamIntensity_eq s1 foamInt N hh1]
  have hfoam : s2.foam choppy (s2.foamIntensity foamInt) j i =
      s1.foam choppy (s1.foamIntensity foamInt) ((j + b) % N) ((i + a) % N) := by
    obtain ⟨a1, a2, a3, a4⟩ :=
      jacobian_entries s2 choppy (s2.foamIntensity foamInt) N i j hw2 hh2 hN' hi hj
    obtain ⟨b1, b2, b3, b4⟩ :=
      jacobian_entries s1 choppy (s1.foamIntensity foamInt) N _ _ hw1 hh1 hN' hi' hj'
    unfold FFTWrapper.foam
    rw [a1, a2, a3, a4, b1, b2, b3, b4, hint, hDx i j hi hj, hDx _ j hx hj, hDx i _ hi hz,
      hDz i j hi hj, hDz _ j hx hj, hDz i _ hi hz, ex, ez]
  rw [hint] at hfoam
  simp only [FFTWrapper.cdTexel, hnorm, hint, hfoam]

/-- Witness of C28 over the reals: the 2 by 2 sample grid and its shift by `(1, 1)`, cell
`(1, 0)`, first channel. -/
theorem central_diff_shift_equivariant_witness :
    ({ (FFTWrapper.sample 2 : FFTWrapper ℝ) with
        pImageOut := fun idx => (FFTWrapper.sample 2 : FFTWrapper ℝ).pImageOut
          (4 * ((idx / 4 / 2 + 1) % 2 * 2 + (idx / 4 % 2 + 1) % 2) + idx % 4)
        m_FFTout := fun c n r => (FFTWrapper.sample 2 : FFTWrapper ℝ).m_FFTout c
          ((n / 2 + 1) % 2 * 2 + (n % 2 + 1) % 2) r }.Fill_Normals_Central_Diff
        realLib 2 5 3).pNormalOut (4 * (0 * 2 + 1) + 0) =
      ((FFTWrapper.sample 2 : FFTWrapper ℝ).Fill_Normals_Central_Diff realLib 2 5 3).pNormalOut
        (4 * ((0 + 1) % 2 * 2 + (1 + 1) % 2) + 0) :=
  central_diff_shift_equivariant realLib 2 5 3 (FFTWrapper.sample 2 : FFTWrapper ℝ)
    { (FFTWrapper.sample 2 : FFTWrapper ℝ) with
      pImageOut := fun idx => (FFTWrapper.sample 2 : FFTWrapper ℝ).pImageOut
        (4 * ((idx / 4 / 2 + 1) % 2 * 2 + (idx / 4 % 2 + 1) % 2) + idx % 4)
      m_FFTout := fun c n r => (FFTWrapper.sample 2 : FFTWrapper ℝ).m_FFTout c
        ((n / 2 + 1) % 2 * 2 + (n % 2 + 1) % 2) r }
    2 1 1 rfl rfl rfl rfl (by norm_num)
    (fun i j hi hj => by interval_cases i <;> interval_cases j <;> rfl)
    (fun i j hi hj => by interval_cases i <;> interval_cases j <;> rfl)
    (fun i j hi hj => by interval_cases i <;> interval_cases j <;> rfl)
    1 0 0 (by norm_num) (by norm_num) (by norm_num)

/-- C21. Pause: when the pause flag is set (the value the check box leaves, tested at line
305), one call of `on_update` performs none of the simulation steps, in every configuration:
the simulation time, the simulation core (its three spectral buffers, its read indices, its
height buffer and its normal/foam buffer), the two textures and the reader buffer are identical
before and after the call. -/
theorem on_update_paused (M : CLib F) (cfg : Config) (inp : FrameInput F) (app : OceanApp F)
    (hp : inp.pause = true) :
    (app.on_update M cfg inp).m_oceanCsCBData_m_time = app.m_oceanCsCBData_m_time ∧
    (app.on_update M cfg inp).m_wrapper = app.m_wrapper ∧
    (app.on_update M cfg inp).m_wrapper.m_FFTin = app.m_wrapper.m_FFTin ∧
    (app.on_update M cfg inp).m_wrapper.m_cosLookup = app.m_wrapper.m_cosLookup ∧
    (app.on_update M cfg inp).m_wrapper.m_sinLookup = app.m_wrapper.m_sinLookup ∧
    (app.on_update M cfg inp).m_wrapper.pImageOut = app.m_wrapper.pImageOut ∧
    (app.on_update M cfg inp).m_wrapper.pNormalOut = app.m_wrapper.pNormalOut ∧
    (app.on_update M cfg inp).m_heightmapTexture = app.m_heightmapTexture ∧
    (app.on_update M cfg inp).m_normalmapTexture = app.m_normalmapTexture ∧
    (app.on_update M cfg inp).g_pBufReader = app.g_pBufReader := by
  simp only [OceanApp.on_update, hp, if_true, and_self]

/-- Witness of C21 over the reals: the application around the 2 by 2 sample grid, paused, with
the widgets left alone, in the configuration `CPU_NORM_CD`. -/
theorem on_update_paused_witness :
    (({ OceanApp.start (FFTWrapper.sample 2) with m_pause := true } : OceanApp ℝ).on_update
        realLib Config.CPU_NORM_CD
        (FrameInput.idle { OceanApp.start (FFTWrapper.sample 2) with m_pause := true })).m_wrapper =
      FFTWrapper.sample 2 :=
  (on_update_paused realLib Config.CPU_NORM_CD
    (FrameInput.idle { OceanApp.start (FFTWrapper.sample 2) with m_pause := true })
    ({ OceanApp.start (FFTWrapper.sample 2) with m_pause := true } : OceanApp ℝ) rfl).2.1

/-- C22 (as amended). The constructor of the simulation core does not test the requested grid
resolution: for every 32-bit `gridsize` the construction is aborted exactly when one of its ten
array allocations fails; when they succeed it completes (and so does the first call of
`getInstance`), leaving `m_width = m_height = gridsize` converted to `unsigned int`, that is
`gridsize` itself when `0 ≤ gridsize` and `gridsize + 2^32` when `gridsize < 0`, whether or not
`gridsize` is positive or a power of two. -/
theorem constructor_no_validation (alloc : Nat → Nat → Bool) (mem : FFTWrapper F)
    (gridsize : Int) (hlo : -(2 : Int) ^ 31 ≤ gridsize) (hhi : gridsize < 2 ^ 31) :
    (FFTWrapper.construct alloc mem gridsize = none ↔
      ∃ k, k < 10 ∧
        alloc k (if k < 8 then u32 ((gridsize % 2 ^ 32).toNat * (gridsize % 2 ^ 32).toNat)
          else u32 (u32 ((gridsize % 2 ^ 32).toNat * (gridsize % 2 ^ 32).toNat) * 4)) = false) ∧
    ((∀ k, k < 10 →
        alloc k (if k < 8 then u32 ((gridsize % 2 ^ 32).toNat * (gridsize % 2 ^ 32).toNat)
          else u32 (u32 ((gridsize % 2 ^ 32).toNat * (gridsize % 2 ^ 32).toNat) * 4)) = true) →
      ∃ w, FFTWrapper.construct alloc mem gridsize = some w ∧
        FFTWrapper.getInstance alloc mem none gridsize = some w ∧
        w.m_width = (gridsize % 2 ^ 32).toNat ∧ w.m_height = (gridsize % 2 ^ 32).toNat ∧
        (0 ≤ gridsize → (w.m_width : Int) = gridsize ∧ (w.m_height : Int) = gridsize) ∧
        (gridsize < 0 →
          (w.m_width : Int) = gridsize + 2 ^ 32 ∧ (w.m_height : Int) = gridsize + 2 ^ 32)) := by
  have hall : (∀ k, k < 10 →
      alloc k (if k < 8 then u32 ((gridsize % 2 ^ 32).toNat * (gridsize % 2 ^ 32).toNat)
        else u32 (u32 ((gridsize % 2 ^ 32).toNat * (gridsize % 2 ^ 32).toNat) * 4)) = true) →
      FFTWrapper.construct alloc mem gridsize =
        some { mem with
          m_height := (gridsize % 2 ^ 32).toNat
          m_width := (gridsize % 2 ^ 32).toNat
          m_windNormal := ⟨1, 0⟩
          m_windSpeed := 26
          m_amplitude := 20
          m_cosPrecalc := fun _ => []
          m_sinPrecalc := fun _ => [] } := by
    intro h
    have h0 := h 0 (by norm_num)
    have h1 := h 1 (by norm_num)
    have h2 := h 2 (by norm_num)
    have h3 := h 3 (by norm_num)
    have h4 := h 4 (by norm_num)
    have h5 := h 5 (by norm_num)
    have h6 := h 6 (by norm_num)
    have h7 := h 7 (by norm_num)
    have h8 := h 8 (by norm_num)
    have h9 := h 9 (by norm_num)
    norm_num at h0 h1 h2 h3 h4 h5 h6 h7 h8 h9
    simp [FFTWrapper.construct, newArray, h0, h1, h2, h3, h4, h5, h6, h7, h8, h9]
  refine ⟨⟨fun hnone => ?_, fun hex => ?_⟩, fun h => ⟨_, hall h, ?_, rfl, rfl, fun h0 => ?_,
    fun hneg => ?_⟩⟩
  · by_contra hno
    have h : ∀ k, k < 10 →
        alloc k (if k < 8 then u32 ((gridsize % 2 ^ 32).toNat * (gridsize % 2 ^ 32).toNat)
          else u32 (u32 ((gridsize % 2 ^ 32).toNat * (gridsize % 2 ^ 32).toNat) * 4)) = true := by
      intro k hk
      by_contra hk'
      exact hno ⟨k, hk, by simpa using hk'⟩
    rw [hall h] at hnone
    exact absurd hnone (by simp)
  · obtain ⟨k, hk, hf⟩ := hex
    interval_cases k <;> norm_num at hf <;>
      simp [FFTWrapper.construct, newArray, hf]
  · simp only [FFTWrapper.getInstance]
    exact hall h
  · have e : gridsize % 2 ^ 32 = gridsize := Int.emod_eq_of_lt h0 (by omega)
    simp only [e, Int.toNat_of_nonneg h0, and_self]
  · have e : gridsize % 2 ^ 32 = gridsize + 2 ^ 32 := by omega
    have hnn : (0 : Int) ≤ gridsize + 2 ^ 32 := by omega
    simp only [e, Int.toNat_of_nonneg hnn, and_self]

/-- Witness of C22 (as amended): the grid resolution `512` of `Configurations.h` with the
allocator `allocBelow2GiB`. -/
theorem constructor_no_validation_witness :
    ∃ w, FFTWrapper.construct allocBelow2GiB (FFTWrapper.blank 0 : FFTWrapper ℚ) 512 = some w ∧
      w.m_width = ((512 : Int) % 2 ^ 32).toNat :=
  let ⟨w, h1, _, h2, _⟩ := (constructor_no_validation allocBelow2GiB
    (FFTWrapper.blank 0 : FFTWrapper ℚ) 512 (by norm_num) (by norm_num)).2
      (fun k hk => by interval_cases k <;> rfl)
  ⟨w, h1, h2⟩

/-- C22 as stated fails: with the allocator `allocBelow2GiB` the constructor completes for the
grid resolutions `0` and `-1` (non-positive) and `3` (not a power of two), leaving `m_width`
equal to `0`, `2^32 - 1` and `3`; and it is aborted for the positive power of two `2^15`, whose
first array of `2^30` elements is not served. -/
theorem constructor_accepts_invalid_sizes :
    (∃ w, FFTWrapper.construct allocBelow2GiB (FFTWrapper.blank 0 : FFTWrapper ℚ) 0 = some w ∧
      w.m_width = 0) ∧
    (∃ w, FFTWrapper.construct allocBelow2GiB (FFTWrapper.blank 0 : FFTWrapper ℚ) (-1) = some w ∧
      w.m_width = 4294967295) ∧
    (∃ w, FFTWrapper.construct allocBelow2GiB (FFTWrapper.blank 0 : FFTWrapper ℚ) 3 = some w ∧
      w.m_width = 3) ∧
    (0 : Int) ≤ 0 ∧ (-1 : Int) ≤ 0 ∧ (¬ ∃ k : Nat, (3 : Int) = 2 ^ k) ∧
    FFTWrapper.construct allocBelow2GiB (FFTWrapper.blank 0 : FFTWrapper ℚ) (2 ^ 15) = none := by
  refine ⟨⟨_, rfl, rfl⟩, ⟨_, rfl, rfl⟩, ⟨_, rfl, rfl⟩, le_refl _, by norm_num, ?_, rfl⟩
  rintro ⟨k, hk⟩
  rcases Nat.eq_zero_or_pos k with h | h
  · subst h
    norm_num at hk
  · have hd : (2 : Int) ∣ 2 ^ k := dvd_pow_self 2 (by omega)
    rw [← hk] at hd
    omega

end Claims

end FFTOcean
